import Mathlib

set_option maxRecDepth 20000

/-!
# vyatta-protocols-common: configuration translation

A shallow embedding of the tree-rewriting code of `lib/go/component.go`
(`ConvertInterfaceConfig`, `GenerateVifName`) and `lib/go/static/translate.go`
(`MapByKey`, `IsNexthopDisabled`, `TranslateNexthops`, `TranslateNexthopInstances`,
`TranslateRoutes`, `TranslateTables`, `TranslateProtocols`, `TranslateRouting`,
`Translate`), of the stop timer of `lib/go/daemon.go` and of `Set`, `IsEmptyConfig` and
`defaultPmcMeanFunc` of `lib/go/component.go`, followed by the properties proved about
it.

Conventions of the embedding.

* A Go `interface{}` holding decoded JSON is a `Value`.  A `map[string]interface{}` is an
  association list (`Fields`); the order of the list stands for the order in which the Go
  runtime happens to iterate the map.  Reading takes the first binding of a key, writing
  replaces that binding in place, deleting removes every binding of the key and `len`
  counts distinct keys, so every list is read as the map it denotes.
* Go code mutates maps and slices in place.  The embedding passes the tree by value: a
  function returns the parent map as it stands after the call.
* A failed unchecked type assertion (`x.(T)`) is a run-time panic; the functions return
  `none` there and `some` result otherwise.
* `fmt`'s rendering of a value with the `%v` verb is not part of the repository; it is the
  parameter `sprint`.
* A nil map is not told apart from an empty map: `encoding/json` does not produce one and
  the code below creates maps with `make` only.
-/

/-- A dynamically typed Go value as produced by `encoding/json`: `nil`, `bool`, `float64`,
`string`, `[]interface{}` and `map[string]interface{}`.  Numbers are never computed with by
the code below, so they are carried as integers.  `nilSlice` is a `[]interface{}` that is
nil: as an interface value it is different from `nil` and from an empty slice, and
`encoding/json` writes it as `null`. -/
inductive Value where
  | null
  | bool (b : Bool)
  | num (n : Int)
  | str (s : String)
  | nilSlice
  | arr (xs : List Value)
  | obj (kvs : List (String × Value))

/-- A Go map with string keys. -/
abbrev GoMap (α : Type) := List (String × α)

/-- A Go `map[string]interface{}`. -/
abbrev Fields := GoMap Value

namespace Value

mutual
/-- Boolean structural equality of values. -/
def beq : Value → Value → Bool
  | null, null => true
  | bool a, bool b => a == b
  | num a, num b => a == b
  | str a, str b => a == b
  | nilSlice, nilSlice => true
  | arr xs, arr ys => beqList xs ys
  | obj xs, obj ys => beqFields xs ys
  | _, _ => false
/-- Boolean structural equality of slices. -/
def beqList : List Value → List Value → Bool
  | [], [] => true
  | x :: xs, y :: ys => beq x y && beqList xs ys
  | _, _ => false
/-- Boolean structural equality of binding lists. -/
def beqFields : List (String × Value) → List (String × Value) → Bool
  | [], [] => true
  | (k, x) :: xs, (l, y) :: ys => k == l && beq x y && beqFields xs ys
  | _, _ => false
end

mutual
theorem beq_iff : ∀ (a b : Value), beq a b = true ↔ a = b
  | null, b => by cases b <;> simp [beq]
  | bool a, b => by cases b <;> simp [beq]
  | num a, b => by cases b <;> simp [beq]
  | str a, b => by cases b <;> simp [beq]
  | nilSlice, b => by cases b <;> simp [beq]
  | arr xs, b => by cases b <;> simp [beq, beqList_iff xs]
  | obj xs, b => by cases b <;> simp [beq, beqFields_iff xs]
theorem beqList_iff : ∀ (a b : List Value), beqList a b = true ↔ a = b
  | [], b => by cases b <;> simp [beqList]
  | x :: xs, b => by cases b <;> simp [beqList, beq_iff x, beqList_iff xs]
theorem beqFields_iff : ∀ (a b : List (String × Value)), beqFields a b = true ↔ a = b
  | [], b => by cases b <;> simp [beqFields]
  | (k, x) :: xs, b => by
    cases b with
    | nil => simp [beqFields]
    | cons hd tl =>
      obtain ⟨l, y⟩ := hd
      simp [beqFields, beq_iff x, beqFields_iff xs, and_assoc]
end

instance : DecidableEq Value := fun a b => decidable_of_iff _ (beq_iff a b)

end Value

open Value

/-! ## Go map operations -/

/-- The two-result read `v, ok := m[k]`: `none` when the key is absent. -/
def lookup {α : Type} : GoMap α → String → Option α
  | [], _ => none
  | (k', v) :: m, k => if k' = k then some v else lookup m k

/-- The one-result read `m[k]`: an absent key reads as `nil`. -/
def index (m : Fields) (k : String) : Value :=
  (lookup m k).getD null

/-- The assignment `m[k] = v`. -/
def store {α : Type} : GoMap α → String → α → GoMap α
  | [], k, v => [(k, v)]
  | (k', v') :: m, k, v => if k' = k then (k, v) :: m else (k', v') :: store m k v

/-- The statement `delete(m, k)`. -/
def delete {α : Type} (m : GoMap α) (k : String) : GoMap α :=
  m.filter (fun p => p.1 ≠ k)

/-- The keys of a map, each once. -/
def keys {α : Type} (m : GoMap α) : List String :=
  (m.map Prod.fst).dedup

/-- The builtin `len(m)`: the number of keys. -/
def len {α : Type} (m : GoMap α) : Nat :=
  (keys m).length

/-- The checked assertion `xs, _ := v.([]interface{})`: a value of another type gives the
nil slice, over which a `range` loop does not iterate. -/
def sliceOrNil : Value → List Value
  | arr xs => xs
  | _ => []

/-- The slice variable as stored into an `interface{}`: a slice to which nothing was ever
appended is still nil. -/
def sliceValue : List Value → Value
  | [] => nilSlice
  | x :: xs => arr (x :: xs)

/-! ## `component.go`: interface flattening -/

def INTERFACES_KEY : String := "interfaces"
def INTERFACES_LIST_KEY : String := "tagnode"
def SWITCH_INTERFACES_LIST_KEY : String := "name"
def VIF_KEY : String := "vif"

def interface_list_keys : List String := [INTERFACES_LIST_KEY, SWITCH_INTERFACES_LIST_KEY]

/-- `GenerateVifName`: `fmt.Sprintf("%v.%v", parent_name, vif_num)`. -/
def GenerateVifName (sprint : Value → String) (parent_name : String) (vif_num : Value) : String :=
  parent_name ++ "." ++ sprint vif_num

/-- The search `for _, key := range interface_list_keys` of `ConvertInterfaceConfig`:
the first key whose value is a string, with that string. -/
def findIfName (interface_cfg_map : Fields) : List String → Option (String × String)
  | [] => none
  | key :: rest =>
    match index interface_cfg_map key with
    | str if_name => some (key, if_name)
    | _ => findIfName interface_cfg_map rest

/-- The body of the `if if_name_exists` branch: the entry is made to use `tagnode`. -/
def useListKey (interface_cfg_map : Fields) (key if_name : String) : Fields :=
  if key ≠ INTERFACES_LIST_KEY then
    delete (store interface_cfg_map INTERFACES_LIST_KEY (str if_name)) key
  else interface_cfg_map

/-- The loop `for _, vif_cfg := range vif_list`: the entries it appends. -/
def convertVifs (sprint : Value → String) (if_name : String) : List Value → Option (List Value)
  | [] => some []
  | obj vif_cfg_map :: rest =>
    match convertVifs sprint if_name rest with
    | none => none
    | some appended =>
      match lookup vif_cfg_map INTERFACES_LIST_KEY with
      | none => some appended
      | some vif_num =>
        some (obj (store vif_cfg_map INTERFACES_LIST_KEY
          (str (GenerateVifName sprint if_name vif_num))) :: appended)
  | _ :: _ => none

/-- One pass of the loop `for _, interface_cfg := range interface_types`: the entries it
appends to `interface_cfg_list`. -/
def convertInterface (sprint : Value → String) : Value → Option (List Value)
  | obj interface_cfg_map =>
    match findIfName interface_cfg_map interface_list_keys with
    | none => some []
    | some (key, if_name) =>
      let named := useListKey interface_cfg_map key if_name
      match convertVifs sprint if_name (sliceOrNil (index named VIF_KEY)) with
      | none => none
      | some vifs =>
        let parent := delete named VIF_KEY
        some (vifs ++ (if len parent > 1 then [obj parent] else []))
  | _ => none

/-- The loop over the entries of one interface type. -/
def convertInterfaces (sprint : Value → String) : List Value → Option (List Value)
  | [] => some []
  | interface_cfg :: rest =>
    match convertInterface sprint interface_cfg, convertInterfaces sprint rest with
    | some first, some others => some (first ++ others)
    | _, _ => none

/-- The unchecked assertion `interface_types.([]interface{})` followed by the inner loop. -/
def convertType (sprint : Value → String) : Value → Option (List Value)
  | arr interface_types => convertInterfaces sprint interface_types
  | nilSlice => some []
  | _ => none

/-- The loop `for _, interface_types := range cfg_map[INTERFACES_KEY]`. -/
def convertTypes (sprint : Value → String) : Fields → Option (List Value)
  | [] => some []
  | (_, interface_types) :: rest =>
    match convertType sprint interface_types, convertTypes sprint rest with
    | some first, some others => some (first ++ others)
    | _, _ => none

/-- `ConvertInterfaceConfig`. -/
def ConvertInterfaceConfig (sprint : Value → String) (cfg_map : Fields) : Option Fields :=
  match index cfg_map INTERFACES_KEY with
  | null => some cfg_map
  | obj types =>
    match convertTypes sprint types with
    | none => none
    | some interface_cfg_list =>
      some (store cfg_map INTERFACES_KEY (sliceValue interface_cfg_list))
  | _ => none

/-! ## `static/translate.go`: routes and next-hops -/

/-- The comparison `v == nil` of an interface value. -/
def isNil : Value → Bool
  | null => true
  | _ => false

/-- `IsNexthopDisabled`. -/
def IsNexthopDisabled (nh_map : Fields) : Bool :=
  (lookup nh_map "disable").isSome

/-- The `else` branch of the loop of `TranslateNexthops`: a next-hop that is kept has
`interface-name` moved to `tagnode`. -/
def renameInterfaceName (nh_map : Fields) : Fields :=
  if isNil (index nh_map "interface-name") then nh_map
  else delete (store nh_map "tagnode" (index nh_map "interface-name")) "interface-name"

/-- The closing `if deleted { ... }` of the three translation functions.  When nothing was
deleted the Go code leaves `pmap[key]` alone; the entries of that slice were rewritten in
place, which the embedding shows by storing the rewritten slice. -/
def updateParent (pmap : Fields) (key : String) (kept : List Value) (deleted : Bool) : Fields :=
  if deleted then
    if kept.length = 0 then delete pmap key else store pmap key (arr kept)
  else store pmap key (arr kept)

/-- The loop of `TranslateNexthops`, from the last index down to the first (the entries at
the higher indices are gone over before the head of the list): the slice that is left and
the flag `deleted`. -/
def nexthopsLoop : List Value → Option (List Value × Bool)
  | [] => some ([], false)
  | obj nh_map :: higher =>
    match nexthopsLoop higher with
    | none => none
    | some (kept, deleted) =>
      if IsNexthopDisabled nh_map then some (kept, true)
      else some (obj (renameInterfaceName nh_map) :: kept, deleted)
  | _ :: _ => none

/-- `TranslateNexthops`. -/
def TranslateNexthops (pmap : Fields) (key : String) : Option Fields :=
  match index pmap key with
  | null => some pmap
  | nilSlice => some pmap
  | arr nh_arr =>
    match nexthopsLoop nh_arr with
    | none => none
    | some (kept, deleted) => some (updateParent pmap key kept deleted)
  | _ => none

/-- The loop of `TranslateNexthopInstances`. -/
def instancesLoop (nkey : String) : List Value → Option (List Value × Bool)
  | [] => some ([], false)
  | obj inst_entry_map :: higher =>
    match instancesLoop nkey higher with
    | none => none
    | some (kept, deleted) =>
      match TranslateNexthops inst_entry_map nkey with
      | none => none
      | some translated =>
        if isNil (index translated nkey) then some (kept, true)
        else some (obj translated :: kept, deleted)
  | _ :: _ => none

/-- `TranslateNexthopInstances`. -/
def TranslateNexthopInstances (pmap : Fields) (pkey nkey : String) : Option Fields :=
  match index pmap pkey with
  | null => some pmap
  | nilSlice => some pmap
  | arr inst_arr =>
    match instancesLoop nkey inst_arr with
    | none => none
    | some (kept, deleted) => some (updateParent pmap pkey kept deleted)
  | _ => none

/-- The statement `if m[k] == nil { delete(m, k) }`. -/
def deleteIfNil (m : Fields) (k : String) : Fields :=
  if isNil (index m k) then delete m k else m

/-- The renaming of `next-hop-routing-instance-v6` in the loop of `TranslateRoutes`. -/
def renameInstanceV6 (route_entry_map : Fields) : Fields :=
  if isNil (index route_entry_map "next-hop-routing-instance-v6") then route_entry_map
  else delete (store route_entry_map "next-hop-routing-instance"
    (index route_entry_map "next-hop-routing-instance-v6")) "next-hop-routing-instance-v6"

/-- The body of the loop of `TranslateRoutes` up to the test of the route's length: the
route map as rewritten. -/
def translateRoute (nkey : String) (route_entry_map : Fields) : Option Fields :=
  match TranslateNexthops route_entry_map nkey with
  | none => none
  | some hops =>
    match TranslateNexthopInstances (renameInstanceV6 (deleteIfNil hops nkey))
        "next-hop-routing-instance" nkey with
    | none => none
    | some insts => some (deleteIfNil insts "next-hop-routing-instance")

/-- The loop of `TranslateRoutes`. -/
def routesLoop (nkey : String) : List Value → Option (List Value × Bool)
  | [] => some ([], false)
  | obj route_entry_map :: higher =>
    match routesLoop nkey higher with
    | none => none
    | some (kept, deleted) =>
      match translateRoute nkey route_entry_map with
      | none => none
      | some translated =>
        if len translated ≤ 1 then some (kept, true)
        else some (obj translated :: kept, deleted)
  | _ :: _ => none

/-- `TranslateRoutes`. -/
def TranslateRoutes (pmap : Fields) (pkey nkey : String) : Option Fields :=
  match index pmap pkey with
  | null => some pmap
  | nilSlice => some pmap
  | arr route_arr =>
    match routesLoop nkey route_arr with
    | none => none
    | some (kept, deleted) => some (updateParent pmap pkey kept deleted)
  | _ => none

/-! ## `static/translate.go`: tables -/

/-- `MapByKey`, from entry `i` of the slice on.  The Go map holds the entry maps
themselves, shared with the slice; the embedding holds the position of the entry in the
slice instead. -/
def mapByKeyFrom (sprint : Value → String) (key_name : String) :
    Nat → List Value → GoMap Nat → Option (GoMap Nat)
  | _, [], pmap => some pmap
  | i, obj entry_map :: rest, pmap =>
    mapByKeyFrom sprint key_name (i + 1) rest (store pmap (sprint (index entry_map key_name)) i)
  | _, _ :: _, _ => none

/-- `MapByKey`. -/
def MapByKey (sprint : Value → String) (arr : List Value) (key_name : String) :
    Option (GoMap Nat) :=
  mapByKeyFrom sprint key_name 0 arr []

/-- A command run by `TranslateTables`: `vrf-manager --add-table`, `getvrftable --pbr-table`
and `vrf-manager --del-table`, each with the routing instance and the table tag. -/
inductive Request where
  | addTable (ri table_id : String)
  | getTable (ri table_id : String)
  | delTable (ri table_id : String)
  deriving DecidableEq

/-- The four calls of `TranslateRoutes` on a table entry. -/
def translateTableRoutes (tbl_entry_map : Fields) : Option Fields :=
  (((TranslateRoutes tbl_entry_map "interface-route" "next-hop-interface").bind
    (fun m => TranslateRoutes m "interface-route6" "next-hop-interface")).bind
    (fun m => TranslateRoutes m "route" "next-hop")).bind
    (fun m => TranslateRoutes m "route6" "next-hop")

/-- The unchecked assertion `v.([]interface{})`. -/
def asSlice : Value → Option (List Value)
  | arr xs => some xs
  | nilSlice => some []
  | _ => none

/-- The slice `tbl_arr` of `TranslateTables`: empty when the key reads as `nil`. -/
def tableSlice (pmap : Fields) (key : String) : Option (List Value) :=
  if isNil (index pmap key) then some [] else asSlice (index pmap key)

/-- The first loop of `TranslateTables`, over the bindings of `tbl_map` in the order
`todo`.  `getvrftable` is the output of the lookup command (`none` when it fails) and
`ParseFloat` is `strconv.ParseFloat` (`none` on an error).  The result is the table slice,
the commands run so far and whether the loop ran to its end (`false`: the function
returned from inside the loop). -/
def tablesLoop (getvrftable : String → String → Option String)
    (ParseFloat : String → Option Int) (ri : String) :
    List (String × Nat) → List Value → List Request → Option (List Value × List Request × Bool)
  | [], tbl_arr, requests => some (tbl_arr, requests, true)
  | (table_id, i) :: todo, tbl_arr, requests =>
    let asked := requests ++ [Request.addTable ri table_id, Request.getTable ri table_id]
    match getvrftable ri table_id with
    | none => some (tbl_arr, asked, false)
    | some out =>
      match ParseFloat out with
      | none => some (tbl_arr, asked, false)
      | some new_table_id =>
        match tbl_arr[i]? with
        | some (obj tbl_entry_map) =>
          match translateTableRoutes (store tbl_entry_map "tagnode" (num new_table_id)) with
          | none => none
          | some translated =>
            tablesLoop getvrftable ParseFloat ri todo (tbl_arr.set i (obj translated)) asked
        | _ => none

/-- The second loop of `TranslateTables`: the release commands, for the bindings of
`old_tbl_map` in the order `todo`. -/
def releaseLoop (ri : String) (tbl_map : GoMap Nat) : List (String × Nat) → List Request
  | [] => []
  | (table_id, _) :: todo =>
    if (lookup tbl_map table_id).isNone then
      Request.delTable ri table_id :: releaseLoop ri tbl_map todo
    else releaseLoop ri tbl_map todo

/-- The table slice as seen through `pmap[key]` after the loop: the slice held there was
rewritten in place; a slice made by `make` is not reachable from `pmap`. -/
def tablesParent (pmap : Fields) (key : String) (tbl_arr : List Value) : Fields :=
  match index pmap key with
  | arr _ => store pmap key (arr tbl_arr)
  | _ => pmap

/-- `TranslateTables`: the parent map afterwards and the commands run, in order.  `order`
is the order in which the runtime ranges over a map. -/
def TranslateTables (sprint : Value → String) (getvrftable : String → String → Option String)
    (ParseFloat : String → Option Int) (order : GoMap Nat → GoMap Nat)
    (pmap old_pmap : Fields) (key ri : String) : Option (Fields × List Request) :=
  if isNil (index pmap key) && isNil (index old_pmap key) then some (pmap, [])
  else
    match tableSlice pmap key, tableSlice old_pmap key with
    | some tbl_arr, some old_tbl_arr =>
      match MapByKey sprint tbl_arr "tagnode", MapByKey sprint old_tbl_arr "tagnode" with
      | some tbl_map, some old_tbl_map =>
        match tablesLoop getvrftable ParseFloat ri (order tbl_map) tbl_arr [] with
        | none => none
        | some (translated, requests, false) => some (tablesParent pmap key translated, requests)
        | some (translated, requests, true) =>
          some (tablesParent pmap key translated,
            requests ++ releaseLoop ri tbl_map (order old_tbl_map))
      | _, _ => none
    | _, _ => none

/-! ## `static/translate.go`: protocols, routing instances and the whole tree

`TranslateProtocols` and `TranslateRouting` take the subtree as an `interface{}` and
rewrite, in place, the maps reachable from it.  The embedding returns the subtree as it
stands after the call, and the caller stores it back where it was read from.  A map made
by `make` inside the callee is not reachable from the subtree: what is written to it is
lost when the callee returns.  The previous tree is only read. -/

/-- The statement `if v == nil { m = make(map[string]interface{}) } else
{ m = v.(map[string]interface{}) }`. -/
def mapOrMake : Value → Option Fields
  | null => some []
  | obj m => some m
  | _ => none

/-- The four calls of `TranslateRoutes` on the `static` map. -/
def translateStaticRoutes (static_map : Fields) : Option Fields :=
  (((TranslateRoutes static_map "interface-route" "next-hop-interface").bind
    (fun m => TranslateRoutes m "interface-route6" "next-hop-interface")).bind
    (fun m => TranslateRoutes m "route" "next-hop")).bind
    (fun m => TranslateRoutes m "route6" "next-hop")

/-- The map `parent` after the map it holds under `key` was rewritten in place and now
reads `v`; when `parent[key]` is not a map, the callee worked on a map of its own and
`parent` is as it was. -/
def rewritten (parent : Fields) (key : String) (v : Value) : Fields :=
  match index parent key with
  | obj _ => store parent key v
  | _ => parent

/-- The value `proto_if` after `TranslateProtocols` rewrote the `static` map to
`static_map`. -/
def protocolsAfter (proto_if : Value) (static_map : Fields) : Value :=
  match proto_if with
  | obj proto_map => obj (rewritten proto_map "static" (obj static_map))
  | v => v

/-- `TranslateProtocols`: the value `proto_if` afterwards and the commands run. -/
def TranslateProtocols (sprint : Value → String) (getvrftable : String → String → Option String)
    (ParseFloat : String → Option Int) (order : GoMap Nat → GoMap Nat)
    (proto_if old_proto_if : Value) (ri : String) : Option (Value × List Request) :=
  if isNil proto_if && isNil old_proto_if then some (proto_if, [])
  else
    match mapOrMake proto_if, mapOrMake old_proto_if with
    | some proto_map, some old_proto_map =>
      if isNil (index proto_map "static") && isNil (index old_proto_map "static") then
        some (proto_if, [])
      else
        match mapOrMake (index proto_map "static"), mapOrMake (index old_proto_map "static") with
        | some static_map, some old_static_map =>
          match translateStaticRoutes static_map with
          | none => none
          | some routed =>
            match TranslateTables sprint getvrftable ParseFloat order routed old_static_map
                "table" ri with
            | none => none
            | some (translated, requests) => some (protocolsAfter proto_if translated, requests)
        | _, _ => none
    | _, _ => none

/-- The map `old_ri_map_by_key[key]` of the first loop of `TranslateRouting`, made empty
when the key is not bound. -/
def oldEntry (old_ri_arr : List Value) (old_ri_map : GoMap Nat) (key : String) : Fields :=
  match lookup old_ri_map key with
  | some j =>
    match old_ri_arr[j]? with
    | some (obj old_ri_entry_map) => old_ri_entry_map
    | _ => []
  | none => []

/-- The first loop of `TranslateRouting`, over the bindings of `ri_map_by_key` in the
order `todo`: the routing-instance slice afterwards and the commands run. -/
def routingLoop (sprint : Value → String) (getvrftable : String → String → Option String)
    (ParseFloat : String → Option Int) (order : GoMap Nat → GoMap Nat)
    (old_ri_arr : List Value) (old_ri_map : GoMap Nat) :
    List (String × Nat) → List Value → List Request → Option (List Value × List Request)
  | [], ri_arr, requests => some (ri_arr, requests)
  | (key, i) :: todo, ri_arr, requests =>
    match ri_arr[i]? with
    | some (obj ri_entry_map) =>
      match TranslateProtocols sprint getvrftable ParseFloat order
          (index ri_entry_map "protocols")
          (index (oldEntry old_ri_arr old_ri_map key) "protocols") key with
      | none => none
      | some (protocols, asked) =>
        routingLoop sprint getvrftable ParseFloat order old_ri_arr old_ri_map todo
          (ri_arr.set i (obj (rewritten ri_entry_map "protocols" protocols))) (requests ++ asked)
    | _ => none

/-- The second loop of `TranslateRouting`, over the bindings of `old_ri_map_by_key` in
the order `todo`: the commands run. -/
def routingOldLoop (sprint : Value → String) (getvrftable : String → String → Option String)
    (ParseFloat : String → Option Int) (order : GoMap Nat → GoMap Nat)
    (ri_map : GoMap Nat) (old_ri_arr : List Value) :
    List (String × Nat) → List Request → Option (List Request)
  | [], requests => some requests
  | (key, j) :: todo, requests =>
    if (lookup ri_map key).isNone then
      match old_ri_arr[j]? with
      | some (obj old_ri_entry_map) =>
        match TranslateProtocols sprint getvrftable ParseFloat order null
            (index old_ri_entry_map "protocols") key with
        | none => none
        | some (_, asked) =>
          routingOldLoop sprint getvrftable ParseFloat order ri_map old_ri_arr todo
            (requests ++ asked)
      | _ => none
    else routingOldLoop sprint getvrftable ParseFloat order ri_map old_ri_arr todo requests

/-- The value `routing_if` after the first loop of `TranslateRouting` rewrote the entries
of the routing-instance slice. -/
def routingAfter (routing_if : Value) (ri_arr : List Value) : Value :=
  match routing_if with
  | obj routing_map => obj (tablesParent routing_map "routing-instance" ri_arr)
  | v => v

/-- `TranslateRouting`: the value `routing_if` afterwards and the commands run. -/
def TranslateRouting (sprint : Value → String) (getvrftable : String → String → Option String)
    (ParseFloat : String → Option Int) (order : GoMap Nat → GoMap Nat)
    (routing_if old_routing_if : Value) : Option (Value × List Request) :=
  if isNil routing_if && isNil old_routing_if then some (routing_if, [])
  else
    match mapOrMake old_routing_if, mapOrMake routing_if with
    | some old_routing_map, some routing_map =>
      if isNil (index routing_map "routing-instance") &&
          isNil (index old_routing_map "routing-instance") then some (routing_if, [])
      else
        match tableSlice routing_map "routing-instance",
            tableSlice old_routing_map "routing-instance" with
        | some ri_arr, some old_ri_arr =>
          match MapByKey sprint ri_arr "instance-name",
              MapByKey sprint old_ri_arr "instance-name" with
          | some ri_map, some old_ri_map =>
            match routingLoop sprint getvrftable ParseFloat order old_ri_arr old_ri_map
                (order ri_map) ri_arr [] with
            | none => none
            | some (translated, requests) =>
              match routingOldLoop sprint getvrftable ParseFloat order ri_map old_ri_arr
                  (order old_ri_map) requests with
              | none => none
              | some all => some (routingAfter routing_if translated, all)
          | _, _ => none
        | _, _ => none
    | _, _ => none

/-- `Translate`: the current tree afterwards and the commands run.  The test that one of
the two maps is not `nil` is not embedded: with two empty maps both calls return at their
first test. -/
def Translate (sprint : Value → String) (getvrftable : String → String → Option String)
    (ParseFloat : String → Option Int) (order : GoMap Nat → GoMap Nat)
    (frontend_map old_frontend_map : Fields) : Option (Fields × List Request) :=
  match TranslateProtocols sprint getvrftable ParseFloat order (index frontend_map "protocols")
      (index old_frontend_map "protocols") "default" with
  | none => none
  | some (protocols, asked) =>
    match TranslateRouting sprint getvrftable ParseFloat order (index frontend_map "routing")
        (index old_frontend_map "routing") with
    | none => none
    | some (routing, released) =>
      some (rewritten (rewritten frontend_map "protocols" protocols) "routing" routing,
        asked ++ released)

/-- The routing instance that a command names. -/
def Request.ri : Request → String
  | Request.addTable ri _ => ri
  | Request.getTable ri _ => ri
  | Request.delTable ri _ => ri

/-! ## `daemon.go`: the stop timer of a daemon

The daemon is a record that every method reads and writes; a method returns what it returns
in Go, the record afterwards and what it did to the outside, in order.  The control lock
is not a field: `stopAndDisableCallback` takes it, and so does every caller of the other
methods in `component.go`, so a call runs from its start to its end without another call
of the same daemon in between, and a call is one step.  The clock is read by the caller:
`now` is what `time.Now()` returns during the step.  The service manager is the parameter
`mgr`, giving the error of a request (`none` for `nil`); the methods hand that error on
without looking into it, so the errors are of any type `ε`. -/

/-- The five requests to the service manager. -/
inductive ManagerAction where
  | start
  | stop
  | restart
  | enable
  | disable
  deriving DecidableEq

/-- A `*time.Timer` made by `time.AfterFunc(d, pd.stopAndDisableCallback)`. -/
structure Timer where
  d : Nat
  deriving DecidableEq

/-- What a method does to the outside: a request to the service manager for a unit, a
`Stop()` of a timer, the arming of a timer. -/
inductive Effect where
  | request (action : ManagerAction) (unit : String)
  | timerStop (timer : Timer)
  | afterFunc (timer : Timer)
  deriving DecidableEq

def stopWaitSecs : Nat := 10

/-- `time.Second`, in nanoseconds. -/
def Second : Nat := 1000000000

/-- The struct `ProtocolsDaemon`; times are in nanoseconds. -/
structure ProtocolsDaemon where
  unit : String
  stopTimer : Option Timer
  stopTimerDuration : Nat
  stopTimerStartedAt : Nat
  deriving DecidableEq

/-- `NewProtocolsDaemon`. -/
def NewProtocolsDaemon (unit : String) : ProtocolsDaemon :=
  { unit := unit, stopTimer := none, stopTimerDuration := stopWaitSecs * Second,
    stopTimerStartedAt := 0 }

namespace ProtocolsDaemon

/-- `CancelStopAndDisable`. -/
def CancelStopAndDisable (pd : ProtocolsDaemon) : Bool × ProtocolsDaemon × List Effect :=
  match pd.stopTimer with
  | some timer => (true, { pd with stopTimer := none }, [Effect.timerStop timer])
  | none => (false, pd, [])

/-- The common body of `Start`, `Stop`, `Restart`, `Enable` and `Disable`: cancel, then
one request, whose error is returned. -/
def control {ε : Type} (mgr : ManagerAction → String → Option ε) (action : ManagerAction) (pd : ProtocolsDaemon) :
    Option ε × ProtocolsDaemon × List Effect :=
  let cancelled := pd.CancelStopAndDisable
  (mgr action pd.unit, cancelled.2.1, cancelled.2.2 ++ [Effect.request action pd.unit])

/-- `Start`. -/
def Start {ε : Type} (mgr : ManagerAction → String → Option ε) (pd : ProtocolsDaemon) :
    Option ε × ProtocolsDaemon × List Effect :=
  control mgr ManagerAction.start pd

/-- `Stop`. -/
def Stop {ε : Type} (mgr : ManagerAction → String → Option ε) (pd : ProtocolsDaemon) :
    Option ε × ProtocolsDaemon × List Effect :=
  control mgr ManagerAction.stop pd

/-- `Restart`. -/
def Restart {ε : Type} (mgr : ManagerAction → String → Option ε) (pd : ProtocolsDaemon) :
    Option ε × ProtocolsDaemon × List Effect :=
  control mgr ManagerAction.restart pd

/-- `Enable`. -/
def Enable {ε : Type} (mgr : ManagerAction → String → Option ε) (pd : ProtocolsDaemon) :
    Option ε × ProtocolsDaemon × List Effect :=
  control mgr ManagerAction.enable pd

/-- `Disable`. -/
def Disable {ε : Type} (mgr : ManagerAction → String → Option ε) (pd : ProtocolsDaemon) :
    Option ε × ProtocolsDaemon × List Effect :=
  control mgr ManagerAction.disable pd

/-- `stopAndDisableCallback`, run at the time `now`. -/
def stopAndDisableCallback {ε : Type} (mgr : ManagerAction → String → Option ε) (now : Nat)
    (pd : ProtocolsDaemon) : ProtocolsDaemon × List Effect :=
  match pd.stopTimer with
  | none => (pd, [])
  | some _ =>
    if now > pd.stopTimerStartedAt + pd.stopTimerDuration then
      let stopped := pd.Stop mgr
      let disabled := stopped.2.1.Disable mgr
      ({ disabled.2.1 with stopTimer := none }, stopped.2.2 ++ disabled.2.2)
    else (pd, [])

/-- `StopAndDisableIfScheduled`. -/
def StopAndDisableIfScheduled {ε : Type} (mgr : ManagerAction → String → Option ε) (pd : ProtocolsDaemon) :
    ProtocolsDaemon × List Effect :=
  let cancelled := pd.CancelStopAndDisable
  if cancelled.1 then
    let stopped := cancelled.2.1.Stop mgr
    let disabled := stopped.2.1.Disable mgr
    (disabled.2.1, cancelled.2.2 ++ stopped.2.2 ++ disabled.2.2)
  else (cancelled.2.1, cancelled.2.2)

/-- `ScheduleStopAndDisable`, run at the time `now`. -/
def ScheduleStopAndDisable (now : Nat) (pd : ProtocolsDaemon) : ProtocolsDaemon × List Effect :=
  let cancelled := pd.CancelStopAndDisable
  ({ cancelled.2.1 with
      stopTimerStartedAt := now, stopTimer := some { d := pd.stopTimerDuration } },
    cancelled.2.2 ++ [Effect.afterFunc { d := pd.stopTimerDuration }])

end ProtocolsDaemon

/-- A call of a method of a daemon. -/
inductive Call where
  | Start
  | Stop
  | Restart
  | Enable
  | Disable
  | stopAndDisableCallback (now : Nat)
  | StopAndDisableIfScheduled
  | ScheduleStopAndDisable (now : Nat)
  | CancelStopAndDisable
  deriving DecidableEq

/-- One call as a step: the daemon afterwards and what the call did. -/
def step {ε : Type} (mgr : ManagerAction → String → Option ε) (pd : ProtocolsDaemon) :
    Call → ProtocolsDaemon × List Effect
  | Call.Start => (pd.Start mgr).2
  | Call.Stop => (pd.Stop mgr).2
  | Call.Restart => (pd.Restart mgr).2
  | Call.Enable => (pd.Enable mgr).2
  | Call.Disable => (pd.Disable mgr).2
  | Call.stopAndDisableCallback now => pd.stopAndDisableCallback mgr now
  | Call.StopAndDisableIfScheduled => pd.StopAndDisableIfScheduled mgr
  | Call.ScheduleStopAndDisable now => pd.ScheduleStopAndDisable now
  | Call.CancelStopAndDisable => pd.CancelStopAndDisable.2

/-- A sequence of calls, one after the other: each call with what it did. -/
def trace {ε : Type} (mgr : ManagerAction → String → Option ε) :
    ProtocolsDaemon → List Call → List (Call × List Effect)
  | _, [] => []
  | pd, call :: calls => (call, (step mgr pd call).2) :: trace mgr (step mgr pd call).1 calls

/-- The daemon after a sequence of calls. -/
def after {ε : Type} (mgr : ManagerAction → String → Option ε) : ProtocolsDaemon → List Call → ProtocolsDaemon
  | pd, [] => pd
  | pd, call :: calls => after mgr (step mgr pd call).1 calls

/-- Whether an effect is a stop or a disable request. -/
def Effect.isStopOrDisable : Effect → Bool
  | Effect.request ManagerAction.stop _ => true
  | Effect.request ManagerAction.disable _ => true
  | _ => false

/-! ## `component.go`: updates and the daemons of a component

A `[]byte` is the list of its bytes.  Of a `ProtocolsModelComponent` the embedding keeps
what `Set` uses: the daemons and the two callbacks.  `go-multierror` is not part of the
repository: a `*multierror.Error` is the list of the errors it holds, each of them the
string it prints; `multierr.Append` adds at the end an error that is not `nil`, or, when
that error is itself a `*multierror.Error` (as is the error of `writeJsonFile`, which the
default set handler returns), the errors it holds; and `ErrorOrNil` is `nil` for the empty
list.  `ConvertConfigToInternalJson` runs an external command and is a parameter, as are
the service manager and the clock. -/

/-- A `[]byte`. -/
abbrev Bytes := List Nat

/-- `bytes.Trim(s, cutset)` for a cutset that is the one byte `c`. -/
def Trim (s : Bytes) (c : Nat) : Bytes :=
  ((s.dropWhile (fun b => b == c)).reverse.dropWhile (fun b => b == c)).reverse

/-- `EmptyConfig`: the bytes of `{}`. -/
def EmptyConfig : Bytes := [123, 125]

/-- `IsEmptyConfig`; 10 is the byte of the newline. -/
def IsEmptyConfig (cfg : Bytes) : Bool :=
  Trim cfg 10 == EmptyConfig

/-- `defaultPmcMeanFunc`; the component it is given is not used. -/
def defaultPmcMeanFunc (cfg : Bytes) : Bool :=
  !IsEmptyConfig cfg

/-- An `error` that is not `nil`, as `multierr.Append` tells errors apart: a
`*multierror.Error`, with the errors it holds, or an error of another type, with the
string it prints. -/
inductive GoError where
  | plain (msg : String)
  | multi (errors : List String)
  deriving DecidableEq

/-- The fields of `ProtocolsModelComponent` that `Set` reads.  The daemons are in the
order in which the runtime ranges over the map; the callbacks are given the component in
Go and are functions of the configuration here. -/
structure ProtocolsModelComponent where
  daemons : GoMap ProtocolsDaemon
  setFunc : Bytes → Option GoError
  meanFunc : Bytes → Bool

/-- What `multierr.Append` adds for one error: nothing for `nil`, the errors it holds for
a `*multierror.Error`, the error itself for an error of another type. -/
def multierr.appended : Option GoError → List String
  | none => []
  | some (GoError.multi errors) => errors
  | some (GoError.plain msg) => [msg]

/-- `multierr.Append(ret_err, err)`, for the list of the errors that `ret_err` holds. -/
def multierr.Append (ret_err : List String) (err : Option GoError) : List String :=
  ret_err ++ multierr.appended err

/-- `ErrorOrNil`. -/
def multierr.ErrorOrNil (ret_err : List String) : Option GoError :=
  if ret_err.length = 0 then none else some (GoError.multi ret_err)

/-- What `Set` does to the outside: the call of the set handler, the write of the system
configuration file, and what a method of the daemon under a key does. -/
inductive SetEvent where
  | handler (conv_cfg : Bytes)
  | cache (cfg : Bytes)
  | daemon (name : String) (effect : Effect)
  deriving DecidableEq

/-- The loop of `Set` over the daemons: the daemons afterwards, the errors collected and
what was done, in order.  `now name` is the time read when the stop of the daemon under
`name` is scheduled. -/
def setLoop (mgr : ManagerAction → String → Option GoError) (now : String → Nat)
    (meanFunc : Bytes → Bool) (conv_cfg : Bytes) :
    GoMap ProtocolsDaemon → List String → GoMap ProtocolsDaemon × List String × List SetEvent
  | [], ret_err => ([], ret_err, [])
  | (name, pd) :: rest, ret_err =>
    if meanFunc conv_cfg then
      let enabled := pd.Enable mgr
      let started := enabled.2.1.Start mgr
      let driven := setLoop mgr now meanFunc conv_cfg rest
        (multierr.Append (multierr.Append ret_err enabled.1) started.1)
      ((name, started.2.1) :: driven.1, driven.2.1,
        (enabled.2.2 ++ started.2.2).map (SetEvent.daemon name) ++ driven.2.2)
    else
      let scheduled := pd.ScheduleStopAndDisable (now name)
      let driven := setLoop mgr now meanFunc conv_cfg rest ret_err
      ((name, scheduled.1) :: driven.1, driven.2.1,
        scheduled.2.map (SetEvent.daemon name) ++ driven.2.2)

/-- `Set`: the error returned, the daemons afterwards and what was done, in order.  The
error of the conversion is returned as it is.  The set handler is called before
`SetSystemConfig`, as the statements of `Set` stand (the comment above `Set` names the two
in the other order).  The error of `SetSystemConfig` is not read. -/
def ProtocolsModelComponent.Set (ConvertConfigToInternalJson : Bytes → Bytes × Option GoError)
    (mgr : ManagerAction → String → Option GoError) (now : String → Nat)
    (pmc : ProtocolsModelComponent) (cfg : Bytes) :
    Option GoError × GoMap ProtocolsDaemon × List SetEvent :=
  match ConvertConfigToInternalJson cfg with
  | (_, some err) => (some err, pmc.daemons, [])
  | (conv_cfg, none) =>
    let ret_err := multierr.Append [] (pmc.setFunc conv_cfg)
    let driven := setLoop mgr now pmc.meanFunc conv_cfg pmc.daemons ret_err
    (multierr.ErrorOrNil driven.2.1, driven.1,
      SetEvent.handler conv_cfg :: SetEvent.cache cfg :: driven.2.2)

/-- Whether `json.Marshal`, with which `ConvertJsonInterfaceConfig` and the tests of
`component_test.go` write the converted tree, writes a value as `null`: it does so for
`nil` and for a slice that is nil.  `encoding/json` is not part of the repository. -/
def marshalsAsNull : Value → Bool
  | null => true
  | nilSlice => true
  | _ => false

/-! ## Example inputs -/

/-- A rendering used to evaluate examples: it agrees with `fmt` on strings, on `nil`, on
booleans and on the integers from -999999 to 999999. -/
def sprintSmall : Value → String
  | null => "<nil>"
  | .bool true => "true"
  | .bool false => "false"
  | num n => toString n
  | str s => s
  | nilSlice => "[]"
  | arr _ => "[]"
  | obj _ => "map[]"


/-- The `ip` and `ipv6` blocks of the inputs of `component_test.go`. -/
def exTtl (n : Int) : Value := obj [("multicast", obj [("ttl-threshold", num n)])]

/-- The `protocols` block of the inputs of `component_test.go`. -/
def exProtocols : Value := obj [("multicast", obj [("ip", obj [("routing", null)])])]

def exVif100 : Fields := [("tagnode", num 100), ("ip", exTtl 78), ("ipv6", exTtl 90)]

def exVif200 : Fields := [("tagnode", num 200), ("ip", exTtl 77), ("ipv6", exTtl 82)]

/-- A VIF map without `tagnode` (`TestConvertInterfaceConfigParentAndInvalidVif`). -/
def exVifNoTag : Fields := [("ip", exTtl 78), ("ipv6", exTtl 90)]

/-- The entry of `TestConvertInterfaceConfigParentAndVifs`. -/
def exParent : Fields :=
  [("vif", arr [obj exVif100, obj exVif200]), ("ip", exTtl 100), ("ipv6", exTtl 110),
    ("tagnode", str "dp0s4")]

/-- The input of `TestConvertInterfaceConfigParentAndVifs`. -/
def exParentAndVifs : Fields :=
  [("interfaces", obj [("dataplane", arr [obj exParent])]), ("protocols", exProtocols)]

/-- The entry of `TestConvertInterfaceConfigInvalidParentAndVifs`: no `tagnode`, no `name`. -/
def exUnnamed : Fields :=
  [("vif", arr [obj exVif100, obj exVif200]), ("ip", exTtl 100), ("ipv6", exTtl 110)]

/-- The input of `TestConvertInterfaceConfigInvalidParentAndVifs`. -/
def exInvalidParent : Fields :=
  [("interfaces", obj [("dataplane", arr [obj exUnnamed])]), ("protocols", exProtocols)]

/-- The entry of `TestConvertInterfaceConfigParentAndInvalidVif`. -/
def exParentInvalidVif : Fields :=
  [("vif", arr [obj exVifNoTag, obj exVif200]), ("ip", exTtl 100), ("ipv6", exTtl 110),
    ("tagnode", str "dp0s4")]

/-- The input of `TestConvertInterfaceConfigParentAndInvalidVif`. -/
def exInvalidVif : Fields :=
  [("interfaces", obj [("dataplane", arr [obj exParentInvalidVif])]),
    ("protocols", exProtocols)]

/-- The entry of `TestConvertInterfaceswitchVif`. -/
def exSwitch : Fields :=
  [("vif", arr [obj [("tagnode", num 100), ("ip", exTtl 79)]]), ("name", str "sw1")]

/-- The input of `TestConvertInterfaceswitchVif`. -/
def exSwitchVif : Fields :=
  [("interfaces", obj [("switch", arr [obj exSwitch])]), ("protocols", exProtocols)]

/-- A route with one disabled and one enabled next-hop. -/
def exRouteA : Fields :=
  [("tagnode", str "10.0.0.0/8"),
    ("next-hop", arr [obj [("tagnode", str "192.0.2.1"), ("disable", null)],
      obj [("tagnode", str "192.0.2.2")]])]

/-- The route `exRouteA` as translated. -/
def exRouteA' : Fields :=
  [("tagnode", str "10.0.0.0/8"), ("next-hop", arr [obj [("tagnode", str "192.0.2.2")]])]

/-- A route whose only next-hop is disabled. -/
def exRouteB : Fields :=
  [("tagnode", str "11.0.0.0/8"),
    ("next-hop", arr [obj [("tagnode", str "192.0.2.1"), ("disable", null)]])]

/-- The route `exRouteB` as translated. -/
def exRouteB' : Fields := [("tagnode", str "11.0.0.0/8")]

/-- A `static` block with the two routes. -/
def exStatic : Fields := [("route", arr [obj exRouteA, obj exRouteB])]

/-- An allocator that knows the tables `1` and `3`: the output of `getvrftable`. -/
def exGetvrftable : String → String → Option String
  | _, "1" => some "101"
  | _, "3" => some "103"
  | _, _ => none

/-- `strconv.ParseFloat` on the outputs of `exGetvrftable`. -/
def exParseFloat : String → Option Int
  | "101" => some 101
  | "103" => some 103
  | _ => none

/-- A `static` block with the tables `1` and `2`; the allocator fails on `2`. -/
def exTables12 : Fields :=
  [("table", arr [obj [("tagnode", num 1), ("route", arr [obj exRouteA, obj exRouteB])],
    obj [("tagnode", num 2)]])]

/-- A `static` block with the tables `1` and `3`. -/
def exTables13 : Fields :=
  [("table", arr [obj [("tagnode", num 1), ("route", arr [obj exRouteA, obj exRouteB])],
    obj [("tagnode", num 3)]])]

/-- A previous `static` block with the tables `1` and `5`. -/
def exTables15 : Fields :=
  [("table", arr [obj [("tagnode", num 1)], obj [("tagnode", num 5)]])]

/-- A service manager for the examples: every request succeeds. -/
def exMgr : ManagerAction → String → Option String := fun _ _ => none

/-- A daemon with a stop scheduled at time 5. -/
def exPending : ProtocolsDaemon :=
  { unit := "pimd", stopTimer := some { d := 10 * Second },
    stopTimerDuration := 10 * Second, stopTimerStartedAt := 5 }

/-- An interface entry whose `tagnode` is a number and whose `name` is a string. -/
def exNumTag : Fields := [("tagnode", num 5), ("name", str "sw1"), ("ip", exTtl 78)]

/-- A tree holding the entry `exNumTag`. -/
def exNumTagTree : Fields := [("interfaces", obj [("switch", arr [obj exNumTag])])]

/-- An allocator every lookup of which succeeds: the output of `getvrftable`. -/
def exShiftGetvrftable : String → String → Option String
  | _, "1" => some "101"
  | _, "101" => some "201"
  | _, _ => some "0"

/-- `strconv.ParseFloat` on the outputs of `exShiftGetvrftable`. -/
def exShiftParseFloat : String → Option Int
  | "101" => some 101
  | "201" => some 201
  | _ => some 0

/-- A `static` block with the table `1`. -/
def exTables1 : Fields := [("table", arr [obj [("tagnode", num 1)]])]

/-- An allocator that gives the table `7` the identifier 7. -/
def exSameGetvrftable : String → String → Option String
  | _, "7" => some "7"
  | _, _ => none

/-- `strconv.ParseFloat` on the outputs of `exSameGetvrftable`. -/
def exSameParseFloat : String → Option Int
  | "7" => some 7
  | _ => none

/-- A `static` block with the table `7`. -/
def exTables7 : Fields :=
  [("table", arr [obj [("tagnode", num 7), ("route", arr [obj exRouteA, obj exRouteB])]])]

/-- A previous tree with the routing instance `red`, which has the tables `1` and `3`. -/
def exTreeRed : Fields :=
  [("routing", obj [("routing-instance", arr [obj [("instance-name", str "red"),
    ("protocols", obj [("static", obj [("table",
      arr [obj [("tagnode", num 1)], obj [("tagnode", num 3)]])])])]])])]

/-- A current tree with the routing instance `blue` and no other. -/
def exTreeBlue : Fields :=
  [("routing", obj [("routing-instance", arr [obj [("instance-name", str "blue")]])])]

/-- The allocator `exGetvrftable`, except that every lookup fails for the routing
instance `red`. -/
def exRedFails : String → String → Option String
  | "red", _ => none
  | ri, table_id => exGetvrftable ri table_id

/-- A current tree with the table `1` in the default instance and the routing instances
`red`, with the table `1`, and `blue`, with the table `3`. -/
def exTreeRedBlue : Fields :=
  [("protocols", obj [("static", obj [("table", arr [obj [("tagnode", num 1)]])])]),
    ("routing", obj [("routing-instance", arr [
      obj [("instance-name", str "red"),
        ("protocols", obj [("static", obj [("table", arr [obj [("tagnode", num 1)]])])])],
      obj [("instance-name", str "blue"),
        ("protocols", obj [("static", obj [("table", arr [obj [("tagnode", num 3)]])])])]])])]

/-- A next-hop routing instance whose only next-hop is disabled. -/
def exInstRed : Fields :=
  [("instance-name", str "red"),
    ("next-hop", arr [obj [("tagnode", str "192.0.2.1"), ("disable", null)]])]

/-- A next-hop routing instance with one enabled and one disabled next-hop. -/
def exInstBlue : Fields :=
  [("instance-name", str "blue"),
    ("next-hop", arr [obj [("tagnode", str "192.0.2.2")],
      obj [("tagnode", str "192.0.2.3"), ("disable", null)]])]

/-- The instance `exInstBlue` as translated. -/
def exInstBlue' : Fields :=
  [("instance-name", str "blue"), ("next-hop", arr [obj [("tagnode", str "192.0.2.2")]])]

/-- A route with the two instances under `next-hop-routing-instance`. -/
def exRouteInst : Fields :=
  [("tagnode", str "12.0.0.0/8"),
    ("next-hop-routing-instance", arr [obj exInstRed, obj exInstBlue])]

/-- A route with the two instances under `next-hop-routing-instance-v6`. -/
def exRouteInstV6 : Fields :=
  [("tagnode", str "2001:db8::/32"),
    ("next-hop-routing-instance-v6", arr [obj exInstRed, obj exInstBlue])]

/-- A service manager that cannot start `pimd`. -/
def exMgrNoStart : ManagerAction → String → Option GoError
  | ManagerAction.start, "pimd" => some (GoError.plain "Unit pimd.service not found.")
  | _, _ => none

/-- A daemon with a stop scheduled at time 5. -/
def exRipd : ProtocolsDaemon :=
  { unit := "ripd", stopTimer := some { d := 10 * Second },
    stopTimerDuration := 10 * Second, stopTimerStartedAt := 5 }

/-- A component with the daemons `pimd` and `ripd`; its set handler fails as
`writeJsonFile` does when neither `os.Chown` nor `os.Rename` succeeds, and every
configuration is meaningful but `{}`. -/
def exComponent : ProtocolsModelComponent :=
  { daemons := [("pimd", NewProtocolsDaemon "pimd"), ("ripd", exRipd)],
    setFunc := fun _ => some (GoError.multi ["chown failed", "rename failed"]),
    meanFunc := defaultPmcMeanFunc }

/-- A conversion that fails on the empty byte list and returns the other configurations as
they are. -/
def exConvert : Bytes → Bytes × Option GoError
  | [] => ([123, 125], some (GoError.plain "unexpected end of JSON input"))
  | cfg => (cfg, none)

/-- The input of `TestConvertInterfaceswitchVifInvalidName`: the entry has `if-name`
where a name is looked for under `tagnode` and `name`. -/
def exSwitchIfName : Fields :=
  [("interfaces", obj [("switch", arr [obj [
    ("vif", arr [obj [("tagnode", num 100), ("ip", exTtl 79)]]), ("if-name", str "sw1")]])]),
    ("protocols", exProtocols)]

/-- A route whose instance, under `next-hop-routing-instance-v6`, is named by
`interface-name` and has an instance list of its own. -/
def exRouteNested : Fields :=
  [("tagnode", str "10.0.0.0/8"),
    ("next-hop-routing-instance-v6", arr [obj [("interface-name", str "dp0s3"),
      ("next-hop-routing-instance", arr [obj [("tagnode", str "192.0.2.1")]])]])]


/-- An interface entry whose `tagnode` is a number, whose `name` is a string, and which has
one VIF. -/
def exNumTagVif : Fields :=
  [("tagnode", num 5), ("name", str "sw1"),
    ("vif", arr [obj [("tagnode", num 100), ("ip", exTtl 79)]])]

/-- A tree holding the entry `exNumTagVif`. -/
def exNumTagVifTree : Fields := [("interfaces", obj [("switch", arr [obj exNumTagVif])])]

/-- A route without `tagnode`, with one field. -/
def exRouteNoTag : Fields := [("blackhole", obj [("distance", num 5)])]

/-- A route with its `tagnode` and one other field. -/
def exRouteBlackhole : Fields :=
  [("tagnode", str "10.0.0.0/8"), ("blackhole", obj [("distance", num 5)])]

/-- A `static` block with the routes `exRouteNoTag` and `exRouteBlackhole`. -/
def exStaticNoTag : Fields := [("route", arr [obj exRouteNoTag, obj exRouteBlackhole])]

/-- A next-hop routing instance with an empty list of next-hops. -/
def exInstEmpty : Fields := [("instance-name", str "red"), ("next-hop", arr [])]

/-- A route whose only instance has an empty list of next-hops. -/
def exRouteInstEmpty : Fields :=
  [("tagnode", str "12.0.0.0/8"), ("next-hop-routing-instance", arr [obj exInstEmpty])]

/-- A next-hop routing instance with one enabled next-hop. -/
def exInstGreen : Fields :=
  [("instance-name", str "green"), ("next-hop", arr [obj [("tagnode", str "192.0.2.9")]])]

/-- A route with the instance `blue` under `next-hop-routing-instance` and the instance
`green` under `next-hop-routing-instance-v6`. -/
def exRouteInstBoth : Fields :=
  [("tagnode", str "12.0.0.0/8"), ("next-hop-routing-instance", arr [obj exInstBlue]),
    ("next-hop-routing-instance-v6", arr [obj exInstGreen])]

/-- A previous `static` block with the table `101`. -/
def exTables101 : Fields := [("table", arr [obj [("tagnode", num 101)]])]

/-- A table entry with its tag only. -/
def exTable (n : Int) : Fields := [("tagnode", num n)]

/-- A `static` block with the tables of the given tags. -/
def exStaticTables (tags : List Int) : Fields :=
  [("table", arr (tags.map (fun n => obj (exTable n))))]

/-- An entry of the routing-instance collection with the given name and tables. -/
def exInstance (name : String) (tags : List Int) : Fields :=
  [("instance-name", str name), ("protocols", obj [("static", obj (exStaticTables tags))])]

/-- A previous tree with the tables `1` and `5` in the default instance and the routing
instances `red`, with the tables `1` and `3`, and `blue`, with the tables `3` and `1`. -/
def exTreeRedBlueOld : Fields :=
  [("protocols", obj [("static", obj (exStaticTables [1, 5]))]),
    ("routing", obj [("routing-instance",
      arr [obj (exInstance "red" [1, 3]), obj (exInstance "blue" [3, 1])])])]

/-- The tree `exTreeRedBlue` after `Translate`, the table of `red` holding `redTag`. -/
def exTreeRedBlueAfter (redTag : Int) : Fields :=
  [("protocols", obj [("static", obj (exStaticTables [101]))]),
    ("routing", obj [("routing-instance",
      arr [obj (exInstance "red" [redTag]), obj (exInstance "blue" [103])])])]

/-- The commands of `Translate` on `exTreeRedBlue` and `exTreeRedBlueOld`, with the given
release commands for `red`. -/
def exRequestsRedBlue (released : List Request) : List Request :=
  [Request.addTable "default" "1", Request.getTable "default" "1",
    Request.delTable "default" "5",
    Request.addTable "red" "1", Request.getTable "red" "1"] ++ released ++
  [Request.addTable "blue" "3", Request.getTable "blue" "3", Request.delTable "blue" "1"]
/-! ## Lemmas on map operations -/

theorem lookup_store_self {α : Type} (m : GoMap α) (k : String) (v : α) :
    lookup (store m k v) k = some v := by
  induction m with
  | nil => simp [store, lookup]
  | cons p m ih =>
    obtain ⟨k', v'⟩ := p
    by_cases h : k' = k <;> simp [store, lookup, h, ih]

theorem lookup_store_ne {α : Type} (m : GoMap α) (k k' : String) (v : α) (h : k' ≠ k) :
    lookup (store m k v) k' = lookup m k' := by
  induction m with
  | nil => simp [store, lookup, Ne.symm h]
  | cons p m ih =>
    obtain ⟨k0, v0⟩ := p
    by_cases h0 : k0 = k
    · subst h0
      simp [store, lookup, Ne.symm h]
    · by_cases h1 : k0 = k'
      · subst h1
        simp [store, lookup, h0]
      · simp [store, lookup, h0, h1, ih]

theorem lookup_delete_self {α : Type} (m : GoMap α) (k : String) : lookup (delete m k) k = none := by
  induction m with
  | nil => simp [delete, lookup]
  | cons p m ih =>
    obtain ⟨k0, v0⟩ := p
    by_cases h0 : k0 = k
    · simpa [delete, List.filter_cons, h0] using ih
    · simpa [delete, List.filter_cons, h0, lookup] using ih

theorem lookup_delete_ne {α : Type} (m : GoMap α) (k k' : String) (h : k' ≠ k) :
    lookup (delete m k) k' = lookup m k' := by
  induction m with
  | nil => simp [delete, lookup]
  | cons p m ih =>
    obtain ⟨k0, v0⟩ := p
    by_cases h0 : k0 = k
    · subst h0
      simpa [delete, List.filter_cons, lookup, Ne.symm h] using ih
    · by_cases h1 : k0 = k'
      · subst h1
        simp [delete, List.filter_cons, h0, lookup]
      · simpa [delete, List.filter_cons, h0, lookup, h1] using ih

theorem store_store {α : Type} (m : GoMap α) (k : String) (a b : α) :
    store (store m k a) k b = store m k b := by
  induction m with
  | nil => simp [store]
  | cons p m ih =>
    obtain ⟨k0, v0⟩ := p
    by_cases h0 : k0 = k <;> simp [store, h0, ih]

theorem lookup_ne_none_iff {α : Type} (m : GoMap α) (k : String) :
    lookup m k ≠ none ↔ k ∈ m.map Prod.fst := by
  induction m with
  | nil => simp [lookup]
  | cons p m ih =>
    obtain ⟨k0, v0⟩ := p
    by_cases h0 : k0 = k
    · simp [lookup, h0]
    · simp [lookup, h0, ih, Ne.symm h0]

theorem mem_keys_iff {α : Type} (m : GoMap α) (k : String) : k ∈ keys m ↔ lookup m k ≠ none := by
  simp [keys, lookup_ne_none_iff]

theorem index_eq_of_lookup {m : Fields} {k : String} {v : Value} (h : lookup m k = some v) :
    index m k = v := by
  simp [index, h]

theorem index_of_lookup_none {m : Fields} {k : String} (h : lookup m k = none) :
    index m k = null := by
  simp [index, h]

/-- A map holding the key `t` has more than one key exactly when it holds another key. -/
theorem one_lt_len_iff {α : Type} (m : GoMap α) (t : String) (ht : lookup m t ≠ none) :
    1 < len m ↔ ∃ k, k ≠ t ∧ lookup m k ≠ none := by
  have hnd : (keys m).Nodup := List.nodup_dedup _
  have htk : t ∈ keys m := (mem_keys_iff m t).2 ht
  constructor
  · intro hlen
    by_contra hno
    have hsub : keys m ⊆ [t] := by
      intro k hk
      by_contra hkt
      exact hno ⟨k, by simpa using hkt, (mem_keys_iff m k).1 hk⟩
    have := (List.subperm_of_subset hnd hsub).length_le
    simp [len] at hlen this
    omega
  · rintro ⟨k, hkt, hk⟩
    have hkk : k ∈ keys m := (mem_keys_iff m k).2 hk
    have hnd2 : [k, t].Nodup := by simp [hkt]
    have hsub : [k, t] ⊆ keys m := by
      intro x hx
      simp at hx
      rcases hx with rfl | rfl <;> assumption
    have := (List.subperm_of_subset hnd2 hsub).length_le
    simpa [len] using this

theorem index_store_self (m : Fields) (k : String) (v : Value) : index (store m k v) k = v := by
  simp [index, lookup_store_self]

/-! ## Lemmas on the loops of `ConvertInterfaceConfig` -/

theorem convertInterfaces_cons (sprint : Value → String) (e : Value) (es : List Value) :
    convertInterfaces sprint (e :: es) =
      match convertInterface sprint e, convertInterfaces sprint es with
      | some first, some others => some (first ++ others)
      | _, _ => none := by
  simp [convertInterfaces]

/-- Replacing an entry by one that appends the same entries does not change a group. -/
theorem convertInterfaces_congr (sprint : Value → String) (es1 es2 : List Value) (e e' : Value)
    (h : convertInterface sprint e = convertInterface sprint e') :
    convertInterfaces sprint (es1 ++ e :: es2) = convertInterfaces sprint (es1 ++ e' :: es2) := by
  induction es1 with
  | nil => simp [convertInterfaces_cons, h]
  | cons x xs ih => simp [convertInterfaces_cons, ih]

/-- An entry that appends nothing can be left out of its group. -/
theorem convertInterfaces_skip (sprint : Value → String) (es1 es2 : List Value) (e : Value)
    (h : convertInterface sprint e = some []) :
    convertInterfaces sprint (es1 ++ e :: es2) = convertInterfaces sprint (es1 ++ es2) := by
  induction es1 with
  | nil =>
    cases hc : convertInterfaces sprint es2 <;> simp [convertInterfaces_cons, h, hc]
  | cons x xs ih => simp [convertInterfaces_cons, ih]

theorem convertInterfaces_split (sprint : Value → String) (es1 es2 : List Value) (e : Value)
    (b m a : List Value) (hb : convertInterfaces sprint es1 = some b)
    (hm : convertInterface sprint e = some m) (ha : convertInterfaces sprint es2 = some a) :
    convertInterfaces sprint (es1 ++ e :: es2) = some (b ++ m ++ a) := by
  induction es1 generalizing b with
  | nil =>
    simp [convertInterfaces] at hb
    subst hb
    simp [convertInterfaces_cons, hm, ha]
  | cons x xs ih =>
    rw [convertInterfaces_cons] at hb
    cases hx : convertInterface sprint x with
    | none => simp [hx] at hb
    | some fx =>
      cases hxs : convertInterfaces sprint xs with
      | none => simp [hx, hxs] at hb
      | some fxs =>
        simp [hx, hxs] at hb
        subst hb
        simp [convertInterfaces_cons, hx, ih fxs hxs, List.append_assoc]

theorem convertTypes_cons (sprint : Value → String) (g : String) (t : Value) (G : Fields) :
    convertTypes sprint ((g, t) :: G) =
      match convertType sprint t, convertTypes sprint G with
      | some first, some others => some (first ++ others)
      | _, _ => none := by
  simp [convertTypes]

theorem convertTypes_congr (sprint : Value → String) (G1 G2 : Fields) (g : String)
    (t t' : Value) (h : convertType sprint t = convertType sprint t') :
    convertTypes sprint (G1 ++ (g, t) :: G2) = convertTypes sprint (G1 ++ (g, t') :: G2) := by
  induction G1 with
  | nil => simp [convertTypes_cons, h]
  | cons x xs ih =>
    obtain ⟨k, v⟩ := x
    simp [convertTypes_cons, ih]

theorem convertTypes_split (sprint : Value → String) (G1 G2 : Fields) (g : String) (t : Value)
    (b m a : List Value) (hb : convertTypes sprint G1 = some b)
    (hm : convertType sprint t = some m) (ha : convertTypes sprint G2 = some a) :
    convertTypes sprint (G1 ++ (g, t) :: G2) = some (b ++ m ++ a) := by
  induction G1 generalizing b with
  | nil =>
    simp [convertTypes] at hb
    subst hb
    simp [convertTypes_cons, hm, ha]
  | cons x xs ih =>
    obtain ⟨k, v⟩ := x
    rw [convertTypes_cons] at hb
    cases hx : convertType sprint v with
    | none => simp [hx] at hb
    | some fx =>
      cases hxs : convertTypes sprint xs with
      | none => simp [hx, hxs] at hb
      | some fxs =>
        simp [hx, hxs] at hb
        subst hb
        simp [convertTypes_cons, hx, ih fxs hxs, List.append_assoc]

/-- Two trees whose interface groups append the same entries are converted alike. -/
theorem ConvertInterfaceConfig_congr (sprint : Value → String) (cfg_map : Fields)
    (T T' : Fields) (hcfg : index cfg_map INTERFACES_KEY = obj T)
    (h : convertTypes sprint T = convertTypes sprint T') :
    ConvertInterfaceConfig sprint cfg_map =
      ConvertInterfaceConfig sprint (store cfg_map INTERFACES_KEY (obj T')) := by
  simp only [ConvertInterfaceConfig, hcfg, index_store_self, h]
  cases convertTypes sprint T' <;> simp [store_store]

/-- The flat list of a tree, given what is appended before, for and after one entry. -/
theorem ConvertInterfaceConfig_at (sprint : Value → String) (cfg_map : Fields)
    (G1 G2 : Fields) (g : String) (es1 es2 : List Value) (e : Value)
    (a1 a2 m a3 a4 : List Value)
    (hcfg : index cfg_map INTERFACES_KEY = obj (G1 ++ (g, arr (es1 ++ e :: es2)) :: G2))
    (h1 : convertTypes sprint G1 = some a1) (h2 : convertInterfaces sprint es1 = some a2)
    (hm : convertInterface sprint e = some m)
    (h3 : convertInterfaces sprint es2 = some a3) (h4 : convertTypes sprint G2 = some a4) :
    ConvertInterfaceConfig sprint cfg_map =
      some (store cfg_map INTERFACES_KEY (sliceValue (a1 ++ (a2 ++ m ++ a3) ++ a4))) := by
  have ht : convertType sprint (arr (es1 ++ e :: es2)) = some (a2 ++ m ++ a3) := by
    simpa [convertType] using convertInterfaces_split sprint es1 es2 e a2 m a3 h2 hm h3
  simp [ConvertInterfaceConfig, hcfg, convertTypes_split sprint G1 G2 g _ a1 _ a4 h1 ht h4]

/-! ## Lemmas on one interface entry -/

theorem findIfName_spec (m : Fields) (ks : List String) (key name : String)
    (h : findIfName m ks = some (key, name)) : key ∈ ks ∧ index m key = str name := by
  induction ks with
  | nil => simp [findIfName] at h
  | cons k ks ih =>
    unfold findIfName at h
    split at h
    · rename_i s hs
      simp at h
      obtain ⟨rfl, rfl⟩ := h
      simp [hs]
    · have := ih h
      exact ⟨List.mem_cons_of_mem _ this.1, this.2⟩

/-- The search for the name reads only the two name keys. -/
theorem findIfName_congr (m m' : Fields) (ks : List String)
    (h : ∀ k ∈ ks, lookup m' k = lookup m k) : findIfName m' ks = findIfName m ks := by
  induction ks with
  | nil => simp [findIfName]
  | cons k ks ih =>
    have hk : index m' k = index m k := by simp [index, h k (List.mem_cons_self _ _)]
    have ih' := ih (fun x hx => h x (List.mem_cons_of_mem _ hx))
    simp only [findIfName, hk, ih']

theorem lookup_useListKey_listKey (m : Fields) (key name : String)
    (hk : key ∈ interface_list_keys) (hidx : index m key = str name) :
    lookup (useListKey m key name) INTERFACES_LIST_KEY = some (str name) := by
  by_cases h : key = INTERFACES_LIST_KEY
  · subst h
    simp only [useListKey, ne_eq, not_true_eq_false, if_false]
    cases hl : lookup m INTERFACES_LIST_KEY with
    | none => simp [index, hl] at hidx
    | some v => simpa [index, hl] using hidx
  · simp only [useListKey, ne_eq, h, not_false_eq_true, if_true]
    rw [lookup_delete_ne _ _ _ (Ne.symm h), lookup_store_self]

theorem lookup_useListKey_other (m : Fields) (key name k : String)
    (h1 : k ≠ INTERFACES_LIST_KEY) (h2 : k ≠ key) :
    lookup (useListKey m key name) k = lookup m k := by
  by_cases h : key = INTERFACES_LIST_KEY
  · simp [useListKey, h]
  · simp only [useListKey, ne_eq, h, not_false_eq_true, if_true]
    rw [lookup_delete_ne _ _ _ h2, lookup_store_ne _ _ _ _ h1]

theorem lookup_useListKey_key (m : Fields) (key name : String)
    (h : key ≠ INTERFACES_LIST_KEY) : lookup (useListKey m key name) key = none := by
  simp only [useListKey, ne_eq, h, not_false_eq_true, if_true]
  exact lookup_delete_self _ _

theorem vif_ne_of_mem {key : String} (hk : key ∈ interface_list_keys) : VIF_KEY ≠ key := by
  simp [interface_list_keys, INTERFACES_LIST_KEY, SWITCH_INTERFACES_LIST_KEY] at hk
  rcases hk with rfl | rfl <;> decide

/-- The parent map that is left after the name was moved and `vif` deleted holds more than
its name exactly when the entry has a key besides `tagnode`, the key the name was read from
and `vif`. -/
theorem one_lt_len_parent_iff (m : Fields) (key name : String)
    (hk : key ∈ interface_list_keys) (hidx : index m key = str name) :
    1 < len (delete (useListKey m key name) VIF_KEY) ↔
      ∃ k, k ≠ INTERFACES_LIST_KEY ∧ k ≠ key ∧ k ≠ VIF_KEY ∧ lookup m k ≠ none := by
  have htag : lookup (delete (useListKey m key name) VIF_KEY) INTERFACES_LIST_KEY ≠ none := by
    rw [lookup_delete_ne _ _ _ (by decide), lookup_useListKey_listKey m key name hk hidx]
    simp
  rw [one_lt_len_iff _ _ htag]
  constructor
  · rintro ⟨k, hkt, hkl⟩
    have hkv : k ≠ VIF_KEY := by
      rintro rfl
      exact hkl (lookup_delete_self _ _)
    rw [lookup_delete_ne _ _ _ hkv] at hkl
    have hkk : k ≠ key := by
      rintro rfl
      exact hkl (lookup_useListKey_key m k name hkt)
    rw [lookup_useListKey_other m key name k hkt hkk] at hkl
    exact ⟨k, hkt, hkk, hkv, hkl⟩
  · rintro ⟨k, hkt, hkk, hkv, hkl⟩
    refine ⟨k, hkt, ?_⟩
    rwa [lookup_delete_ne _ _ _ hkv, lookup_useListKey_other m key name k hkt hkk]

/-- The VIF loop on a list of maps: the maps holding `tagnode`, renamed, in order. -/
theorem convertVifs_map (sprint : Value → String) (if_name : String) (vs : List Fields) :
    convertVifs sprint if_name (vs.map obj) =
      some ((vs.filter (fun v => (lookup v INTERFACES_LIST_KEY).isSome)).map (fun v =>
        obj (store v INTERFACES_LIST_KEY
          (str (GenerateVifName sprint if_name (index v INTERFACES_LIST_KEY)))))) := by
  induction vs with
  | nil => simp [convertVifs]
  | cons v vs ih =>
    simp only [List.map_cons, convertVifs, ih]
    cases hl : lookup v INTERFACES_LIST_KEY with
    | none => simp [List.filter_cons, hl]
    | some t => simp [List.filter_cons, hl, index]

/-- A VIF map without `tagnode` can be left out of the VIF list. -/
theorem convertVifs_skip (sprint : Value → String) (if_name : String) (vs1 vs2 : List Value)
    (v : Fields) (h : lookup v INTERFACES_LIST_KEY = none) :
    convertVifs sprint if_name (vs1 ++ obj v :: vs2) = convertVifs sprint if_name (vs1 ++ vs2) := by
  induction vs1 with
  | nil =>
    simp only [List.nil_append, convertVifs, h]
    cases convertVifs sprint if_name vs2 <;> rfl
  | cons x xs ih =>
    cases x <;> simp [convertVifs, ih]

/-- What one entry with a name appends: its renamed VIF maps, then the parent map when it
holds more than the name. -/
theorem convertInterface_named (sprint : Value → String) (m : Fields) (key name : String)
    (vs : List Fields) (hid : findIfName m interface_list_keys = some (key, name))
    (hvif : sliceOrNil (index m VIF_KEY) = vs.map obj) :
    convertInterface sprint (obj m) =
      some ((vs.filter (fun v => (lookup v INTERFACES_LIST_KEY).isSome)).map (fun v =>
          obj (store v INTERFACES_LIST_KEY
            (str (GenerateVifName sprint name (index v INTERFACES_LIST_KEY))))) ++
        (if 1 < len (delete (useListKey m key name) VIF_KEY) then
          [obj (delete (useListKey m key name) VIF_KEY)] else [])) := by
  have hk := (findIfName_spec m _ key name hid).1
  have hv : index (useListKey m key name) VIF_KEY = index m VIF_KEY := by
    simp [index, lookup_useListKey_other m key name VIF_KEY (by decide) (vif_ne_of_mem hk)]
  simp [convertInterface, hid, hv, hvif, convertVifs_map]

/-! ## Further map lemmas -/

theorem delete_store_self {α : Type} (m : GoMap α) (k : String) (v : α) :
    delete (store m k v) k = delete m k := by
  induction m with
  | nil => simp [store, delete]
  | cons p m ih =>
    obtain ⟨k0, v0⟩ := p
    by_cases h0 : k0 = k
    · subst h0
      simp [store, delete, List.filter_cons]
    · simpa [store, delete, List.filter_cons, h0] using ih

theorem delete_store_ne {α : Type} (m : GoMap α) (k t : String) (v : α) (h : k ≠ t) :
    delete (store m t v) k = store (delete m k) t v := by
  induction m with
  | nil => simp [store, delete, List.filter_cons, Ne.symm h]
  | cons p m ih =>
    obtain ⟨k0, v0⟩ := p
    by_cases h0 : k0 = t
    · subst h0
      simp [store, delete, List.filter_cons, Ne.symm h]
    · by_cases h1 : k0 = k
      · subst h1
        simpa [store, delete, List.filter_cons, h0] using ih
      · simpa [store, delete, List.filter_cons, h0, h1] using ih

theorem delete_comm {α : Type} (m : GoMap α) (a b : String) :
    delete (delete m a) b = delete (delete m b) a := by
  simp only [delete, List.filter_filter]
  congr 1
  funext p
  exact Bool.and_comm _ _

/-- The parent map that an entry leaves behind does not depend on the value under `vif`. -/
theorem parent_store_vif (m : Fields) (key name : String) (x : Value) :
    delete (useListKey (store m VIF_KEY x) key name) VIF_KEY =
      delete (useListKey m key name) VIF_KEY := by
  by_cases h : key = INTERFACES_LIST_KEY
  · simp [useListKey, h, delete_store_self]
  · simp only [useListKey, ne_eq, h, not_false_eq_true, if_true]
    rw [delete_comm, delete_store_ne _ _ _ _ (by decide), delete_store_self,
      ← delete_store_ne _ _ _ _ (by decide), delete_comm]

theorem convertInterface_unfold (sprint : Value → String) (m : Fields) (key name : String)
    (hid : findIfName m interface_list_keys = some (key, name)) :
    convertInterface sprint (obj m) =
      match convertVifs sprint name (sliceOrNil (index m VIF_KEY)) with
      | none => none
      | some vifs =>
        some (vifs ++ (if 1 < len (delete (useListKey m key name) VIF_KEY) then
          [obj (delete (useListKey m key name) VIF_KEY)] else [])) := by
  have hk := (findIfName_spec m _ key name hid).1
  have hv : index (useListKey m key name) VIF_KEY = index m VIF_KEY := by
    simp [index, lookup_useListKey_other m key name VIF_KEY (by decide) (vif_ne_of_mem hk)]
  simp only [convertInterface, hid, hv]

/-- An entry whose VIF list holds a map without `tagnode` appends what it would append
without that map. -/
theorem convertInterface_skip_vif (sprint : Value → String) (m : Fields) (key name : String)
    (vs1 vs2 : List Value) (v : Fields)
    (hid : findIfName m interface_list_keys = some (key, name))
    (hvif : index m VIF_KEY = arr (vs1 ++ obj v :: vs2))
    (hv : lookup v INTERFACES_LIST_KEY = none) :
    convertInterface sprint (obj m) =
      convertInterface sprint (obj (store m VIF_KEY (arr (vs1 ++ vs2)))) := by
  have hid' : findIfName (store m VIF_KEY (arr (vs1 ++ vs2))) interface_list_keys
      = some (key, name) := by
    rw [findIfName_congr m _ _ (fun k hk' => lookup_store_ne _ _ _ _ (vif_ne_of_mem hk').symm)]
    exact hid
  rw [convertInterface_unfold sprint m key name hid,
    convertInterface_unfold sprint _ key name hid', parent_store_vif m key name _,
    index_store_self, hvif]
  simp only [sliceOrNil, convertVifs_skip sprint name vs1 vs2 v hv]

/-! ## Lemmas on the translation of next-hops and routes -/

theorem lookup_updateParent_ne (pmap : Fields) (key k : String) (kept : List Value)
    (deleted : Bool) (h : k ≠ key) :
    lookup (updateParent pmap key kept deleted) k = lookup pmap k := by
  unfold updateParent
  split
  · split
    · exact lookup_delete_ne _ _ _ h
    · exact lookup_store_ne _ _ _ _ h
  · exact lookup_store_ne _ _ _ _ h

theorem lookup_updateParent_kept (pmap : Fields) (key : String) (kept : List Value)
    (deleted : Bool) (h : kept ≠ []) :
    lookup (updateParent pmap key kept deleted) key = some (arr kept) := by
  have : kept.length ≠ 0 := by simpa using h
  simp [updateParent, this, lookup_store_self]

theorem lookup_updateParent_emptied (pmap : Fields) (key : String) :
    lookup (updateParent pmap key [] true) key = none := by
  simp [updateParent, lookup_delete_self]

theorem lookup_updateParent_same (pmap : Fields) (key : String) (kept : List Value) :
    lookup (updateParent pmap key kept false) key = some (arr kept) := by
  simp [updateParent, lookup_store_self]

theorem sliceOrNil_updateParent (pmap : Fields) (key : String) (kept : List Value)
    (deleted : Bool) :
    sliceOrNil (index (updateParent pmap key kept deleted) key) = kept := by
  cases kept with
  | nil =>
    cases deleted
    · simp [index, lookup_updateParent_same, sliceOrNil]
    · simp [index, lookup_updateParent_emptied, sliceOrNil]
  | cons x xs =>
    simp [index, lookup_updateParent_kept, sliceOrNil]

theorem nexthopsLoop_map (nhs : List Fields) :
    nexthopsLoop (nhs.map obj) =
      some ((nhs.filter (fun nh => !IsNexthopDisabled nh)).map
          (fun nh => obj (renameInterfaceName nh)),
        nhs.any IsNexthopDisabled) := by
  induction nhs with
  | nil => simp [nexthopsLoop]
  | cons nh nhs ih =>
    simp only [List.map_cons, nexthopsLoop, ih]
    by_cases h : IsNexthopDisabled nh <;> simp [h, List.filter_cons]

/-- The loop of `TranslateNexthops` runs through only on a slice of maps. -/
theorem nexthopsLoop_maps (l : List Value) (r : List Value × Bool)
    (h : nexthopsLoop l = some r) : ∃ nhs : List Fields, l = nhs.map obj := by
  induction l generalizing r with
  | nil => exact ⟨[], rfl⟩
  | cons x xs ih =>
    cases x with
    | obj m =>
      cases hx : nexthopsLoop xs with
      | none => simp [nexthopsLoop, hx] at h
      | some p =>
        obtain ⟨nhs, rfl⟩ := ih p hx
        exact ⟨m :: nhs, rfl⟩
    | _ => simp [nexthopsLoop] at h

theorem TranslateNexthops_arr (pmap : Fields) (key : String) (nhs : List Fields)
    (hp : index pmap key = arr (nhs.map obj)) :
    TranslateNexthops pmap key =
      some (updateParent pmap key
        ((nhs.filter (fun nh => !IsNexthopDisabled nh)).map
          (fun nh => obj (renameInterfaceName nh)))
        (nhs.any IsNexthopDisabled)) := by
  simp [TranslateNexthops, hp, nexthopsLoop_map]

theorem TranslateNexthops_maps (pmap out : Fields) (key : String) (l : List Value)
    (hp : index pmap key = arr l) (h : TranslateNexthops pmap key = some out) :
    ∃ nhs : List Fields, l = nhs.map obj := by
  simp only [TranslateNexthops, hp] at h
  cases hl : nexthopsLoop l with
  | none => simp [hl] at h
  | some r => exact nexthopsLoop_maps l r hl

theorem TranslateNexthops_frame (pmap out : Fields) (key k : String)
    (h : TranslateNexthops pmap key = some out) (hk : k ≠ key) :
    lookup out k = lookup pmap k := by
  unfold TranslateNexthops at h
  split at h
  · simp at h; subst h; rfl
  · simp at h; subst h; rfl
  · split at h
    · simp at h
    · simp at h; subst h; exact lookup_updateParent_ne _ _ _ _ _ hk
  · simp at h

theorem TranslateNexthopInstances_frame (pmap out : Fields) (pkey nkey k : String)
    (h : TranslateNexthopInstances pmap pkey nkey = some out) (hk : k ≠ pkey) :
    lookup out k = lookup pmap k := by
  unfold TranslateNexthopInstances at h
  split at h
  · simp at h; subst h; rfl
  · simp at h; subst h; rfl
  · split at h
    · simp at h
    · simp at h; subst h; exact lookup_updateParent_ne _ _ _ _ _ hk
  · simp at h

theorem lookup_deleteIfNil_ne (m : Fields) (k k' : String) (h : k' ≠ k) :
    lookup (deleteIfNil m k) k' = lookup m k' := by
  unfold deleteIfNil
  split
  · exact lookup_delete_ne _ _ _ h
  · rfl

theorem lookup_deleteIfNil_none (m : Fields) (k : String) (h : lookup m k = none) :
    lookup (deleteIfNil m k) k = none := by
  simp [deleteIfNil, index, h, isNil, lookup_delete_self]

theorem lookup_deleteIfNil_arr (m : Fields) (k : String) (xs : List Value)
    (h : lookup m k = some (arr xs)) :
    lookup (deleteIfNil m k) k = some (arr xs) := by
  simp [deleteIfNil, index, h, isNil]

theorem lookup_renameInstanceV6 (m : Fields) (k : String)
    (h1 : k ≠ "next-hop-routing-instance") (h2 : k ≠ "next-hop-routing-instance-v6") :
    lookup (renameInstanceV6 m) k = lookup m k := by
  unfold renameInstanceV6
  split
  · rfl
  · rw [lookup_delete_ne _ _ _ h2, lookup_store_ne _ _ _ _ h1]

/-- The next-hop key of a translated route is the one `TranslateNexthops` left, deleted
when it reads as `nil`. -/
theorem translateRoute_nkey (nkey : String) (r r' : Fields)
    (hn1 : nkey ≠ "next-hop-routing-instance") (hn2 : nkey ≠ "next-hop-routing-instance-v6")
    (h : translateRoute nkey r = some r') :
    ∃ hops, TranslateNexthops r nkey = some hops ∧
      lookup r' nkey = lookup (deleteIfNil hops nkey) nkey := by
  unfold translateRoute at h
  cases hh : TranslateNexthops r nkey with
  | none => simp [hh] at h
  | some hops =>
    simp only [hh] at h
    cases hi : TranslateNexthopInstances (renameInstanceV6 (deleteIfNil hops nkey))
        "next-hop-routing-instance" nkey with
    | none => simp [hi] at h
    | some insts =>
      simp only [hi, Option.some.injEq] at h
      subst h
      refine ⟨hops, rfl, ?_⟩
      rw [lookup_deleteIfNil_ne _ _ _ hn1,
        TranslateNexthopInstances_frame _ _ _ _ _ hi hn1, lookup_renameInstanceV6 _ _ hn1 hn2]

theorem routesLoop_spec (nkey : String) (rs rs' : List Fields)
    (hrs : rs.map (translateRoute nkey) = rs'.map some) :
    routesLoop nkey (rs.map obj) =
      some ((rs'.filter (fun r' => decide (1 < len r'))).map obj,
        rs'.any (fun r' => decide (len r' ≤ 1))) := by
  induction rs generalizing rs' with
  | nil =>
    cases rs' with
    | nil => simp [routesLoop]
    | cons _ _ => simp at hrs
  | cons r rs ih =>
    cases rs' with
    | nil => simp at hrs
    | cons r' rs' =>
      simp only [List.map_cons, List.cons.injEq] at hrs
      simp only [List.map_cons, routesLoop, ih rs' hrs.2, hrs.1]
      by_cases h : len r' ≤ 1
      · have h' : ¬ 1 < len r' := by omega
        simp [h, h', List.filter_cons]
      · have h' : 1 < len r' := by omega
        simp [h, h', List.filter_cons]

theorem TranslateRoutes_arr (pmap : Fields) (pkey nkey : String) (rs rs' : List Fields)
    (hp : index pmap pkey = arr (rs.map obj))
    (hrs : rs.map (translateRoute nkey) = rs'.map some) :
    TranslateRoutes pmap pkey nkey =
      some (updateParent pmap pkey ((rs'.filter (fun r' => decide (1 < len r'))).map obj)
        (rs'.any (fun r' => decide (len r' ≤ 1)))) := by
  simp [TranslateRoutes, hp, routesLoop_spec nkey rs rs' hrs]

theorem TranslateRoutes_frame (pmap out : Fields) (pkey nkey k : String)
    (h : TranslateRoutes pmap pkey nkey = some out) (hk : k ≠ pkey) :
    lookup out k = lookup pmap k := by
  unfold TranslateRoutes at h
  split at h
  · simp at h; subst h; rfl
  · simp at h; subst h; rfl
  · split at h
    · simp at h
    · simp at h; subst h; exact lookup_updateParent_ne _ _ _ _ _ hk
  · simp at h

/-! ## Lemmas on `MapByKey` -/

theorem lookup_eq_none_iff {α : Type} (m : GoMap α) (k : String) :
    lookup m k = none ↔ k ∉ m.map Prod.fst := by
  rw [← lookup_ne_none_iff]
  simp

theorem store_of_lookup_none {α : Type} (m : GoMap α) (k : String) (v : α)
    (h : lookup m k = none) : store m k v = m ++ [(k, v)] := by
  induction m with
  | nil => simp [store]
  | cons p m ih =>
    obtain ⟨k0, v0⟩ := p
    by_cases h0 : k0 = k
    · simp [lookup, h0] at h
    · simp [lookup, h0] at h
      simp [store, h0, ih h]

theorem map_fst_store_of_lookup {α : Type} (m : GoMap α) (k : String) (v : α)
    (h : lookup m k ≠ none) : (store m k v).map Prod.fst = m.map Prod.fst := by
  induction m with
  | nil => simp [lookup] at h
  | cons p m ih =>
    obtain ⟨k0, v0⟩ := p
    by_cases h0 : k0 = k
    · simp [store, h0]
    · simp [lookup, h0] at h
      simp [store, h0, ih h]

theorem nodup_keys_store {α : Type} (m : GoMap α) (k : String) (v : α)
    (h : (m.map Prod.fst).Nodup) : ((store m k v).map Prod.fst).Nodup := by
  by_cases hl : lookup m k = none
  · rw [store_of_lookup_none m k v hl]
    have hk := (lookup_eq_none_iff m k).1 hl
    simp only [List.map_append, List.map_cons, List.map_nil]
    rw [List.nodup_append]
    refine ⟨h, by simp, ?_⟩
    intro a ha hb
    simp at hb
    subst hb
    exact hk ha
  · rw [map_fst_store_of_lookup m k v hl]
    exact h

theorem mem_store {α : Type} (m : GoMap α) (k : String) (v : α) (p : String × α)
    (h : p ∈ store m k v) : p = (k, v) ∨ p ∈ m := by
  induction m with
  | nil => simpa [store] using h
  | cons q m ih =>
    obtain ⟨k0, v0⟩ := q
    by_cases h0 : k0 = k
    · simp [store, h0] at h
      rcases h with h | h
      · exact Or.inl h
      · exact Or.inr (List.mem_cons_of_mem _ h)
    · simp [store, h0] at h
      rcases h with h | h
      · exact Or.inr (by simp [h])
      · rcases ih h with h | h
        · exact Or.inl h
        · exact Or.inr (List.mem_cons_of_mem _ h)

theorem lookup_store_ne_none_iff {α : Type} (m : GoMap α) (k k' : String) (v : α) :
    lookup (store m k v) k' ≠ none ↔ lookup m k' ≠ none ∨ k' = k := by
  by_cases h : k' = k
  · subst h
    simp [lookup_store_self]
  · simp [lookup_store_ne m k k' v h, h]

theorem mapByKeyFrom_maps (sprint : Value → String) (kn : String) (n : Nat) (l : List Value)
    (acc m : GoMap Nat) (h : mapByKeyFrom sprint kn n l acc = some m) :
    ∃ es : List Fields, l = es.map obj := by
  induction l generalizing n acc with
  | nil => exact ⟨[], rfl⟩
  | cons x xs ih =>
    cases x with
    | obj e =>
      simp only [mapByKeyFrom] at h
      obtain ⟨es, rfl⟩ := ih _ _ h
      exact ⟨e :: es, rfl⟩
    | _ => simp [mapByKeyFrom] at h

theorem mapByKeyFrom_total (sprint : Value → String) (kn : String) (n : Nat) (es : List Fields)
    (acc : GoMap Nat) : ∃ m, mapByKeyFrom sprint kn n (es.map obj) acc = some m := by
  induction es generalizing n acc with
  | nil => exact ⟨acc, rfl⟩
  | cons e es ih =>
    simp only [List.map_cons, mapByKeyFrom]
    exact ih _ _

theorem mapByKeyFrom_keys (sprint : Value → String) (kn : String) (n : Nat) (es : List Fields)
    (acc m : GoMap Nat) (h : mapByKeyFrom sprint kn n (es.map obj) acc = some m) (k : String) :
    lookup m k ≠ none ↔ (lookup acc k ≠ none ∨ ∃ e ∈ es, sprint (index e kn) = k) := by
  induction es generalizing n acc with
  | nil =>
    simp only [List.map_nil, mapByKeyFrom, Option.some.injEq] at h
    subst h
    simp
  | cons e es ih =>
    simp only [List.map_cons, mapByKeyFrom] at h
    rw [ih _ _ h, lookup_store_ne_none_iff]
    constructor
    · rintro ((h1 | h1) | ⟨e', he', h1⟩)
      · exact Or.inl h1
      · exact Or.inr ⟨e, List.mem_cons_self _ _, h1.symm⟩
      · exact Or.inr ⟨e', List.mem_cons_of_mem _ he', h1⟩
    · rintro (h1 | ⟨e', he', h1⟩)
      · exact Or.inl (Or.inl h1)
      · rcases List.mem_cons.1 he' with rfl | he'
        · exact Or.inl (Or.inr h1.symm)
        · exact Or.inr ⟨e', he', h1⟩

theorem mapByKeyFrom_nodup (sprint : Value → String) (kn : String) (n : Nat) (es : List Fields)
    (acc m : GoMap Nat) (h : mapByKeyFrom sprint kn n (es.map obj) acc = some m)
    (hacc : (acc.map Prod.fst).Nodup) : (m.map Prod.fst).Nodup := by
  induction es generalizing n acc with
  | nil =>
    simp only [List.map_nil, mapByKeyFrom, Option.some.injEq] at h
    subst h
    exact hacc
  | cons e es ih =>
    simp only [List.map_cons, mapByKeyFrom] at h
    exact ih _ _ h (nodup_keys_store _ _ _ hacc)

/-- A binding of the map built by `MapByKey` is a binding of the start map or binds the key
of an entry to the position of that entry. -/
theorem mapByKeyFrom_mem (sprint : Value → String) (kn : String) (n : Nat) (es : List Fields)
    (acc m : GoMap Nat) (h : mapByKeyFrom sprint kn n (es.map obj) acc = some m)
    (k : String) (i : Nat) (hki : (k, i) ∈ m) :
    (k, i) ∈ acc ∨ (n ≤ i ∧ ∃ e, es[i - n]? = some e ∧ sprint (index e kn) = k) := by
  induction es generalizing n acc with
  | nil =>
    simp only [List.map_nil, mapByKeyFrom, Option.some.injEq] at h
    subst h
    exact Or.inl hki
  | cons e es ih =>
    simp only [List.map_cons, mapByKeyFrom] at h
    rcases ih _ _ h with h1 | ⟨hle, e', he', hk⟩
    · rcases mem_store _ _ _ _ h1 with h2 | h2
      · simp only [Prod.mk.injEq] at h2
        obtain ⟨rfl, rfl⟩ := h2
        exact Or.inr ⟨le_refl _, e, by simp, rfl⟩
      · exact Or.inl h2
    · refine Or.inr ⟨by omega, e', ?_, hk⟩
      have : i - n = (i - (n + 1)) + 1 := by omega
      rw [this]
      simpa using he'

/-- What `MapByKey` returns: it runs through on a slice of maps only; its keys are the
rendered tags of the entries; every binding holds the key of the entry at the bound
position; no key and no position is bound twice. -/
theorem MapByKey_spec (sprint : Value → String) (kn : String) (l : List Value) (m : GoMap Nat)
    (h : MapByKey sprint l kn = some m) :
    ∃ es : List Fields, l = es.map obj ∧ (m.map Prod.fst).Nodup ∧ (m.map Prod.snd).Nodup ∧
      (∀ k i, (k, i) ∈ m → ∃ e, es[i]? = some e ∧ sprint (index e kn) = k) ∧
      (∀ k, lookup m k ≠ none ↔ ∃ e ∈ es, sprint (index e kn) = k) := by
  obtain ⟨es, rfl⟩ := mapByKeyFrom_maps sprint kn 0 l [] m h
  have hmem : ∀ k i, (k, i) ∈ m → ∃ e, es[i]? = some e ∧ sprint (index e kn) = k := by
    intro k i hki
    rcases mapByKeyFrom_mem sprint kn 0 es [] m h k i hki with h1 | ⟨_, e, he, hk⟩
    · simp at h1
    · exact ⟨e, by simpa using he, hk⟩
  have hnd : (m.map Prod.fst).Nodup := mapByKeyFrom_nodup sprint kn 0 es [] m h (by simp)
  refine ⟨es, rfl, hnd, ?_, hmem, ?_⟩
  · apply List.Nodup.map_on _ (List.Nodup.of_map _ hnd)
    rintro ⟨k, i⟩ hx ⟨k', i'⟩ hy hii
    simp only at hii
    subst hii
    obtain ⟨e, he, hk⟩ := hmem k i hx
    obtain ⟨e', he', hk'⟩ := hmem k' i hy
    rw [he] at he'
    simp only [Option.some.injEq] at he'
    subst he'
    rw [← hk, ← hk']
  · intro k
    simpa [lookup] using mapByKeyFrom_keys sprint kn 0 es [] m h k

theorem mapByKeyFrom_distinct (sprint : Value → String) (kn : String) (n : Nat)
    (es : List Fields) (acc : GoMap Nat)
    (hnd : (es.map (fun e => sprint (index e kn))).Nodup)
    (hacc : ∀ e ∈ es, lookup acc (sprint (index e kn)) = none) :
    mapByKeyFrom sprint kn n (es.map obj) acc =
      some (acc ++ (es.map (fun e => sprint (index e kn))).zip (List.range' n es.length)) := by
  induction es generalizing n acc with
  | nil => simp [mapByKeyFrom]
  | cons e es ih =>
    simp only [List.map_cons, List.nodup_cons] at hnd
    have he := hacc e (List.mem_cons_self _ _)
    simp only [List.map_cons, mapByKeyFrom, store_of_lookup_none _ _ _ he]
    rw [ih (n + 1) _ hnd.2]
    · simp [List.range'_succ]
    · intro e' he'
      rw [lookup_eq_none_iff]
      have h1 := (lookup_eq_none_iff acc _).1 (hacc e' (List.mem_cons_of_mem _ he'))
      simp only [List.map_append, List.map_cons, List.map_nil, List.mem_append,
        List.mem_singleton, not_or]
      refine ⟨h1, ?_⟩
      intro heq
      apply hnd.1
      rw [← heq]
      exact List.mem_map_of_mem _ he'

/-- On entries with pairwise distinct tags `MapByKey` binds every tag to its position. -/
theorem MapByKey_distinct (sprint : Value → String) (kn : String) (es : List Fields)
    (hnd : (es.map (fun e => sprint (index e kn))).Nodup) :
    MapByKey sprint (es.map obj) kn =
      some ((es.map (fun e => sprint (index e kn))).zip (List.range' 0 es.length)) := by
  simpa [MapByKey] using mapByKeyFrom_distinct sprint kn 0 es [] hnd (by simp [lookup])

/-! ## Lemmas on the loops of `TranslateTables` -/

theorem translateTableRoutes_tagnode (m m' : Fields) (h : translateTableRoutes m = some m') :
    lookup m' "tagnode" = lookup m "tagnode" := by
  unfold translateTableRoutes at h
  cases h1 : TranslateRoutes m "interface-route" "next-hop-interface" with
  | none => simp [h1] at h
  | some m1 =>
    cases h2 : TranslateRoutes m1 "interface-route6" "next-hop-interface" with
    | none => simp [h1, h2] at h
    | some m2 =>
      cases h3 : TranslateRoutes m2 "route" "next-hop" with
      | none => simp [h1, h2, h3] at h
      | some m3 =>
        simp only [h1, h2, h3, Option.some_bind] at h
        rw [TranslateRoutes_frame _ _ _ _ _ h (by decide),
          TranslateRoutes_frame _ _ _ _ _ h3 (by decide),
          TranslateRoutes_frame _ _ _ _ _ h2 (by decide),
          TranslateRoutes_frame _ _ _ _ _ h1 (by decide)]

theorem tablesLoop_cons (gv : String → String → Option String) (pf : String → Option Int)
    (ri table_id : String) (i : Nat) (todo : List (String × Nat)) (tbl_arr : List Value)
    (requests : List Request) :
    tablesLoop gv pf ri ((table_id, i) :: todo) tbl_arr requests =
      match gv ri table_id with
      | none => some (tbl_arr,
          requests ++ [Request.addTable ri table_id, Request.getTable ri table_id], false)
      | some out =>
        match pf out with
        | none => some (tbl_arr,
            requests ++ [Request.addTable ri table_id, Request.getTable ri table_id], false)
        | some new_table_id =>
          match tbl_arr[i]? with
          | some (obj tbl_entry_map) =>
            match translateTableRoutes (store tbl_entry_map "tagnode" (num new_table_id)) with
            | none => none
            | some translated =>
              tablesLoop gv pf ri todo (tbl_arr.set i (obj translated))
                (requests ++ [Request.addTable ri table_id, Request.getTable ri table_id])
          | _ => none := by
  simp only [tablesLoop]

/-- One pass of the first loop of `TranslateTables` that does not leave the function: the
lookup gave an identifier, the entry was rewritten and the loop went on. -/
theorem tablesLoop_cons_some (gv : String → String → Option String) (pf : String → Option Int)
    (ri table_id : String) (i : Nat) (todo : List (String × Nat)) (tbl_arr : List Value)
    (requests : List Request) (res : List Value × List Request × Bool)
    (h : tablesLoop gv pf ri ((table_id, i) :: todo) tbl_arr requests = some res) :
    (res = (tbl_arr,
        requests ++ [Request.addTable ri table_id, Request.getTable ri table_id], false) ∧
      (gv ri table_id).bind pf = none) ∨
    ∃ out id e e', gv ri table_id = some out ∧ pf out = some id ∧
      tbl_arr[i]? = some (obj e) ∧
      translateTableRoutes (store e "tagnode" (num id)) = some e' ∧
      tablesLoop gv pf ri todo (tbl_arr.set i (obj e'))
        (requests ++ [Request.addTable ri table_id, Request.getTable ri table_id]) = some res := by
  rw [tablesLoop_cons] at h
  cases hg : gv ri table_id with
  | none =>
    simp only [hg, Option.some.injEq] at h
    exact Or.inl ⟨h.symm, by simp⟩
  | some out =>
    simp only [hg] at h
    cases hp : pf out with
    | none =>
      simp only [hp, Option.some.injEq] at h
      exact Or.inl ⟨h.symm, by simp [hp]⟩
    | some id =>
      simp only [hp] at h
      cases hi : tbl_arr[i]? with
      | none => simp [hi] at h
      | some v =>
        cases v with
        | obj e =>
          simp only [hi] at h
          cases ht : translateTableRoutes (store e "tagnode" (num id)) with
          | none => simp [ht] at h
          | some e' =>
            simp only [ht] at h
            exact Or.inr ⟨out, id, e, e', rfl, hp, rfl, ht, h⟩
        | _ => simp [hi] at h

theorem tablesLoop_inv (gv : String → String → Option String) (pf : String → Option Int)
    (ri : String) (todo : List (String × Nat)) (tbl_arr : List Value) (requests : List Request)
    (arr' : List Value) (log' : List Request) (fin : Bool)
    (h : tablesLoop gv pf ri todo tbl_arr requests = some (arr', log', fin)) :
    arr'.length = tbl_arr.length ∧
    (∀ j, j ∉ todo.map Prod.snd → arr'[j]? = tbl_arr[j]?) ∧
    ∃ asked, log' = requests ++ asked ∧ ∀ r ∈ asked, ∀ a b, r ≠ Request.delTable a b := by
  induction todo generalizing tbl_arr requests with
  | nil =>
    simp only [tablesLoop, Option.some.injEq, Prod.mk.injEq] at h
    obtain ⟨rfl, rfl, _⟩ := h
    exact ⟨rfl, fun _ _ => rfl, [], by simp, by simp⟩
  | cons p todo ih =>
    obtain ⟨table_id, i⟩ := p
    rcases tablesLoop_cons_some gv pf ri table_id i todo tbl_arr requests _ h with
      ⟨hres, _⟩ | ⟨out, id, e, e', _, _, _, _, hrest⟩
    · simp only [Prod.mk.injEq] at hres
      obtain ⟨rfl, rfl, _⟩ := hres
      exact ⟨rfl, fun _ _ => rfl, _, rfl, by simp⟩
    · obtain ⟨hlen, hout, asked, hlog, hasked⟩ := ih _ _ hrest
      refine ⟨by simpa using hlen, ?_,
        Request.addTable ri table_id :: Request.getTable ri table_id :: asked,
        by simp [hlog], ?_⟩
      · intro j hj
        simp only [List.map_cons, List.mem_cons, not_or] at hj
        rw [hout j hj.2, List.getElem?_set_ne (Ne.symm hj.1)]
      · intro r hr a b
        simp only [List.mem_cons] at hr
        rcases hr with rfl | rfl | hr
        · simp
        · simp
        · exact hasked r hr a b

theorem tablesLoop_fin (gv : String → String → Option String) (pf : String → Option Int)
    (ri : String) (todo : List (String × Nat)) (tbl_arr : List Value) (requests : List Request)
    (arr' : List Value) (log' : List Request) (fin : Bool)
    (hok : ∀ p ∈ todo, ∃ out id, gv ri p.1 = some out ∧ pf out = some id)
    (h : tablesLoop gv pf ri todo tbl_arr requests = some (arr', log', fin)) :
    fin = true := by
  induction todo generalizing tbl_arr requests with
  | nil =>
    simp only [tablesLoop, Option.some.injEq, Prod.mk.injEq] at h
    exact h.2.2.symm
  | cons p todo ih =>
    obtain ⟨table_id, i⟩ := p
    rcases tablesLoop_cons_some gv pf ri table_id i todo tbl_arr requests _ h with
      ⟨_, hfail⟩ | ⟨out, id, e, e', _, _, _, _, hrest⟩
    · obtain ⟨out, id, hg, hp⟩ := hok (table_id, i) (List.mem_cons_self _ _)
      simp [hg, hp] at hfail
    · exact ih _ _ (fun p hp => hok p (List.mem_cons_of_mem _ hp)) hrest

/-- When the first loop of `TranslateTables` ran to its end, every table it went over has
been rewritten: the identifier returned for its tag is stored under `tagnode` and its
routes are translated. -/
theorem tablesLoop_rewritten (gv : String → String → Option String) (pf : String → Option Int)
    (ri : String) (todo : List (String × Nat)) (tbl_arr : List Value) (requests : List Request)
    (arr' : List Value) (log' : List Request)
    (hnd : (todo.map Prod.snd).Nodup)
    (h : tablesLoop gv pf ri todo tbl_arr requests = some (arr', log', true)) :
    ∀ p ∈ todo, ∃ e out id e', tbl_arr[p.2]? = some (obj e) ∧ gv ri p.1 = some out ∧
      pf out = some id ∧ translateTableRoutes (store e "tagnode" (num id)) = some e' ∧
      arr'[p.2]? = some (obj e') := by
  induction todo generalizing tbl_arr requests with
  | nil => simp
  | cons q todo ih =>
    obtain ⟨table_id, i⟩ := q
    simp only [List.map_cons, List.nodup_cons] at hnd
    rcases tablesLoop_cons_some gv pf ri table_id i todo tbl_arr requests _ h with
      ⟨hres, _⟩ | ⟨out, id, e, e', hg, hp, hi, ht, hrest⟩
    · simp at hres
    · intro p hmem
      rcases List.mem_cons.1 hmem with rfl | hmem'
      · refine ⟨e, out, id, e', hi, hg, hp, ht, ?_⟩
        rw [(tablesLoop_inv gv pf ri todo _ _ _ _ _ hrest).2.1 i hnd.1]
        have hlt : i < tbl_arr.length := by
          by_contra hge
          rw [List.getElem?_eq_none (by omega)] at hi
          simp at hi
        simp [List.getElem?_set_self, hlt]
      · obtain ⟨e0, out0, id0, e0', h0, hg0, hp0, ht0, h0'⟩ := ih _ _ hnd.2 hrest p hmem'
        have hne : i ≠ p.2 := by
          intro heq
          exact hnd.1 (heq ▸ List.mem_map_of_mem _ hmem')
        rw [List.getElem?_set_ne hne] at h0
        exact ⟨e0, out0, id0, e0', h0, hg0, hp0, ht0, h0'⟩

theorem tablesLoop_append (gv : String → String → Option String) (pf : String → Option Int)
    (ri : String) (xs ys : List (String × Nat)) (tbl_arr : List Value)
    (requests : List Request) :
    tablesLoop gv pf ri (xs ++ ys) tbl_arr requests =
      match tablesLoop gv pf ri xs tbl_arr requests with
      | none => none
      | some (a, l, true) => tablesLoop gv pf ri ys a l
      | some (a, l, false) => some (a, l, false) := by
  induction xs generalizing tbl_arr requests with
  | nil => simp [tablesLoop]
  | cons p xs ih =>
    obtain ⟨table_id, i⟩ := p
    simp only [List.cons_append, tablesLoop_cons]
    cases hg : gv ri table_id with
    | none => simp
    | some out =>
      cases hp : pf out with
      | none => simp [hp]
      | some id =>
        cases hi : tbl_arr[i]? with
        | none => simp [hp]
        | some v =>
          cases v with
          | obj e =>
            cases ht : translateTableRoutes (store e "tagnode" (num id)) with
            | none => simp [hp, ht]
            | some e' => simp [hp, ht, ih]
          | _ => simp [hp]

theorem mem_releaseLoop (ri : String) (tbl_map : GoMap Nat) (todo : List (String × Nat))
    (r : Request) :
    r ∈ releaseLoop ri tbl_map todo ↔
      ∃ p ∈ todo, lookup tbl_map p.1 = none ∧ r = Request.delTable ri p.1 := by
  induction todo with
  | nil => simp [releaseLoop]
  | cons p todo ih =>
    obtain ⟨table_id, j⟩ := p
    by_cases hl : lookup tbl_map table_id = none
    · simp [releaseLoop, hl, ih]
    · have : (lookup tbl_map table_id).isNone = false := by
        cases h : lookup tbl_map table_id
        · exact absurd h hl
        · rfl
      simp [releaseLoop, this, ih, hl]

theorem tableSlice_arr (pmap : Fields) (key : String) (xs : List Value)
    (h : index pmap key = arr xs) : tableSlice pmap key = some xs := by
  simp [tableSlice, h, isNil, asSlice]

/-- The run of `TranslateTables` that gets past its first test, taken apart. -/
theorem TranslateTables_run (sprint : Value → String) (gv : String → String → Option String)
    (pf : String → Option Int) (order : GoMap Nat → GoMap Nat) (pmap old_pmap : Fields)
    (key ri : String) (out : Fields) (requests : List Request)
    (hnn : (isNil (index pmap key) && isNil (index old_pmap key)) = false)
    (hrun : TranslateTables sprint gv pf order pmap old_pmap key ri = some (out, requests)) :
    ∃ tbl_arr old_tbl_arr tbl_map old_tbl_map translated log fin,
      tableSlice pmap key = some tbl_arr ∧ tableSlice old_pmap key = some old_tbl_arr ∧
      MapByKey sprint tbl_arr "tagnode" = some tbl_map ∧
      MapByKey sprint old_tbl_arr "tagnode" = some old_tbl_map ∧
      tablesLoop gv pf ri (order tbl_map) tbl_arr [] = some (translated, log, fin) ∧
      out = tablesParent pmap key translated ∧
      requests = log ++ (if fin then releaseLoop ri tbl_map (order old_tbl_map) else []) := by
  unfold TranslateTables at hrun
  simp only [hnn, Bool.false_eq_true, if_false] at hrun
  cases h1 : tableSlice pmap key with
  | none => simp [h1] at hrun
  | some tbl_arr =>
    cases h2 : tableSlice old_pmap key with
    | none => simp [h1, h2] at hrun
    | some old_tbl_arr =>
      simp only [h1, h2] at hrun
      cases h3 : MapByKey sprint tbl_arr "tagnode" with
      | none => simp [h3] at hrun
      | some tbl_map =>
        cases h4 : MapByKey sprint old_tbl_arr "tagnode" with
        | none => simp [h3, h4] at hrun
        | some old_tbl_map =>
          simp only [h3, h4] at hrun
          cases h5 : tablesLoop gv pf ri (order tbl_map) tbl_arr [] with
          | none => simp [h5] at hrun
          | some res =>
            obtain ⟨translated, log, fin⟩ := res
            refine ⟨tbl_arr, old_tbl_arr, tbl_map, old_tbl_map, translated, log, fin,
              rfl, rfl, h3, h4, h5, ?_⟩
            cases fin <;> simp [h5] at hrun <;> simp [hrun.1.symm, hrun.2.symm]

theorem exists_map_obj (l : List Value) (h : ∀ v ∈ l, ∃ e, v = obj e) :
    ∃ es : List Fields, l = es.map obj := by
  induction l with
  | nil => exact ⟨[], rfl⟩
  | cons x xs ih =>
    obtain ⟨e, rfl⟩ := h x (List.mem_cons_self _ _)
    obtain ⟨es, rfl⟩ := ih (fun v hv => h v (List.mem_cons_of_mem _ hv))
    exact ⟨e :: es, rfl⟩

theorem bind_ne_none_iff {gv : Option String} {pf : String → Option Int} :
    gv.bind pf ≠ none ↔ ∃ out id, gv = some out ∧ pf out = some id := by
  cases gv with
  | none => simp
  | some out =>
    cases h : pf out with
    | none => simp [h]
    | some id => simp [h]

/-- The first loop of `TranslateTables` runs to its end when, for every table it goes over,
the position holds a map, the lookup gives an identifier and the routes of the rewritten
entry translate. -/
theorem tablesLoop_total (gv : String → String → Option String) (pf : String → Option Int)
    (ri : String) (todo : List (String × Nat)) (tbl_arr : List Value) (requests : List Request)
    (hnd : (todo.map Prod.snd).Nodup)
    (hok : ∀ p ∈ todo, ∃ e out id, tbl_arr[p.2]? = some (obj e) ∧ gv ri p.1 = some out ∧
      pf out = some id ∧ translateTableRoutes (store e "tagnode" (num id)) ≠ none) :
    ∃ arr' log', tablesLoop gv pf ri todo tbl_arr requests = some (arr', log', true) := by
  induction todo generalizing tbl_arr requests with
  | nil => exact ⟨tbl_arr, requests, rfl⟩
  | cons q todo ih =>
    obtain ⟨table_id, i⟩ := q
    simp only [List.map_cons, List.nodup_cons] at hnd
    obtain ⟨e, out, id, hi, hg, hp, ht⟩ := hok (table_id, i) (List.mem_cons_self _ _)
    cases hte : translateTableRoutes (store e "tagnode" (num id)) with
    | none => exact absurd hte ht
    | some e' =>
      have hi' : tbl_arr[i]? = some (obj e) := hi
      rw [tablesLoop_cons]
      simp only [hg, hp, hi', hte]
      apply ih _ _ hnd.2
      intro p hmem
      obtain ⟨e0, out0, id0, h0, hg0, hp0, ht0⟩ := hok p (List.mem_cons_of_mem _ hmem)
      have hne : i ≠ p.2 := by
        intro heq
        exact hnd.1 (heq ▸ List.mem_map_of_mem _ hmem)
      exact ⟨e0, out0, id0, by rw [List.getElem?_set_ne hne]; exact h0, hg0, hp0, ht0⟩

theorem map_obj_injective (xs ys : List Fields) (h : xs.map obj = ys.map obj) : xs = ys := by
  induction xs generalizing ys with
  | nil =>
    cases ys with
    | nil => rfl
    | cons _ _ => simp at h
  | cons x xs ih =>
    cases ys with
    | nil => simp at h
    | cons y ys =>
      simp only [List.map_cons, List.cons.injEq, obj.injEq] at h
      rw [h.1, ih ys h.2]

theorem TranslateTables_of_loop (sprint : Value → String)
    (gv : String → String → Option String) (pf : String → Option Int)
    (order : GoMap Nat → GoMap Nat) (pmap old_pmap : Fields) (key ri : String)
    (tbl_arr old_tbl_arr : List Value) (tbl_map old_tbl_map : GoMap Nat)
    (res : List Value × List Request × Bool)
    (hnn : (isNil (index pmap key) && isNil (index old_pmap key)) = false)
    (hcur : tableSlice pmap key = some tbl_arr)
    (hold : tableSlice old_pmap key = some old_tbl_arr)
    (hmap : MapByKey sprint tbl_arr "tagnode" = some tbl_map)
    (holdmap : MapByKey sprint old_tbl_arr "tagnode" = some old_tbl_map)
    (hloop : tablesLoop gv pf ri (order tbl_map) tbl_arr [] = some res) :
    ∃ out requests,
      TranslateTables sprint gv pf order pmap old_pmap key ri = some (out, requests) := by
  obtain ⟨translated, log, fin⟩ := res
  unfold TranslateTables
  simp only [hnn, Bool.false_eq_true, if_false, hcur, hold, hmap, holdmap, hloop]
  cases fin <;> exact ⟨_, _, rfl⟩

/-- `TranslateTables` returns when both table collections are slices of maps, the lookup
succeeds for every current table and the routes of every current table translate. -/
theorem TranslateTables_total (sprint : Value → String)
    (gv : String → String → Option String) (pf : String → Option Int)
    (order : GoMap Nat → GoMap Nat) (horder : ∀ m, (order m).Perm m)
    (pmap old_pmap : Fields) (key ri : String) (tbls olds : List Fields)
    (hcur : tableSlice pmap key = some (tbls.map obj))
    (hold : tableSlice old_pmap key = some (olds.map obj))
    (hlookups : ∀ e ∈ tbls, (gv ri (sprint (index e "tagnode"))).bind pf ≠ none)
    (hroutes : ∀ e ∈ tbls, ∀ id, translateTableRoutes (store e "tagnode" (num id)) ≠ none) :
    ∃ out requests,
      TranslateTables sprint gv pf order pmap old_pmap key ri = some (out, requests) := by
  cases hnn : (isNil (index pmap key) && isNil (index old_pmap key)) with
  | true => exact ⟨pmap, [], by simp [TranslateTables, hnn]⟩
  | false =>
    obtain ⟨tbl_map, hmap⟩ := mapByKeyFrom_total sprint "tagnode" 0 tbls []
    obtain ⟨old_tbl_map, holdmap⟩ := mapByKeyFrom_total sprint "tagnode" 0 olds []
    obtain ⟨es, hes, _, hsnd, hmem, _⟩ := MapByKey_spec sprint "tagnode" _ tbl_map hmap
    have hes' : es = tbls := (map_obj_injective _ _ hes).symm
    subst hes'
    have hnd : ((order tbl_map).map Prod.snd).Nodup :=
      ((horder tbl_map).map Prod.snd).nodup_iff.2 hsnd
    obtain ⟨arr', log', hloop⟩ := tablesLoop_total gv pf ri (order tbl_map) (es.map obj) []
      hnd (by
        intro p hp
        obtain ⟨e, he, hk⟩ := hmem p.1 p.2 ((horder tbl_map).mem_iff.1 hp)
        have hin : e ∈ es := List.getElem?_mem he
        have hl := hlookups e hin
        rw [hk] at hl
        obtain ⟨out, id, hg, hpf⟩ := bind_ne_none_iff.1 hl
        exact ⟨e, out, id, by simp [List.getElem?_map, he], hg, hpf, hroutes e hin id⟩)
    exact TranslateTables_of_loop sprint gv pf order pmap old_pmap key ri _ _ tbl_map
      old_tbl_map _ hnn hcur hold hmap holdmap hloop

/-- `TranslateTables` returns when the lookup fails for a table, provided both table
collections are slices of maps and the routes of the tables gone over before it
translate. -/
theorem TranslateTables_total_stop (sprint : Value → String)
    (gv : String → String → Option String) (pf : String → Option Int)
    (order : GoMap Nat → GoMap Nat) (horder : ∀ m, (order m).Perm m)
    (pmap old_pmap : Fields) (key ri : String) (tbl_arr : List Value) (olds : List Fields)
    (tbl_map : GoMap Nat) (before after : List (String × Nat)) (table_id : String) (i : Nat)
    (hslice : index pmap key = arr tbl_arr)
    (hold : tableSlice old_pmap key = some (olds.map obj))
    (hmap : MapByKey sprint tbl_arr "tagnode" = some tbl_map)
    (hsplit : order tbl_map = before ++ (table_id, i) :: after)
    (hbefore : ∀ p ∈ before, (gv ri p.1).bind pf ≠ none)
    (hfail : (gv ri table_id).bind pf = none)
    (hroutes : ∀ p ∈ before, ∀ e, tbl_arr[p.2]? = some (obj e) → ∀ id,
      translateTableRoutes (store e "tagnode" (num id)) ≠ none) :
    ∃ out requests,
      TranslateTables sprint gv pf order pmap old_pmap key ri = some (out, requests) := by
  have hnn : (isNil (index pmap key) && isNil (index old_pmap key)) = false := by
    simp [hslice, isNil]
  obtain ⟨old_tbl_map, holdmap⟩ := mapByKeyFrom_total sprint "tagnode" 0 olds []
  obtain ⟨es, hes, _, hsnd, hmem, _⟩ := MapByKey_spec sprint "tagnode" _ tbl_map hmap
  have hnd : ((order tbl_map).map Prod.snd).Nodup :=
    ((horder tbl_map).map Prod.snd).nodup_iff.2 hsnd
  rw [hsplit] at hnd
  simp only [List.map_append] at hnd
  obtain ⟨arr', log', hloop⟩ := tablesLoop_total gv pf ri before tbl_arr []
    (List.nodup_append.1 hnd).1 (by
      intro p hp
      have hp' : p ∈ tbl_map := by
        apply (horder tbl_map).mem_iff.1
        rw [hsplit]
        exact List.mem_append_left _ hp
      obtain ⟨e, he, _⟩ := hmem p.1 p.2 hp'
      obtain ⟨out, id, hg, hpf⟩ := bind_ne_none_iff.1 (hbefore p hp)
      have hat : tbl_arr[p.2]? = some (obj e) := by
        rw [hes]
        simp [List.getElem?_map, he]
      exact ⟨e, out, id, hat, hg, hpf, hroutes p hp e hat id⟩)
  have hstop : tablesLoop gv pf ri ((table_id, i) :: after) arr' log' =
      some (arr', log' ++ [Request.addTable ri table_id, Request.getTable ri table_id],
        false) := by
    rw [tablesLoop_cons]
    cases hg : gv ri table_id with
    | none => rfl
    | some out =>
      have : pf out = none := by simpa [hg] using hfail
      simp [this]
  have hall : tablesLoop gv pf ri (order tbl_map) tbl_arr [] =
      some (arr', log' ++ [Request.addTable ri table_id, Request.getTable ri table_id],
        false) := by
    rw [hsplit, tablesLoop_append, hloop]
    exact hstop
  exact TranslateTables_of_loop sprint gv pf order pmap old_pmap key ri _ _ tbl_map
    old_tbl_map _ hnn (tableSlice_arr _ _ _ hslice) hold hmap holdmap hall

/-! ## Runs of `TranslateTables` -/

/-- What a run of `TranslateTables` leaves behind when it returns at a failing lookup. -/
theorem TranslateTables_stop_of_run (sprint : Value → String)
    (gv : String → String → Option String) (pf : String → Option Int)
    (order : GoMap Nat → GoMap Nat) (horder : ∀ m, (order m).Perm m)
    (pmap old_pmap : Fields) (key ri : String) (tbl_arr : List Value) (tbl_map : GoMap Nat)
    (before after : List (String × Nat)) (table_id : String) (i : Nat)
    (out : Fields) (requests : List Request)
    (hslice : index pmap key = arr tbl_arr)
    (hmap : MapByKey sprint tbl_arr "tagnode" = some tbl_map)
    (hsplit : order tbl_map = before ++ (table_id, i) :: after)
    (hbefore : ∀ p ∈ before, (gv ri p.1).bind pf ≠ none)
    (hfail : (gv ri table_id).bind pf = none)
    (hrun : TranslateTables sprint gv pf order pmap old_pmap key ri = some (out, requests)) :
    ∃ translated : List Value,
      index out key = arr translated ∧ translated.length = tbl_arr.length ∧
      translated[i]? = tbl_arr[i]? ∧
      (∀ p ∈ after, translated[p.2]? = tbl_arr[p.2]?) ∧
      (∀ j, j ∉ before.map Prod.snd → translated[j]? = tbl_arr[j]?) ∧
      (∀ p ∈ before, ∃ e o id e', tbl_arr[p.2]? = some (obj e) ∧ gv ri p.1 = some o ∧
        pf o = some id ∧ translateTableRoutes (store e "tagnode" (num id)) = some e' ∧
        translated[p.2]? = some (obj e') ∧ lookup e' "tagnode" = some (num id)) ∧
      ∀ r ∈ requests, ∀ a b, r ≠ Request.delTable a b := by
  have hnn : (isNil (index pmap key) && isNil (index old_pmap key)) = false := by
    simp [hslice, isNil]
  obtain ⟨tbl_arr0, old_tbl_arr, tbl_map0, old_tbl_map, translated, log, fin, h1, _, h3, _,
    h5, hout, hreq⟩ := TranslateTables_run sprint gv pf order pmap old_pmap key ri out requests
      hnn hrun
  rw [tableSlice_arr pmap key tbl_arr hslice, Option.some.injEq] at h1
  subst h1
  rw [hmap, Option.some.injEq] at h3
  subst h3
  -- the positions bound by the map are pairwise distinct, also in the order of the loop
  obtain ⟨_, _, _, hsnd, _, _⟩ := MapByKey_spec sprint "tagnode" tbl_arr tbl_map hmap
  have hnd : ((order tbl_map).map Prod.snd).Nodup :=
    ((horder tbl_map).map Prod.snd).nodup_iff.2 hsnd
  rw [hsplit] at hnd h5
  simp only [List.map_append, List.map_cons] at hnd
  obtain ⟨hndb, hnda, hdisj⟩ := List.nodup_append.1 hnd
  simp only [List.nodup_cons] at hnda
  -- the loop over `before` runs to its end, the next pass returns
  rw [tablesLoop_append] at h5
  cases hb : tablesLoop gv pf ri before tbl_arr [] with
  | none => simp [hb] at h5
  | some res =>
    obtain ⟨a1, l1, f1⟩ := res
    have hf1 : f1 = true := tablesLoop_fin gv pf ri before tbl_arr [] a1 l1 f1
      (fun p hp => bind_ne_none_iff.1 (hbefore p hp)) hb
    subst hf1
    simp only [hb] at h5
    rcases tablesLoop_cons_some gv pf ri table_id i after a1 l1 _ h5 with
      ⟨hres, _⟩ | ⟨o, id, _, _, hg, hp, _, _, _⟩
    · simp only [Prod.mk.injEq] at hres
      obtain ⟨rfl, rfl, rfl⟩ := hres
      obtain ⟨hlen, hkeep, asked, hlog, hasked⟩ := tablesLoop_inv gv pf ri before tbl_arr [] _ _ _ hb
      have hrew := tablesLoop_rewritten gv pf ri before tbl_arr [] _ _ hndb hb
      have hidx : index (tablesParent pmap key translated) key = arr translated := by
        simp [tablesParent, hslice, index_store_self]
      refine ⟨translated, by rw [hout, hidx], hlen, ?_, ?_, hkeep, ?_, ?_⟩
      · exact hkeep i (fun hmem => hdisj hmem (List.mem_cons_self _ _))
      · intro p hp
        exact hkeep p.2 (fun hmem =>
          hdisj hmem (List.mem_cons_of_mem _ (List.mem_map_of_mem _ hp)))
      · intro p hp
        obtain ⟨e, o, id, e', h1, h2, h3, h4, h5'⟩ := hrew p hp
        refine ⟨e, o, id, e', h1, h2, h3, h4, h5', ?_⟩
        rw [translateTableRoutes_tagnode _ _ h4, lookup_store_self]
      · intro r hr a b
        rw [hreq, hlog] at hr
        simp only [Bool.false_eq_true, if_false, List.append_nil, List.nil_append,
          List.mem_append, List.mem_cons, List.mem_singleton, List.not_mem_nil, or_false] at hr
        rcases hr with hr | rfl | rfl
        · exact hasked r hr a b
        · simp
        · simp
    · simp [hg, hp] at hfail

/-- What a run of `TranslateTables` in which every lookup succeeds releases. -/
theorem TranslateTables_release_of_run (sprint : Value → String)
    (gv : String → String → Option String) (pf : String → Option Int)
    (order : GoMap Nat → GoMap Nat) (horder : ∀ m, (order m).Perm m)
    (pmap old_pmap : Fields) (key ri : String) (tbl_arr old_tbl_arr : List Value)
    (table_id : String) (out : Fields) (requests : List Request)
    (hcur : tableSlice pmap key = some tbl_arr)
    (hold : tableSlice old_pmap key = some old_tbl_arr)
    (hprev : ∃ e, obj e ∈ old_tbl_arr ∧ sprint (index e "tagnode") = table_id)
    (hnow : ∀ e, obj e ∈ tbl_arr → sprint (index e "tagnode") ≠ table_id)
    (hlookups : ∀ e, obj e ∈ tbl_arr → (gv ri (sprint (index e "tagnode"))).bind pf ≠ none)
    (hrun : TranslateTables sprint gv pf order pmap old_pmap key ri = some (out, requests)) :
    Request.delTable ri table_id ∈ requests ∧
    ∃ translated : List Value,
      tableSlice out key = some translated ∧ translated.length = tbl_arr.length ∧
      ∀ (j : Nat) (e' : Fields), translated[j]? = some (obj e') →
        ∃ e, tbl_arr[j]? = some (obj e) ∧ sprint (index e "tagnode") ≠ table_id := by
  have hnn : (isNil (index pmap key) && isNil (index old_pmap key)) = false := by
    cases hn : isNil (index old_pmap key) with
    | false => simp
    | true =>
      obtain ⟨e, he, _⟩ := hprev
      simp [tableSlice, hn] at hold
      subst hold
      simp at he
  obtain ⟨tbl_arr0, old_tbl_arr0, tbl_map, old_tbl_map, translated, log, fin, h1, h2, h3, h4,
    h5, hout, hreq⟩ := TranslateTables_run sprint gv pf order pmap old_pmap key ri out requests
      hnn hrun
  rw [hcur, Option.some.injEq] at h1
  subst h1
  rw [hold, Option.some.injEq] at h2
  subst h2
  obtain ⟨es, rfl, _, _, hmem, hkeys⟩ := MapByKey_spec sprint "tagnode" _ tbl_map h3
  obtain ⟨olds, rfl, _, _, _, holdkeys⟩ := MapByKey_spec sprint "tagnode" _ old_tbl_map h4
  -- every lookup succeeds, so the first loop runs to its end
  have hfin : fin = true := by
    apply tablesLoop_fin gv pf ri _ _ _ _ _ _ _ h5
    intro p hp
    have hp' : p ∈ tbl_map := (horder tbl_map).mem_iff.1 hp
    obtain ⟨e, he, hk⟩ := hmem p.1 p.2 hp'
    have : obj e ∈ es.map obj := List.mem_map_of_mem _ (List.getElem?_mem he)
    have := hlookups e this
    rw [hk] at this
    exact bind_ne_none_iff.1 this
  subst hfin
  obtain ⟨hlen, _, _⟩ := tablesLoop_inv gv pf ri _ _ _ _ _ _ h5
  refine ⟨?_, translated, ?_, hlen, ?_⟩
  · -- the release loop reaches the tag
    obtain ⟨e, he, hk⟩ := hprev
    have he' : e ∈ olds := by simpa using he
    have hin : lookup old_tbl_map table_id ≠ none := (holdkeys table_id).2 ⟨e, he', hk⟩
    have hnot : lookup tbl_map table_id = none := by
      by_contra hne
      obtain ⟨e1, he1, hk1⟩ := (hkeys table_id).1 hne
      exact hnow e1 (List.mem_map_of_mem _ he1) hk1
    obtain ⟨p, hp, hpk⟩ := List.mem_map.1 ((lookup_ne_none_iff old_tbl_map table_id).1 hin)
    rw [hreq]
    simp only [if_true, List.mem_append]
    right
    rw [mem_releaseLoop]
    exact ⟨p, (horder old_tbl_map).mem_iff.2 hp, by rw [hpk]; exact hnot, by rw [hpk]⟩
  · -- the slice seen through the parent is the slice of the loop
    rw [hout]
    unfold tablesParent
    split
    · rename_i xs hx
      exact tableSlice_arr _ _ _ (index_store_self _ _ _)
    · rename_i hx
      have hnil : es.map obj = [] := by
        unfold tableSlice at hcur
        split at hcur
        · simpa using hcur.symm
        · cases hv : index pmap key with
          | arr xs => exact absurd hv (hx xs)
          | nilSlice => simpa [hv, asSlice] using hcur.symm
          | _ => simp [hv, asSlice] at hcur
      rw [hnil] at hlen
      have : translated = [] := List.length_eq_zero.1 (by simpa using hlen)
      rw [this, hcur, hnil]
  · intro j e' hj
    have hjlt : j < (es.map obj).length := by
      rw [← hlen]
      by_contra hge
      rw [List.getElem?_eq_none (by omega)] at hj
      simp at hj
    have hjes : j < es.length := by simpa using hjlt
    refine ⟨es[j], by simp [List.getElem?_map, List.getElem?_eq_getElem hjes], ?_⟩
    exact hnow _ (List.mem_map_of_mem _ (List.getElem_mem _))

/-- What a run of `TranslateTables` stores under `tagnode` when the tags are distinct and
every lookup succeeds. -/
theorem TranslateTables_tagnode_of_run (sprint : Value → String)
    (gv : String → String → Option String) (pf : String → Option Int)
    (order : GoMap Nat → GoMap Nat) (horder : ∀ m, (order m).Perm m)
    (pmap old_pmap : Fields) (key ri : String) (tbls : List Fields)
    (out : Fields) (requests : List Request)
    (hp : index pmap key = arr (tbls.map obj))
    (hdistinct : (tbls.map (fun t => sprint (index t "tagnode"))).Nodup)
    (hlookups : ∀ t ∈ tbls, (gv ri (sprint (index t "tagnode"))).bind pf ≠ none)
    (hrun : TranslateTables sprint gv pf order pmap old_pmap key ri = some (out, requests)) :
    ∃ tbls' : List Fields,
      index out key = arr (tbls'.map obj) ∧ tbls'.length = tbls.length ∧
      ∀ (i : Nat) (hi : i < tbls.length) (hi' : i < tbls'.length), ∃ o id,
        gv ri (sprint (index tbls[i] "tagnode")) = some o ∧ pf o = some id ∧
        lookup tbls'[i] "tagnode" = some (num id) := by
  have hnn : (isNil (index pmap key) && isNil (index old_pmap key)) = false := by
    simp [hp, isNil]
  obtain ⟨tbl_arr0, old_tbl_arr0, tbl_map, old_tbl_map, translated, log, fin, h1, _, h3, _,
    h5, hout, _⟩ := TranslateTables_run sprint gv pf order pmap old_pmap key ri out requests
      hnn hrun
  rw [tableSlice_arr pmap key _ hp, Option.some.injEq] at h1
  subst h1
  rw [MapByKey_distinct sprint "tagnode" tbls hdistinct, Option.some.injEq] at h3
  -- every position is bound, to the tag of its entry
  have hbound : ∀ (i : Nat) (hi : i < tbls.length),
      (sprint (index tbls[i] "tagnode"), i) ∈ tbl_map := by
    intro i hi
    rw [← h3]
    apply List.mem_iff_getElem.2
    refine ⟨i, by simpa using hi, ?_⟩
    simp [List.getElem_zip, List.getElem_range']
  have hkeyof : ∀ p ∈ tbl_map, ∃ t ∈ tbls, sprint (index t "tagnode") = p.1 := by
    intro p hp'
    rw [← h3] at hp'
    have := (List.of_mem_zip hp').1
    simpa using this
  have hsnd : (tbl_map.map Prod.snd).Nodup := by
    rw [← h3, List.map_snd_zip]
    · exact List.nodup_range' _ _
    · simp
  have hnd : ((order tbl_map).map Prod.snd).Nodup :=
    ((horder tbl_map).map Prod.snd).nodup_iff.2 hsnd
  have hfin : fin = true := by
    apply tablesLoop_fin gv pf ri _ _ _ _ _ _ _ h5
    intro p hp'
    obtain ⟨t, ht, hk⟩ := hkeyof p ((horder tbl_map).mem_iff.1 hp')
    have := hlookups t ht
    rw [hk] at this
    exact bind_ne_none_iff.1 this
  subst hfin
  obtain ⟨hlen, _, _⟩ := tablesLoop_inv gv pf ri _ _ _ _ _ _ h5
  have hrew := tablesLoop_rewritten gv pf ri _ _ _ _ _ hnd h5
  have hat : ∀ (i : Nat) (hi : i < tbls.length), ∃ o id e',
      gv ri (sprint (index tbls[i] "tagnode")) = some o ∧ pf o = some id ∧
      translated[i]? = some (obj e') ∧ lookup e' "tagnode" = some (num id) := by
    intro i hi
    obtain ⟨e, o, id, e', _, hg, hpf, ht, he'⟩ :=
      hrew _ ((horder tbl_map).mem_iff.2 (hbound i hi))
    exact ⟨o, id, e', hg, hpf, he', by
      rw [translateTableRoutes_tagnode _ _ ht, lookup_store_self]⟩
  have hlen' : translated.length = tbls.length := by simpa using hlen
  obtain ⟨tbls', rfl⟩ := exists_map_obj translated (by
    intro v hv
    obtain ⟨i, hi, rfl⟩ := List.mem_iff_getElem.1 hv
    obtain ⟨_, _, e', _, _, he', _⟩ := hat i (by omega)
    rw [List.getElem?_eq_getElem hi, Option.some.injEq] at he'
    exact ⟨e', he'⟩)
  refine ⟨tbls', ?_, by simpa using hlen', ?_⟩
  · rw [hout]
    simp [tablesParent, hp, index_store_self]
  · intro i hi hi'
    obtain ⟨o, id, e', hg, hpf, he', htag⟩ := hat i hi
    refine ⟨o, id, hg, hpf, ?_⟩
    simp only [List.getElem?_map, List.getElem?_eq_getElem hi', Option.map_some',
      Option.some.injEq, obj.injEq] at he'
    rw [he']
    exact htag

/-- The routes of the table `1` of the examples translate, whatever number is stored under
`tagnode`. -/
theorem exTable1_routes (id : Int) :
    translateTableRoutes
        (store [("tagnode", num 1), ("route", arr [obj exRouteA, obj exRouteB])] "tagnode"
          (num id)) =
      some [("tagnode", num id), ("route", arr [obj exRouteA'])] := by
  rfl

/-- A table without routes translates to itself. -/
theorem exTableBare_routes (n id : Int) :
    translateTableRoutes (store [("tagnode", num n)] "tagnode" (num id)) =
      some [("tagnode", num id)] := by
  rfl

/-! ## Claims on `ConvertInterfaceConfig` -/

/-- Counterexample to C1: the entry has the string identifier `sw1`, read from `name`, one
VIF map with a `tagnode`, and the field `tagnode`, which is neither its identifier field
nor `vif`; the flat list receives one entry for it, the virtual entry, and not two. -/
theorem C1_counterexample :
    findIfName exNumTagVif interface_list_keys = some (SWITCH_INTERFACES_LIST_KEY, "sw1") ∧
    index exNumTagVif VIF_KEY = arr [obj [("tagnode", num 100), ("ip", exTtl 79)]] ∧
    lookup exNumTagVif INTERFACES_LIST_KEY = some (num 5) ∧
    INTERFACES_LIST_KEY ≠ SWITCH_INTERFACES_LIST_KEY ∧ INTERFACES_LIST_KEY ≠ VIF_KEY ∧
    ConvertInterfaceConfig sprintSmall exNumTagVifTree =
      some [("interfaces", arr [obj [("tagnode", str "sw1.100"), ("ip", exTtl 79)]])] := by
  decide

/-- Claim C1, amended. An interface entry `m` with the string name `P` (read from `key`)
whose VIF list holds `N` maps that all carry `tagnode` puts `N + 1` entries into the flat
list when the entry has a field besides `tagnode`, the field `key` the name was read from,
and `vif`, and `N` entries when it has none.  They stand in the flat list between what the earlier and the
later entries append.  The `i`-th of them is the `i`-th VIF map with `tagnode` set to `P`,
a dot and the rendering of its old `tagnode`, every other field as it was. -/
theorem C1_vif_flattening (sprint : Value → String) (cfg_map G1 G2 : Fields) (g : String)
    (es1 es2 : List Value) (m : Fields) (key P : String) (vs : List Fields)
    (a1 a2 a3 a4 : List Value)
    (hcfg : index cfg_map INTERFACES_KEY = obj (G1 ++ (g, arr (es1 ++ obj m :: es2)) :: G2))
    (hid : findIfName m interface_list_keys = some (key, P))
    (hvif : sliceOrNil (index m VIF_KEY) = vs.map obj)
    (htag : ∀ v ∈ vs, lookup v INTERFACES_LIST_KEY ≠ none)
    (h1 : convertTypes sprint G1 = some a1) (h2 : convertInterfaces sprint es1 = some a2)
    (h3 : convertInterfaces sprint es2 = some a3) (h4 : convertTypes sprint G2 = some a4) :
    ∃ emitted : List Value,
      ConvertInterfaceConfig sprint cfg_map =
        some (store cfg_map INTERFACES_KEY (sliceValue (a1 ++ (a2 ++ emitted ++ a3) ++ a4))) ∧
      ((∃ k, k ≠ INTERFACES_LIST_KEY ∧ k ≠ key ∧ k ≠ VIF_KEY ∧ lookup m k ≠ none) →
        emitted.length = vs.length + 1) ∧
      ((¬ ∃ k, k ≠ INTERFACES_LIST_KEY ∧ k ≠ key ∧ k ≠ VIF_KEY ∧ lookup m k ≠ none) →
        emitted.length = vs.length) ∧
      ∀ (i : Nat) (hi : i < vs.length), ∃ v' : Fields,
        emitted[i]? = some (obj v') ∧
        lookup v' INTERFACES_LIST_KEY =
          some (str (P ++ "." ++ sprint (index vs[i] INTERFACES_LIST_KEY))) ∧
        ∀ k, k ≠ INTERFACES_LIST_KEY → lookup v' k = lookup vs[i] k := by
  obtain ⟨hk, hidx⟩ := findIfName_spec m _ key P hid
  have hall : vs.filter (fun v => (lookup v INTERFACES_LIST_KEY).isSome) = vs := by
    apply List.filter_eq_self.2
    intro v hv
    have := htag v hv
    cases hl : lookup v INTERFACES_LIST_KEY <;> simp_all
  have hm := convertInterface_named sprint m key P vs hid hvif
  rw [hall] at hm
  refine ⟨_, ConvertInterfaceConfig_at sprint cfg_map G1 G2 g es1 es2 _ a1 a2 _ a3 a4
    hcfg h1 h2 hm h3 h4, ?_, ?_, ?_⟩
  · intro hex
    simp [(one_lt_len_parent_iff m key P hk hidx).2 hex]
  · intro hex
    have : ¬ 1 < len (delete (useListKey m key P) VIF_KEY) :=
      fun h => hex ((one_lt_len_parent_iff m key P hk hidx).1 h)
    simp [this]
  · intro i hi
    refine ⟨store vs[i] INTERFACES_LIST_KEY
      (str (GenerateVifName sprint P (index vs[i] INTERFACES_LIST_KEY))), ?_, ?_, ?_⟩
    · rw [List.getElem?_append_left (by simpa using hi)]
      simp [List.getElem?_map, List.getElem?_eq_getElem hi]
    · simp [lookup_store_self, GenerateVifName]
    · intro k hk
      exact lookup_store_ne _ _ _ _ hk

/-- Witness of C1 (amended) on the input of `TestConvertInterfaceConfigParentAndVifs`. -/
theorem C1_vif_flattening_witness :
    ∃ emitted : List Value,
      ConvertInterfaceConfig sprintSmall exParentAndVifs =
        some (store exParentAndVifs INTERFACES_KEY
          (sliceValue ([] ++ ([] ++ emitted ++ []) ++ []))) ∧
      ((∃ k, k ≠ INTERFACES_LIST_KEY ∧ k ≠ INTERFACES_LIST_KEY ∧ k ≠ VIF_KEY ∧
          lookup exParent k ≠ none) → emitted.length = [exVif100, exVif200].length + 1) ∧
      ((¬ ∃ k, k ≠ INTERFACES_LIST_KEY ∧ k ≠ INTERFACES_LIST_KEY ∧ k ≠ VIF_KEY ∧
          lookup exParent k ≠ none) → emitted.length = [exVif100, exVif200].length) ∧
      ∀ (i : Nat) (hi : i < [exVif100, exVif200].length), ∃ v' : Fields,
        emitted[i]? = some (obj v') ∧
        lookup v' INTERFACES_LIST_KEY =
          some (str ("dp0s4" ++ "." ++
            sprintSmall (index [exVif100, exVif200][i] INTERFACES_LIST_KEY))) ∧
        ∀ k, k ≠ INTERFACES_LIST_KEY → lookup v' k = lookup [exVif100, exVif200][i] k :=
  C1_vif_flattening sprintSmall exParentAndVifs [] [] "dataplane" [] [] exParent
    INTERFACES_LIST_KEY "dp0s4" [exVif100, exVif200] [] [] [] []
    (by decide) (by decide) (by decide) (by decide) (by decide) (by decide) (by decide)
    (by decide)

/-- Claim C2. An interface entry with neither a `tagnode` nor a `name` field appends nothing
to the flat list, and the tree is converted exactly as the tree without that entry, so
neither the entry nor any of its VIF maps is in the result. -/
theorem C2_unnamed_entry_dropped (sprint : Value → String) (cfg_map G1 G2 : Fields)
    (g : String) (es1 es2 : List Value) (m : Fields)
    (hcfg : index cfg_map INTERFACES_KEY = obj (G1 ++ (g, arr (es1 ++ obj m :: es2)) :: G2))
    (ht : lookup m INTERFACES_LIST_KEY = none)
    (hn : lookup m SWITCH_INTERFACES_LIST_KEY = none) :
    convertInterface sprint (obj m) = some [] ∧
    ConvertInterfaceConfig sprint cfg_map =
      ConvertInterfaceConfig sprint
        (store cfg_map INTERFACES_KEY (obj (G1 ++ (g, arr (es1 ++ es2)) :: G2))) := by
  have hm : convertInterface sprint (obj m) = some [] := by
    simp [convertInterface, interface_list_keys, findIfName, index, ht, hn]
  refine ⟨hm, ConvertInterfaceConfig_congr sprint cfg_map _ _ hcfg ?_⟩
  apply convertTypes_congr
  simp only [convertType]
  exact convertInterfaces_skip sprint es1 es2 (obj m) hm

/-- Witness of C2 on the input of `TestConvertInterfaceConfigInvalidParentAndVifs`. -/
theorem C2_unnamed_entry_dropped_witness :
    convertInterface sprintSmall (obj exUnnamed) = some [] ∧
    ConvertInterfaceConfig sprintSmall exInvalidParent =
      ConvertInterfaceConfig sprintSmall
        (store exInvalidParent INTERFACES_KEY (obj ([] ++ ("dataplane", arr ([] ++ [])) :: []))) :=
  C2_unnamed_entry_dropped sprintSmall exInvalidParent [] [] "dataplane" [] [] exUnnamed
    (by decide) (by decide) (by decide)

/-- Claim C3. For an interface entry `m` that has a name `P`: when its VIF list holds the
maps `vs`, the virtual entries appended are the maps of `vs` that carry `tagnode`, renamed,
in their order, followed by at most the parent; and a VIF map `v` without `tagnode` is
dropped: the entry, and with it the tree, is converted exactly as if `v` were not in the
VIF list. -/
theorem C3_untagged_vif_dropped (sprint : Value → String) (cfg_map G1 G2 : Fields)
    (g : String) (es1 es2 : List Value) (m : Fields) (key P : String)
    (hcfg : index cfg_map INTERFACES_KEY = obj (G1 ++ (g, arr (es1 ++ obj m :: es2)) :: G2))
    (hid : findIfName m interface_list_keys = some (key, P)) :
    (∀ vs : List Fields, sliceOrNil (index m VIF_KEY) = vs.map obj →
      ∃ parent : List Value,
        (parent = [] ∨ parent = [obj (delete (useListKey m key P) VIF_KEY)]) ∧
        convertInterface sprint (obj m) =
          some ((vs.filter (fun v => (lookup v INTERFACES_LIST_KEY).isSome)).map (fun v =>
            obj (store v INTERFACES_LIST_KEY
              (str (GenerateVifName sprint P (index v INTERFACES_LIST_KEY))))) ++ parent) ∧
        ∀ a1 a2 a3 a4 : List Value,
          convertTypes sprint G1 = some a1 → convertInterfaces sprint es1 = some a2 →
          convertInterfaces sprint es2 = some a3 → convertTypes sprint G2 = some a4 →
          ConvertInterfaceConfig sprint cfg_map =
            some (store cfg_map INTERFACES_KEY (sliceValue (a1 ++ (a2 ++
              ((vs.filter (fun v => (lookup v INTERFACES_LIST_KEY).isSome)).map (fun v =>
                obj (store v INTERFACES_LIST_KEY
                  (str (GenerateVifName sprint P (index v INTERFACES_LIST_KEY))))) ++ parent)
              ++ a3) ++ a4)))) ∧
    (∀ (vs1 vs2 : List Value) (v : Fields),
      index m VIF_KEY = arr (vs1 ++ obj v :: vs2) → lookup v INTERFACES_LIST_KEY = none →
      convertInterface sprint (obj m) =
        convertInterface sprint (obj (store m VIF_KEY (arr (vs1 ++ vs2)))) ∧
      ConvertInterfaceConfig sprint cfg_map =
        ConvertInterfaceConfig sprint (store cfg_map INTERFACES_KEY
          (obj (G1 ++ (g, arr (es1 ++ obj (store m VIF_KEY (arr (vs1 ++ vs2))) :: es2)) :: G2)))) := by
  constructor
  · intro vs hvif
    have hm := convertInterface_named sprint m key P vs hid hvif
    refine ⟨_, ?_, hm, ?_⟩
    · by_cases h : 1 < len (delete (useListKey m key P) VIF_KEY) <;> simp [h]
    · intro a1 a2 a3 a4 h1 h2 h3 h4
      exact ConvertInterfaceConfig_at sprint cfg_map G1 G2 g es1 es2 _ a1 a2 _ a3 a4
        hcfg h1 h2 hm h3 h4
  · intro vs1 vs2 v hvif hv
    have hm := convertInterface_skip_vif sprint m key P vs1 vs2 v hid hvif hv
    refine ⟨hm, ConvertInterfaceConfig_congr sprint cfg_map _ _ hcfg ?_⟩
    apply convertTypes_congr
    simp only [convertType]
    exact convertInterfaces_congr sprint es1 es2 _ _ hm

/-- Witness of C3 on the input of `TestConvertInterfaceConfigParentAndInvalidVif`: the
conversion is that of the tree without the VIF map that has no `tagnode`. -/
theorem C3_untagged_vif_dropped_witness :
    ConvertInterfaceConfig sprintSmall exInvalidVif =
      ConvertInterfaceConfig sprintSmall (store exInvalidVif INTERFACES_KEY
        (obj ([] ++ ("dataplane", arr ([] ++
          obj (store exParentInvalidVif VIF_KEY (arr ([] ++ [obj exVif200]))) :: [])) :: []))) :=
  ((C3_untagged_vif_dropped sprintSmall exInvalidVif [] [] "dataplane" [] []
    exParentInvalidVif INTERFACES_LIST_KEY "dp0s4" (by decide) (by decide)).2
    [] [obj exVif200] exVifNoTag (by decide) (by decide)).2

/-- Claim C4. An interface entry `m` without a `tagnode` field and with the string `N` under
`name` is converted under the name `N`: the parent map has `tagnode` equal to `N`, no
`name` field and every field other than `tagnode`, `name` and `vif` as in `m`; it is
appended, after the virtual entries, exactly when `m` has such another field; and the
virtual entries are the VIF maps that carry `tagnode`, named `N`, a dot and the rendering
of their tag. -/
theorem C4_name_becomes_tagnode (sprint : Value → String) (cfg_map G1 G2 : Fields)
    (g : String) (es1 es2 : List Value) (m : Fields) (N : String) (vs : List Fields)
    (a1 a2 a3 a4 : List Value)
    (hcfg : index cfg_map INTERFACES_KEY = obj (G1 ++ (g, arr (es1 ++ obj m :: es2)) :: G2))
    (ht : lookup m INTERFACES_LIST_KEY = none)
    (hn : lookup m SWITCH_INTERFACES_LIST_KEY = some (str N))
    (hvif : sliceOrNil (index m VIF_KEY) = vs.map obj)
    (h1 : convertTypes sprint G1 = some a1) (h2 : convertInterfaces sprint es1 = some a2)
    (h3 : convertInterfaces sprint es2 = some a3) (h4 : convertTypes sprint G2 = some a4) :
    ∃ (parent : Fields) (emitted : List Value),
      ConvertInterfaceConfig sprint cfg_map =
        some (store cfg_map INTERFACES_KEY
          (sliceValue (a1 ++ (a2 ++
            ((vs.filter (fun v => (lookup v INTERFACES_LIST_KEY).isSome)).map (fun v =>
              obj (store v INTERFACES_LIST_KEY
                (str (N ++ "." ++ sprint (index v INTERFACES_LIST_KEY))))) ++ emitted)
            ++ a3) ++ a4))) ∧
      ((∃ k, k ≠ INTERFACES_LIST_KEY ∧ k ≠ SWITCH_INTERFACES_LIST_KEY ∧ k ≠ VIF_KEY ∧
          lookup m k ≠ none) → emitted = [obj parent]) ∧
      ((¬ ∃ k, k ≠ INTERFACES_LIST_KEY ∧ k ≠ SWITCH_INTERFACES_LIST_KEY ∧ k ≠ VIF_KEY ∧
          lookup m k ≠ none) → emitted = []) ∧
      lookup parent INTERFACES_LIST_KEY = some (str N) ∧
      lookup parent SWITCH_INTERFACES_LIST_KEY = none ∧
      lookup parent VIF_KEY = none ∧
      ∀ k, k ≠ INTERFACES_LIST_KEY → k ≠ SWITCH_INTERFACES_LIST_KEY → k ≠ VIF_KEY →
        lookup parent k = lookup m k := by
  have hid : findIfName m interface_list_keys = some (SWITCH_INTERFACES_LIST_KEY, N) := by
    simp [interface_list_keys, findIfName, index, ht, hn]
  obtain ⟨hk, hidx⟩ := findIfName_spec m _ _ N hid
  have hm := convertInterface_named sprint m _ N vs hid hvif
  refine ⟨delete (useListKey m SWITCH_INTERFACES_LIST_KEY N) VIF_KEY, _,
    ConvertInterfaceConfig_at sprint cfg_map G1 G2 g es1 es2 _ a1 a2 _ a3 a4
      hcfg h1 h2 hm h3 h4, ?_, ?_, ?_, ?_, ?_, ?_⟩
  · intro hex
    simp [(one_lt_len_parent_iff m _ N hk hidx).2 hex]
  · intro hex
    have : ¬ 1 < len (delete (useListKey m SWITCH_INTERFACES_LIST_KEY N) VIF_KEY) :=
      fun h => hex ((one_lt_len_parent_iff m _ N hk hidx).1 h)
    simp [this]
  · rw [lookup_delete_ne _ _ _ (by decide), lookup_useListKey_listKey m _ N hk hidx]
  · rw [lookup_delete_ne _ _ _ (by decide), lookup_useListKey_key m _ N (by decide)]
  · exact lookup_delete_self _ _
  · intro k hk1 hk2 hk3
    rw [lookup_delete_ne _ _ _ hk3, lookup_useListKey_other m _ N k hk1 hk2]

/-- Witness of C4 on the input of `TestConvertInterfaceswitchVif`. -/
theorem C4_name_becomes_tagnode_witness :
    ∃ (parent : Fields) (emitted : List Value),
      ConvertInterfaceConfig sprintSmall exSwitchVif =
        some (store exSwitchVif INTERFACES_KEY
          (sliceValue ([] ++ ([] ++
            (([[("tagnode", num 100), ("ip", exTtl 79)]].filter
              (fun v => (lookup v INTERFACES_LIST_KEY).isSome)).map (fun v =>
              obj (store v INTERFACES_LIST_KEY
                (str ("sw1" ++ "." ++ sprintSmall (index v INTERFACES_LIST_KEY))))) ++ emitted)
            ++ []) ++ []))) ∧
      ((∃ k, k ≠ INTERFACES_LIST_KEY ∧ k ≠ SWITCH_INTERFACES_LIST_KEY ∧ k ≠ VIF_KEY ∧
          lookup exSwitch k ≠ none) → emitted = [obj parent]) ∧
      ((¬ ∃ k, k ≠ INTERFACES_LIST_KEY ∧ k ≠ SWITCH_INTERFACES_LIST_KEY ∧ k ≠ VIF_KEY ∧
          lookup exSwitch k ≠ none) → emitted = []) ∧
      lookup parent INTERFACES_LIST_KEY = some (str "sw1") ∧
      lookup parent SWITCH_INTERFACES_LIST_KEY = none ∧
      lookup parent VIF_KEY = none ∧
      ∀ k, k ≠ INTERFACES_LIST_KEY → k ≠ SWITCH_INTERFACES_LIST_KEY → k ≠ VIF_KEY →
        lookup parent k = lookup exSwitch k :=
  C4_name_becomes_tagnode sprintSmall exSwitchVif [] [] "switch" [] [] exSwitch "sw1"
    [[("tagnode", num 100), ("ip", exTtl 79)]] [] [] [] []
    (by decide) (by decide) (by decide) (by decide) (by decide) (by decide) (by decide)
    (by decide)

/-- Claim C5. A tree without an `interfaces` key is returned as it is. -/
theorem C5_no_interfaces_identity (sprint : Value → String) (cfg_map : Fields)
    (h : lookup cfg_map INTERFACES_KEY = none) :
    ConvertInterfaceConfig sprint cfg_map = some cfg_map := by
  simp [ConvertInterfaceConfig, index, h]

/-- Witness of C5 on a tree that holds only a `protocols` block. -/
theorem C5_no_interfaces_identity_witness :
    lookup [("protocols", exProtocols)] INTERFACES_KEY = none ∧
    ConvertInterfaceConfig sprintSmall [("protocols", exProtocols)] =
      some [("protocols", exProtocols)] :=
  ⟨by decide, C5_no_interfaces_identity sprintSmall [("protocols", exProtocols)] (by decide)⟩

/-! ## Claims on `TranslateRoutes` -/

/-- Claim C6. Let `TranslateRoutes` run on a collection of routes `rs` that it rewrites to
`rs'`.  The collection afterwards holds the routes of `rs'` with more than one field, and
for every route whose next-hop key (not one of the two routing-instance keys) holds a list:
the list afterwards is the list of the next-hops without a `disable` field, in their
order, each being the map it was with `interface-name` moved to `tagnode` (unchanged when
it has no `interface-name`); the key is absent when there were next-hops and all were
disabled; an empty list stays.  Here `rs[i]` is the route before and `rs'[i]` the same
route after. -/
theorem C6_disabled_nexthops_pruned (pmap : Fields) (pkey nkey : String)
    (rs rs' : List Fields)
    (hn1 : nkey ≠ "next-hop-routing-instance") (hn2 : nkey ≠ "next-hop-routing-instance-v6")
    (hp : index pmap pkey = arr (rs.map obj))
    (hrs : rs.map (translateRoute nkey) = rs'.map some) :
    ∃ out : Fields,
      TranslateRoutes pmap pkey nkey = some out ∧
      sliceOrNil (index out pkey) = (rs'.filter (fun r' => decide (1 < len r'))).map obj ∧
      ∀ (i : Nat) (r r' : Fields) (nh_arr : List Value),
        rs[i]? = some r → rs'[i]? = some r' → index r nkey = arr nh_arr →
        ∃ nhs : List Fields, nh_arr = nhs.map obj ∧
          ((∃ nh ∈ nhs, IsNexthopDisabled nh = false) →
            lookup r' nkey =
              some (arr ((nhs.filter (fun nh => !IsNexthopDisabled nh)).map
                (fun nh => obj (renameInterfaceName nh))))) ∧
          (nhs ≠ [] → (∀ nh ∈ nhs, IsNexthopDisabled nh = true) →
            lookup r' nkey = none) ∧
          (nhs = [] → lookup r' nkey = some (arr [])) ∧
          (∀ nh ∈ nhs, isNil (index nh "interface-name") = true →
            renameInterfaceName nh = nh) := by
  refine ⟨_, TranslateRoutes_arr pmap pkey nkey rs rs' hp hrs, sliceOrNil_updateParent _ _ _ _,
    ?_⟩
  intro i r r' nh_arr hr hr' hnh
  have htr : translateRoute nkey r = some r' := by
    have := congrArg (fun l => l[i]?) hrs
    simpa [List.getElem?_map, hr, hr'] using this
  obtain ⟨hops, hhops, hlook⟩ := translateRoute_nkey nkey _ _ hn1 hn2 htr
  obtain ⟨nhs, rfl⟩ := TranslateNexthops_maps _ _ _ _ hnh hhops
  rw [TranslateNexthops_arr _ _ nhs hnh, Option.some.injEq] at hhops
  subst hhops
  refine ⟨nhs, rfl, ?_, ?_, ?_, ?_⟩
  · rintro ⟨nh, hmem, hdis⟩
    have hne : (nhs.filter (fun nh => !IsNexthopDisabled nh)).map
        (fun nh => obj (renameInterfaceName nh)) ≠ [] := by
      intro hnil
      have : nh ∈ nhs.filter (fun nh => !IsNexthopDisabled nh) :=
        List.mem_filter.2 ⟨hmem, by simp [hdis]⟩
      rw [List.map_eq_nil_iff] at hnil
      rw [hnil] at this
      simp at this
    rw [hlook]
    exact lookup_deleteIfNil_arr _ _ _ (lookup_updateParent_kept _ _ _ _ hne)
  · intro hne hall
    have hany : nhs.any IsNexthopDisabled = true := by
      cases nhs with
      | nil => exact absurd rfl hne
      | cons x xs => simp [hall x (List.mem_cons_self _ _)]
    have hkept : nhs.filter (fun nh => !IsNexthopDisabled nh) = [] := by
      apply List.filter_eq_nil_iff.2
      intro nh hmem
      simp [hall nh hmem]
    rw [hlook, hkept, hany]
    exact lookup_deleteIfNil_none _ _ (lookup_updateParent_emptied _ _)
  · intro hnil
    subst hnil
    rw [hlook]
    exact lookup_deleteIfNil_arr _ _ _ (lookup_updateParent_same _ _ _)
  · intro nh _ hnil
    simp [renameInterfaceName, hnil]

/-- Witness of C6 on a collection of two routes. -/
theorem C6_disabled_nexthops_pruned_witness :
    ∃ out : Fields,
      TranslateRoutes exStatic "route" "next-hop" = some out ∧
      sliceOrNil (index out "route") =
        ([exRouteA', exRouteB'].filter (fun r' => decide (1 < len r'))).map obj ∧
      ∀ (i : Nat) (r r' : Fields) (nh_arr : List Value),
        [exRouteA, exRouteB][i]? = some r → [exRouteA', exRouteB'][i]? = some r' →
        index r "next-hop" = arr nh_arr →
        ∃ nhs : List Fields, nh_arr = nhs.map obj ∧
          ((∃ nh ∈ nhs, IsNexthopDisabled nh = false) →
            lookup r' "next-hop" =
              some (arr ((nhs.filter (fun nh => !IsNexthopDisabled nh)).map
                (fun nh => obj (renameInterfaceName nh))))) ∧
          (nhs ≠ [] → (∀ nh ∈ nhs, IsNexthopDisabled nh = true) →
            lookup r' "next-hop" = none) ∧
          (nhs = [] → lookup r' "next-hop" = some (arr [])) ∧
          (∀ nh ∈ nhs, isNil (index nh "interface-name") = true →
            renameInterfaceName nh = nh) :=
  C6_disabled_nexthops_pruned exStatic "route" "next-hop" [exRouteA, exRouteB]
    [exRouteA', exRouteB'] (by decide) (by decide) (by decide) (by decide)

/-- Counterexample to C7: the first route has no `tagnode` and the field `blackhole`; the
pruning leaves it as it is, so it is left with a field besides its identifier, yet
`TranslateRoutes` removes it: the collection holds the second route only afterwards. -/
theorem C7_counterexample :
    translateRoute "next-hop" exRouteNoTag = some exRouteNoTag ∧
    lookup exRouteNoTag "tagnode" = none ∧
    lookup exRouteNoTag "blackhole" = some (obj [("distance", num 5)]) ∧
    TranslateRoutes exStaticNoTag "route" "next-hop" =
      some [("route", arr [obj exRouteBlackhole])] := by
  decide

/-- Claim C7, amended. `TranslateRoutes`, on a collection of routes `rs` that the pruning
of next-hops and of next-hop routing instances rewrites to `rs'`, removes the routes left
with at most one field, whatever that field is, and keeps the others in their order; for
a route that holds its `tagnode` that is: it is removed exactly when no field besides
`tagnode` is left.  The
collection key is deleted from the parent when routes were removed and none is left; the
other keys of the parent are untouched. -/
theorem C7_bare_routes_removed (pmap : Fields) (pkey nkey : String) (rs rs' : List Fields)
    (hp : index pmap pkey = arr (rs.map obj))
    (hrs : rs.map (translateRoute nkey) = rs'.map some) :
    ∃ out : Fields,
      TranslateRoutes pmap pkey nkey = some out ∧
      sliceOrNil (index out pkey) = (rs'.filter (fun r' => decide (1 < len r'))).map obj ∧
      ((∃ r' ∈ rs', 1 < len r') →
        lookup out pkey = some (arr ((rs'.filter (fun r' => decide (1 < len r'))).map obj))) ∧
      (rs' ≠ [] → (∀ r' ∈ rs', len r' ≤ 1) → lookup out pkey = none) ∧
      (∀ k, k ≠ pkey → lookup out k = lookup pmap k) ∧
      (∀ r' ∈ rs', lookup r' "tagnode" ≠ none →
        (len r' ≤ 1 ↔ ∀ k, lookup r' k ≠ none → k = "tagnode")) := by
  refine ⟨_, TranslateRoutes_arr pmap pkey nkey rs rs' hp hrs, sliceOrNil_updateParent _ _ _ _,
    ?_, ?_, ?_, ?_⟩
  · rintro ⟨r', hmem, hlen⟩
    apply lookup_updateParent_kept
    intro hnil
    have : r' ∈ rs'.filter (fun r' => decide (1 < len r')) :=
      List.mem_filter.2 ⟨hmem, by simpa using hlen⟩
    rw [List.map_eq_nil_iff] at hnil
    rw [hnil] at this
    simp at this
  · intro hne hall
    have hany : rs'.any (fun r' => decide (len r' ≤ 1)) = true := by
      cases rs' with
      | nil => exact absurd rfl hne
      | cons x xs => simp [hall x (List.mem_cons_self _ _)]
    have hkept : rs'.filter (fun r' => decide (1 < len r')) = [] := by
      apply List.filter_eq_nil_iff.2
      intro r' hmem
      have := hall r' hmem
      simp
      omega
    rw [hkept, hany]
    exact lookup_updateParent_emptied _ _
  · intro k hk
    exact lookup_updateParent_ne _ _ _ _ _ hk
  · intro r' _ htag
    have h := one_lt_len_iff r' "tagnode" htag
    constructor
    · intro hle k hk
      by_contra hne
      have : 1 < len r' := h.2 ⟨k, hne, hk⟩
      omega
    · intro hall
      by_contra hlt
      obtain ⟨k, hne, hk⟩ := h.1 (by omega)
      exact hne (hall k hk)

/-- Witness of C7 (amended) on a collection of two routes, of which the second is left with its
`tagnode` only. -/
theorem C7_bare_routes_removed_witness :
    ∃ out : Fields,
      TranslateRoutes exStatic "route" "next-hop" = some out ∧
      sliceOrNil (index out "route") =
        ([exRouteA', exRouteB'].filter (fun r' => decide (1 < len r'))).map obj ∧
      ((∃ r' ∈ [exRouteA', exRouteB'], 1 < len r') →
        lookup out "route" =
          some (arr (([exRouteA', exRouteB'].filter (fun r' => decide (1 < len r'))).map obj))) ∧
      ([exRouteA', exRouteB'] ≠ [] → (∀ r' ∈ [exRouteA', exRouteB'], len r' ≤ 1) →
        lookup out "route" = none) ∧
      (∀ k, k ≠ "route" → lookup out k = lookup exStatic k) ∧
      (∀ r' ∈ [exRouteA', exRouteB'], lookup r' "tagnode" ≠ none →
        (len r' ≤ 1 ↔ ∀ k, lookup r' k ≠ none → k = "tagnode")) :=
  C7_bare_routes_removed exStatic "route" "next-hop" [exRouteA, exRouteB]
    [exRouteA', exRouteB'] (by decide) (by decide)

/-! ## Claims on `TranslateTables` -/

/-- Counterexample to C8: with the tables `1` and `2`, visited in this order, and a lookup
that fails for `2`, table `1` has been rewritten when the function returns: its `tagnode`
is the identifier 101 and its routes are translated. -/
theorem C8_counterexample :
    (exGetvrftable "default" "2").bind exParseFloat = none ∧
    TranslateTables sprintSmall exGetvrftable exParseFloat id exTables12 exTables15
        "table" "default" =
      some ([("table", arr [obj [("tagnode", num 101), ("route", arr [obj exRouteA'])],
          obj [("tagnode", num 2)]])],
        [Request.addTable "default" "1", Request.getTable "default" "1",
          Request.addTable "default" "2", Request.getTable "default" "2"]) ∧
    index exTables12 "table" ≠
      arr [obj [("tagnode", num 101), ("route", arr [obj exRouteA'])],
        obj [("tagnode", num 2)]] := by
  decide

/-- Claim C8, amended. When the lookup fails for a table, `TranslateTables` returns there.
With the tables ranged over in the order `before`, then the table whose lookup fails, then
`after` (the lookups of `before` succeeding and their routes translating): the call
returns, the table slice keeps its length; the entry of the failing table, the entries of
the tables of `after` and every entry that no table of `before` refers to are as they
were; the entry of every table of `before` holds the identifier returned for it under
`tagnode` and has its routes translated; and no release command was run. -/
theorem C8_lookup_failure_stops (sprint : Value → String)
    (gv : String → String → Option String) (pf : String → Option Int)
    (order : GoMap Nat → GoMap Nat) (horder : ∀ m, (order m).Perm m)
    (pmap old_pmap : Fields) (key ri : String) (tbl_arr : List Value) (olds : List Fields)
    (tbl_map : GoMap Nat) (before after : List (String × Nat)) (table_id : String) (i : Nat)
    (hslice : index pmap key = arr tbl_arr)
    (hold : tableSlice old_pmap key = some (olds.map obj))
    (hmap : MapByKey sprint tbl_arr "tagnode" = some tbl_map)
    (hsplit : order tbl_map = before ++ (table_id, i) :: after)
    (hbefore : ∀ p ∈ before, (gv ri p.1).bind pf ≠ none)
    (hfail : (gv ri table_id).bind pf = none)
    (hroutes : ∀ p ∈ before, ∀ e, tbl_arr[p.2]? = some (obj e) → ∀ id,
      translateTableRoutes (store e "tagnode" (num id)) ≠ none) :
    ∃ (out : Fields) (requests : List Request) (translated : List Value),
      TranslateTables sprint gv pf order pmap old_pmap key ri = some (out, requests) ∧
      index out key = arr translated ∧ translated.length = tbl_arr.length ∧
      translated[i]? = tbl_arr[i]? ∧
      (∀ p ∈ after, translated[p.2]? = tbl_arr[p.2]?) ∧
      (∀ j, j ∉ before.map Prod.snd → translated[j]? = tbl_arr[j]?) ∧
      (∀ p ∈ before, ∃ e o id e', tbl_arr[p.2]? = some (obj e) ∧ gv ri p.1 = some o ∧
        pf o = some id ∧ translateTableRoutes (store e "tagnode" (num id)) = some e' ∧
        translated[p.2]? = some (obj e') ∧ lookup e' "tagnode" = some (num id)) ∧
      ∀ r ∈ requests, ∀ a b, r ≠ Request.delTable a b := by
  obtain ⟨out, requests, hrun⟩ := TranslateTables_total_stop sprint gv pf order horder pmap
    old_pmap key ri tbl_arr olds tbl_map before after table_id i hslice hold hmap hsplit
    hbefore hfail hroutes
  obtain ⟨translated, h⟩ := TranslateTables_stop_of_run sprint gv pf order horder pmap
    old_pmap key ri tbl_arr tbl_map before after table_id i out requests hslice hmap hsplit
    hbefore hfail hrun
  exact ⟨out, requests, translated, hrun, h⟩

/-- Witness of C8 (amended) on the tables `1` and `2`, the lookup failing for `2`. -/
theorem C8_lookup_failure_stops_witness :
    ∃ (out : Fields) (requests : List Request) (translated : List Value),
      TranslateTables sprintSmall exGetvrftable exParseFloat id exTables12 exTables15
        "table" "default" = some (out, requests) ∧
      index out "table" = arr translated ∧
      translated.length = (sliceOrNil (index exTables12 "table")).length ∧
      translated[1]? = (sliceOrNil (index exTables12 "table"))[1]? ∧
      (∀ p ∈ ([] : List (String × Nat)),
        translated[p.2]? = (sliceOrNil (index exTables12 "table"))[p.2]?) ∧
      (∀ j, j ∉ [("1", 0)].map Prod.snd →
        translated[j]? = (sliceOrNil (index exTables12 "table"))[j]?) ∧
      (∀ p ∈ [("1", 0)], ∃ e o id e',
        (sliceOrNil (index exTables12 "table"))[p.2]? = some (obj e) ∧
        exGetvrftable "default" p.1 = some o ∧ exParseFloat o = some id ∧
        translateTableRoutes (store e "tagnode" (num id)) = some e' ∧
        translated[p.2]? = some (obj e') ∧ lookup e' "tagnode" = some (num id)) ∧
      ∀ r ∈ requests, ∀ a b, r ≠ Request.delTable a b :=
  C8_lookup_failure_stops sprintSmall exGetvrftable exParseFloat id (fun m => List.Perm.refl m)
    exTables12 exTables15 "table" "default" (sliceOrNil (index exTables12 "table"))
    [[("tagnode", num 1)], [("tagnode", num 5)]]
    [("1", 0), ("2", 1)] [("1", 0)] [] "2" 1 (by decide) (by decide) (by decide) (by decide)
    (by decide) (by decide)
    (by
      intro p hp e he id
      simp only [List.mem_singleton] at hp
      subst hp
      have he' : e = [("tagnode", num 1), ("route", arr [obj exRouteA, obj exRouteB])] := by
        simpa [exTables12, sliceOrNil, index, lookup] using he.symm
      subst he'
      rw [exTable1_routes]
      simp)

/-- Counterexample to C9: the previous tree holds the table `5`, the current tree holds the
tables `1` and `2` only, and the lookup fails for `2`; the function returns from its first
loop and no release command is run for `5`.  And in a call in which every lookup
succeeds, with the table `101` in the previous tree and the table `1`, to which the
identifier 101 is allocated, in the current tree, the release command is run for `101`
and the current tree holds an entry with 101 under `tagnode` afterwards. -/
theorem C9_counterexample :
    MapByKey sprintSmall (sliceOrNil (index exTables15 "table")) "tagnode" =
      some [("1", 0), ("5", 1)] ∧
    MapByKey sprintSmall (sliceOrNil (index exTables12 "table")) "tagnode" =
      some [("1", 0), ("2", 1)] ∧
    (TranslateTables sprintSmall exGetvrftable exParseFloat id exTables12 exTables15
        "table" "default").map Prod.snd =
      some [Request.addTable "default" "1", Request.getTable "default" "1",
        Request.addTable "default" "2", Request.getTable "default" "2"] ∧
    Request.delTable "default" "5" ∉
      [Request.addTable "default" "1", Request.getTable "default" "1",
        Request.addTable "default" "2", Request.getTable "default" "2"] ∧
    MapByKey sprintSmall (sliceOrNil (index exTables101 "table")) "tagnode" =
      some [("101", 0)] ∧
    MapByKey sprintSmall (sliceOrNil (index exTables1 "table")) "tagnode" = some [("1", 0)] ∧
    TranslateTables sprintSmall exShiftGetvrftable exShiftParseFloat id exTables1 exTables101
        "table" "default" =
      some ([("table", arr [obj [("tagnode", num 101)]])],
        [Request.addTable "default" "1", Request.getTable "default" "1",
          Request.delTable "default" "101"]) ∧
    sprintSmall (index [("tagnode", num 101)] "tagnode") = "101" := by
  decide

/-- Claim C10. When the table tags of the current tree, as `MapByKey` renders them, are
pairwise distinct and the lookup succeeds for every table (both table collections being
slices of maps whose routes translate), then after `TranslateTables` the table collection
holds as many entries as before and the `i`-th entry has as its `tagnode` the number
parsed from what the lookup returned for the routing instance and the tag the `i`-th
entry had. -/
theorem C10_tagnode_is_allocated_id (sprint : Value → String)
    (gv : String → String → Option String) (pf : String → Option Int)
    (order : GoMap Nat → GoMap Nat) (horder : ∀ m, (order m).Perm m)
    (pmap old_pmap : Fields) (key ri : String) (tbls olds : List Fields)
    (hp : index pmap key = arr (tbls.map obj))
    (hold : tableSlice old_pmap key = some (olds.map obj))
    (hdistinct : (tbls.map (fun t => sprint (index t "tagnode"))).Nodup)
    (hlookups : ∀ t ∈ tbls, (gv ri (sprint (index t "tagnode"))).bind pf ≠ none)
    (hroutes : ∀ t ∈ tbls, ∀ id, translateTableRoutes (store t "tagnode" (num id)) ≠ none) :
    ∃ (out : Fields) (requests : List Request) (tbls' : List Fields),
      TranslateTables sprint gv pf order pmap old_pmap key ri = some (out, requests) ∧
      index out key = arr (tbls'.map obj) ∧ tbls'.length = tbls.length ∧
      ∀ (i : Nat) (hi : i < tbls.length) (hi' : i < tbls'.length), ∃ o id,
        gv ri (sprint (index tbls[i] "tagnode")) = some o ∧ pf o = some id ∧
        lookup tbls'[i] "tagnode" = some (num id) := by
  obtain ⟨out, requests, hrun⟩ := TranslateTables_total sprint gv pf order horder pmap
    old_pmap key ri tbls olds (tableSlice_arr _ _ _ hp) hold hlookups hroutes
  obtain ⟨tbls', h⟩ := TranslateTables_tagnode_of_run sprint gv pf order horder pmap old_pmap
    key ri tbls out requests hp hdistinct hlookups hrun
  exact ⟨out, requests, tbls', hrun, h⟩

/-- Witness of C10 on the tables `1` and `3`. -/
theorem C10_tagnode_is_allocated_id_witness :
    ∃ (out : Fields) (requests : List Request) (tbls' : List Fields),
      TranslateTables sprintSmall exGetvrftable exParseFloat id exTables13 exTables15
        "table" "default" = some (out, requests) ∧
      index out "table" = arr (tbls'.map obj) ∧
      tbls'.length =
        [[("tagnode", num 1), ("route", arr [obj exRouteA, obj exRouteB])],
          [("tagnode", num 3)]].length ∧
      ∀ (i : Nat)
        (hi : i < [[("tagnode", num 1), ("route", arr [obj exRouteA, obj exRouteB])],
          [("tagnode", num 3)]].length) (hi' : i < tbls'.length), ∃ o id,
        exGetvrftable "default"
          (sprintSmall (index
            ([[("tagnode", num 1), ("route", arr [obj exRouteA, obj exRouteB])],
              [("tagnode", num 3)]] : List Fields)[i] "tagnode")) = some o ∧
        exParseFloat o = some id ∧ lookup tbls'[i] "tagnode" = some (num id) :=
  C10_tagnode_is_allocated_id sprintSmall exGetvrftable exParseFloat id
    (fun m => List.Perm.refl m) exTables13 exTables15 "table" "default"
    [[("tagnode", num 1), ("route", arr [obj exRouteA, obj exRouteB])], [("tagnode", num 3)]]
    [[("tagnode", num 1)], [("tagnode", num 5)]]
    (by decide) (by decide) (by decide) (by decide)
    (by
      intro e he id
      simp only [List.mem_cons, List.mem_singleton, List.not_mem_nil, or_false] at he
      rcases he with rfl | rfl
      · rw [exTable1_routes]; simp
      · rw [exTableBare_routes]; simp)

/-! ## Further claims on `ConvertInterfaceConfig` -/

theorem convertInterfaces_join (sprint : Value → String) (es : List Value)
    (emit : Value → List Value) (h : ∀ e ∈ es, convertInterface sprint e = some (emit e)) :
    convertInterfaces sprint es = some (es.map emit).flatten := by
  induction es with
  | nil => simp [convertInterfaces]
  | cons e es ih =>
    rw [convertInterfaces_cons, h e (List.mem_cons_self _ _),
      ih (fun x hx => h x (List.mem_cons_of_mem _ hx))]
    simp

theorem convertTypes_join (sprint : Value → String) (groups : List (String × List Value))
    (emit : Value → List Value)
    (h : ∀ g ∈ groups, ∀ e ∈ g.2, convertInterface sprint e = some (emit e)) :
    convertTypes sprint (groups.map (fun g => (g.1, arr g.2))) =
      some (groups.map (fun g => (g.2.map emit).flatten)).flatten := by
  induction groups with
  | nil => simp [convertTypes]
  | cons g groups ih =>
    simp only [List.map_cons, convertTypes_cons, convertType]
    rw [convertInterfaces_join sprint g.2 emit (h g (List.mem_cons_self _ _)),
      ih (fun x hx => h x (List.mem_cons_of_mem _ hx))]
    simp

/-- Counterexample to C18: an entry with the number 5 under `tagnode` and the string `sw1`
under `name` has a `tagnode` field, yet the name found is `sw1`, read from `name`; in the
result `tagnode` holds `sw1` and `name` is gone. -/
theorem C18_counterexample :
    lookup exNumTag INTERFACES_LIST_KEY = some (num 5) ∧
    findIfName exNumTag interface_list_keys = some (SWITCH_INTERFACES_LIST_KEY, "sw1") ∧
    ConvertInterfaceConfig sprintSmall exNumTagTree =
      some [("interfaces", arr [obj [("tagnode", str "sw1"), ("ip", exTtl 78)]])] := by
  decide

/-- Claim C18, amended. The name of an interface entry is the value of the first of the
fields `tagnode`, `name` that holds a string.  When `tagnode` holds the string `P`, the
name is `P`, read from `tagnode`: the entry is not rewritten before its VIF list is
taken out, so the parent map is the entry without `vif`, with `tagnode` and `name` as
they were.  When `tagnode` holds no string and `name` holds the string `N`, the name is
`N`, read from `name`, and it is moved: the parent map has `N` under `tagnode`, no `name`
field and its other fields, `vif` apart, as they were, and the virtual entries are named
after `N`.  When neither holds a string the entry has no name and appends nothing. -/
theorem C18_first_string_field (sprint : Value → String) (cfg_map G1 G2 : Fields)
    (g : String) (es1 es2 : List Value) (m : Fields)
    (hcfg : index cfg_map INTERFACES_KEY = obj (G1 ++ (g, arr (es1 ++ obj m :: es2)) :: G2)) :
    (∀ P, index m INTERFACES_LIST_KEY = str P →
      findIfName m interface_list_keys = some (INTERFACES_LIST_KEY, P) ∧
      useListKey m INTERFACES_LIST_KEY P = m ∧
      lookup (delete m VIF_KEY) INTERFACES_LIST_KEY = some (str P) ∧
      lookup (delete m VIF_KEY) SWITCH_INTERFACES_LIST_KEY =
        lookup m SWITCH_INTERFACES_LIST_KEY ∧
      ∀ (vs : List Fields) (a1 a2 a3 a4 : List Value),
        sliceOrNil (index m VIF_KEY) = vs.map obj →
        convertTypes sprint G1 = some a1 → convertInterfaces sprint es1 = some a2 →
        convertInterfaces sprint es2 = some a3 → convertTypes sprint G2 = some a4 →
        ∃ parent : List Value,
          (parent = [] ∨ parent = [obj (delete m VIF_KEY)]) ∧
          ConvertInterfaceConfig sprint cfg_map =
            some (store cfg_map INTERFACES_KEY (sliceValue (a1 ++ (a2 ++
              ((vs.filter (fun v => (lookup v INTERFACES_LIST_KEY).isSome)).map (fun v =>
                obj (store v INTERFACES_LIST_KEY
                  (str (GenerateVifName sprint P (index v INTERFACES_LIST_KEY))))) ++ parent)
              ++ a3) ++ a4)))) ∧
    (∀ N, (∀ s, index m INTERFACES_LIST_KEY ≠ str s) →
      index m SWITCH_INTERFACES_LIST_KEY = str N →
      findIfName m interface_list_keys = some (SWITCH_INTERFACES_LIST_KEY, N) ∧
      lookup (delete (useListKey m SWITCH_INTERFACES_LIST_KEY N) VIF_KEY) INTERFACES_LIST_KEY =
        some (str N) ∧
      lookup (delete (useListKey m SWITCH_INTERFACES_LIST_KEY N) VIF_KEY)
        SWITCH_INTERFACES_LIST_KEY = none ∧
      (∀ k, k ≠ INTERFACES_LIST_KEY → k ≠ SWITCH_INTERFACES_LIST_KEY → k ≠ VIF_KEY →
        lookup (delete (useListKey m SWITCH_INTERFACES_LIST_KEY N) VIF_KEY) k = lookup m k) ∧
      ∀ (vs : List Fields) (a1 a2 a3 a4 : List Value),
        sliceOrNil (index m VIF_KEY) = vs.map obj →
        convertTypes sprint G1 = some a1 → convertInterfaces sprint es1 = some a2 →
        convertInterfaces sprint es2 = some a3 → convertTypes sprint G2 = some a4 →
        ∃ parent : List Value,
          (parent = [] ∨
            parent = [obj (delete (useListKey m SWITCH_INTERFACES_LIST_KEY N) VIF_KEY)]) ∧
          ConvertInterfaceConfig sprint cfg_map =
            some (store cfg_map INTERFACES_KEY (sliceValue (a1 ++ (a2 ++
              ((vs.filter (fun v => (lookup v INTERFACES_LIST_KEY).isSome)).map (fun v =>
                obj (store v INTERFACES_LIST_KEY
                  (str (GenerateVifName sprint N (index v INTERFACES_LIST_KEY))))) ++ parent)
              ++ a3) ++ a4)))) ∧
    ((∀ s, index m INTERFACES_LIST_KEY ≠ str s) →
      (∀ s, index m SWITCH_INTERFACES_LIST_KEY ≠ str s) →
      findIfName m interface_list_keys = none ∧ convertInterface sprint (obj m) = some []) := by
  refine ⟨?_, ?_, ?_⟩
  · intro P hP
    have hid : findIfName m interface_list_keys = some (INTERFACES_LIST_KEY, P) := by
      simp [interface_list_keys, findIfName, hP]
    have hl : lookup m INTERFACES_LIST_KEY = some (str P) := by
      cases h : lookup m INTERFACES_LIST_KEY with
      | none => simp [index, h] at hP
      | some v => simpa [index, h] using hP
    refine ⟨hid, by simp [useListKey], ?_, ?_, ?_⟩
    · rw [lookup_delete_ne _ _ _ (by decide), hl]
    · rw [lookup_delete_ne _ _ _ (by decide)]
    · intro vs a1 a2 a3 a4 hvif h1 h2 h3 h4
      have hm := convertInterface_named sprint m _ P vs hid hvif
      have hu : useListKey m INTERFACES_LIST_KEY P = m := by simp [useListKey]
      rw [hu] at hm
      refine ⟨_, ?_, ConvertInterfaceConfig_at sprint cfg_map G1 G2 g es1 es2 _ a1 a2 _ a3 a4
        hcfg h1 h2 hm h3 h4⟩
      by_cases h : 1 < len (delete m VIF_KEY) <;> simp [h]
  · intro N ht hn
    have hid : findIfName m interface_list_keys = some (SWITCH_INTERFACES_LIST_KEY, N) := by
      unfold interface_list_keys findIfName
      split
      · rename_i s hs
        exact absurd hs (ht s)
      · simp [findIfName, hn]
    obtain ⟨hk, hidx⟩ := findIfName_spec m _ _ N hid
    refine ⟨hid, ?_, ?_, ?_, ?_⟩
    · rw [lookup_delete_ne _ _ _ (by decide), lookup_useListKey_listKey m _ N hk hidx]
    · rw [lookup_delete_ne _ _ _ (by decide), lookup_useListKey_key m _ N (by decide)]
    · intro k hk1 hk2 hk3
      rw [lookup_delete_ne _ _ _ hk3, lookup_useListKey_other m _ N k hk1 hk2]
    · intro vs a1 a2 a3 a4 hvif h1 h2 h3 h4
      have hm := convertInterface_named sprint m _ N vs hid hvif
      refine ⟨_, ?_, ConvertInterfaceConfig_at sprint cfg_map G1 G2 g es1 es2 _ a1 a2 _ a3 a4
        hcfg h1 h2 hm h3 h4⟩
      by_cases h : 1 < len (delete (useListKey m SWITCH_INTERFACES_LIST_KEY N) VIF_KEY) <;>
        simp [h]
  · intro ht hn
    have hid : findIfName m interface_list_keys = none := by
      unfold interface_list_keys findIfName
      split
      · rename_i s hs
        exact absurd hs (ht s)
      · unfold findIfName
        split
        · rename_i s hs
          exact absurd hs (hn s)
        · rfl
    exact ⟨hid, by simp [convertInterface, hid]⟩

/-- Witness of C18 (amended).  On the input of `TestConvertInterfaceConfigParentAndVifs`
the name is read from `tagnode` and nothing is moved.  On the entry `exNumTag`, whose
`tagnode` holds a number, the name `sw1` is read from `name` and moved to `tagnode`. -/
theorem C18_first_string_field_witness :
    (findIfName exParent interface_list_keys = some (INTERFACES_LIST_KEY, "dp0s4") ∧
      useListKey exParent INTERFACES_LIST_KEY "dp0s4" = exParent ∧
      lookup (delete exParent VIF_KEY) INTERFACES_LIST_KEY = some (str "dp0s4") ∧
      lookup (delete exParent VIF_KEY) SWITCH_INTERFACES_LIST_KEY =
        lookup exParent SWITCH_INTERFACES_LIST_KEY) ∧
    (findIfName exNumTag interface_list_keys = some (SWITCH_INTERFACES_LIST_KEY, "sw1") ∧
      lookup (delete (useListKey exNumTag SWITCH_INTERFACES_LIST_KEY "sw1") VIF_KEY)
        INTERFACES_LIST_KEY = some (str "sw1") ∧
      lookup (delete (useListKey exNumTag SWITCH_INTERFACES_LIST_KEY "sw1") VIF_KEY)
        SWITCH_INTERFACES_LIST_KEY = none ∧
      ∃ parent : List Value,
        (parent = [] ∨
          parent = [obj (delete (useListKey exNumTag SWITCH_INTERFACES_LIST_KEY "sw1")
            VIF_KEY)]) ∧
        ConvertInterfaceConfig sprintSmall exNumTagTree =
          some (store exNumTagTree INTERFACES_KEY (sliceValue ([] ++ ([] ++
            ((([] : List Fields).filter
              (fun v => (lookup v INTERFACES_LIST_KEY).isSome)).map (fun v =>
                obj (store v INTERFACES_LIST_KEY
                  (str (GenerateVifName sprintSmall "sw1" (index v INTERFACES_LIST_KEY)))))
              ++ parent) ++ []) ++ [])))) :=
  let h := (C18_first_string_field sprintSmall exParentAndVifs [] [] "dataplane" [] []
    exParent (by decide)).1 "dp0s4" (by decide)
  let k := (C18_first_string_field sprintSmall exNumTagTree [] [] "switch" [] []
    exNumTag (by decide)).2.1 "sw1"
    (fun s hs => by
      have hs' : num 5 = str s := hs
      cases hs')
    (by decide)
  ⟨⟨h.1, h.2.1, h.2.2.1, h.2.2.2.1⟩,
    ⟨k.1, k.2.1, k.2.2.1, k.2.2.2.2 [] [] [] [] [] (by decide) (by decide) (by decide)
      (by decide) (by decide)⟩⟩

/-- Claim C19. The flat list is the concatenation, over the interface-type groups in the
order in which they are ranged over, of the concatenation, over the entries of the group
in their order, of what each entry appends; and what an entry with a name appends is its
virtual entries, in the order of its VIF list, followed at once by the parent entry when
the parent is appended. -/
theorem C19_flat_list_order (sprint : Value → String) (cfg_map : Fields)
    (groups : List (String × List Value)) (emit : Value → List Value)
    (hcfg : index cfg_map INTERFACES_KEY = obj (groups.map (fun g => (g.1, arr g.2))))
    (hemit : ∀ g ∈ groups, ∀ e ∈ g.2, convertInterface sprint e = some (emit e)) :
    ConvertInterfaceConfig sprint cfg_map =
      some (store cfg_map INTERFACES_KEY
        (sliceValue (groups.map (fun g => (g.2.map emit).flatten)).flatten)) ∧
    ∀ g ∈ groups, ∀ e ∈ g.2, ∀ (m : Fields) (key P : String) (vs : List Fields),
      e = obj m → findIfName m interface_list_keys = some (key, P) →
      sliceOrNil (index m VIF_KEY) = vs.map obj →
      ∃ parent : List Value,
        (parent = [] ∨ parent = [obj (delete (useListKey m key P) VIF_KEY)]) ∧
        emit e =
          (vs.filter (fun v => (lookup v INTERFACES_LIST_KEY).isSome)).map (fun v =>
            obj (store v INTERFACES_LIST_KEY
              (str (GenerateVifName sprint P (index v INTERFACES_LIST_KEY))))) ++ parent := by
  constructor
  · simp [ConvertInterfaceConfig, hcfg, convertTypes_join sprint groups emit hemit]
  · intro g hg e he m key P vs hem hid hvif
    subst hem
    have h1 := hemit g hg _ he
    rw [convertInterface_named sprint m key P vs hid hvif, Option.some.injEq] at h1
    refine ⟨_, ?_, h1.symm⟩
    by_cases h : 1 < len (delete (useListKey m key P) VIF_KEY) <;> simp [h]

/-- Witness of C19 on a tree with two groups: the `dataplane` entry of
`TestConvertInterfaceConfigParentAndVifs` and the `switch` entry of
`TestConvertInterfaceswitchVif`. -/
theorem C19_flat_list_order_witness :
    ConvertInterfaceConfig sprintSmall
        [("interfaces", obj [("dataplane", arr [obj exParent]), ("switch", arr [obj exSwitch])])] =
      some [("interfaces", arr [
        obj [("tagnode", str "dp0s4.100"), ("ip", exTtl 78), ("ipv6", exTtl 90)],
        obj [("tagnode", str "dp0s4.200"), ("ip", exTtl 77), ("ipv6", exTtl 82)],
        obj [("ip", exTtl 100), ("ipv6", exTtl 110), ("tagnode", str "dp0s4")],
        obj [("tagnode", str "sw1.100"), ("ip", exTtl 79)]])] :=
  (C19_flat_list_order sprintSmall
    [("interfaces", obj [("dataplane", arr [obj exParent]), ("switch", arr [obj exSwitch])])]
    [("dataplane", [obj exParent]), ("switch", [obj exSwitch])]
    (fun e => (convertInterface sprintSmall e).getD [])
    (by decide) (by decide)).1.trans (by decide)

/-! ## Further claims on `TranslateRoutes` -/

/-- Counterexample to C20: a collection that is empty before the call is empty after it
and its key is still in the parent. -/
theorem C20_counterexample :
    TranslateRoutes [("route", arr [])] "route" "next-hop" = some [("route", arr [])] ∧
    lookup [("route", arr [])] "route" = some (arr []) := by
  decide

/-- Claim C20, amended. When the collection key holds a non-empty sequence of routes
before `TranslateRoutes`, then afterwards either the key is absent from the parent or it
holds a non-empty sequence of routes. -/
theorem C20_collection_absent_or_nonempty (pmap : Fields) (pkey nkey : String)
    (rs rs' : List Fields) (hne : rs ≠ [])
    (hp : index pmap pkey = arr (rs.map obj))
    (hrs : rs.map (translateRoute nkey) = rs'.map some) :
    ∃ out : Fields,
      TranslateRoutes pmap pkey nkey = some out ∧
      (lookup out pkey = none ∨
        ∃ kept : List Fields, kept ≠ [] ∧ lookup out pkey = some (arr (kept.map obj))) := by
  refine ⟨_, TranslateRoutes_arr pmap pkey nkey rs rs' hp hrs, ?_⟩
  have hne' : rs' ≠ [] := by
    intro h
    rw [h] at hrs
    simp at hrs
    exact hne hrs
  by_cases hk : rs'.filter (fun r' => decide (1 < len r')) = []
  · left
    have hany : rs'.any (fun r' => decide (len r' ≤ 1)) = true := by
      cases rs' with
      | nil => exact absurd rfl hne'
      | cons x xs =>
        have hx : x ∉ (x :: xs).filter (fun r' => decide (1 < len r')) := by simp [hk]
        simp only [List.mem_filter, List.mem_cons, true_or, decide_eq_true_eq, true_and,
          not_lt] at hx
        simp [hx]
    rw [hk, hany]
    exact lookup_updateParent_emptied _ _
  · right
    refine ⟨_, hk, lookup_updateParent_kept _ _ _ _ ?_⟩
    simpa using hk

/-- Witness of C20 (amended) on a collection of two routes. -/
theorem C20_collection_absent_or_nonempty_witness :
    ∃ out : Fields,
      TranslateRoutes exStatic "route" "next-hop" = some out ∧
      (lookup out "route" = none ∨
        ∃ kept : List Fields, kept ≠ [] ∧ lookup out "route" = some (arr (kept.map obj))) :=
  C20_collection_absent_or_nonempty exStatic "route" "next-hop" [exRouteA, exRouteB]
    [exRouteA', exRouteB'] (by decide) (by decide) (by decide)

/-! ## The stop timer of a daemon -/

theorem stopTimerDuration_step (mgr : ManagerAction → String → Option String)
    (pd : ProtocolsDaemon) (call : Call) :
    (step mgr pd call).1.stopTimerDuration = pd.stopTimerDuration := by
  cases call <;> cases h : pd.stopTimer <;>
    simp [step, ProtocolsDaemon.Start, ProtocolsDaemon.Stop, ProtocolsDaemon.Restart,
      ProtocolsDaemon.Enable, ProtocolsDaemon.Disable, ProtocolsDaemon.control,
      ProtocolsDaemon.CancelStopAndDisable, ProtocolsDaemon.stopAndDisableCallback,
      ProtocolsDaemon.StopAndDisableIfScheduled, ProtocolsDaemon.ScheduleStopAndDisable, h]
  all_goals split <;> rfl

theorem stopTimerDuration_after (mgr : ManagerAction → String → Option String)
    (calls : List Call) (pd : ProtocolsDaemon) :
    (after mgr pd calls).stopTimerDuration = pd.stopTimerDuration := by
  induction calls generalizing pd with
  | nil => rfl
  | cons call calls ih => rw [after, ih, stopTimerDuration_step]

theorem stopTimer_step_none (mgr : ManagerAction → String → Option String)
    (pd : ProtocolsDaemon) (call : Call) (hpd : pd.stopTimer = none)
    (hcall : ∀ now, call ≠ Call.ScheduleStopAndDisable now) :
    (step mgr pd call).1.stopTimer = none := by
  cases call <;>
    simp [step, ProtocolsDaemon.Start, ProtocolsDaemon.Stop, ProtocolsDaemon.Restart,
      ProtocolsDaemon.Enable, ProtocolsDaemon.Disable, ProtocolsDaemon.control,
      ProtocolsDaemon.CancelStopAndDisable, ProtocolsDaemon.stopAndDisableCallback,
      ProtocolsDaemon.StopAndDisableIfScheduled, hpd]
  rename_i now
  exact absurd rfl (hcall now)

theorem trace_callback_none (mgr : ManagerAction → String → Option String)
    (calls : List Call) (pd : ProtocolsDaemon) (hpd : pd.stopTimer = none)
    (hcalls : ∀ now, Call.ScheduleStopAndDisable now ∉ calls) :
    ∀ now effects, (Call.stopAndDisableCallback now, effects) ∈ trace mgr pd calls →
      effects = [] := by
  induction calls generalizing pd with
  | nil => intro now effects h; simp [trace] at h
  | cons call calls ih =>
    intro now effects h
    rw [trace, List.mem_cons] at h
    rcases h with h | h
    · rw [Prod.mk.injEq] at h
      rw [h.2, ← h.1]
      simp [step, ProtocolsDaemon.stopAndDisableCallback, hpd]
    · refine ih _ (stopTimer_step_none mgr pd call hpd ?_) ?_ now effects h
      · intro t ht
        exact hcalls t (by simp [ht])
      · intro t ht
        exact hcalls t (List.mem_cons_of_mem _ ht)

/-- Claim C12. Once `CancelStopAndDisable` has returned, true or false, in every sequence
of calls of the daemon that follows and holds no `ScheduleStopAndDisable`, every run of
`stopAndDisableCallback` does nothing to the outside, so it requests neither a stop nor
a disable; the time at which the callback runs is arbitrary, as it is for a timer that
had fired before the cancellation and waited for the control lock.  The calls are the
calls made to the daemon from outside; the cancellation that a run of the callback makes
itself, inside its own `Stop`, belongs to that run. -/
theorem C12_cancel_silences_callback (mgr : ManagerAction → String → Option String)
    (pd : ProtocolsDaemon) (calls : List Call)
    (hcalls : ∀ now, Call.ScheduleStopAndDisable now ∉ calls) :
    ∀ now effects,
      (Call.stopAndDisableCallback now, effects) ∈
        trace mgr pd.CancelStopAndDisable.2.1 calls →
      effects = [] ∧ ∀ e ∈ effects, e.isStopOrDisable = false := by
  intro now effects h
  have hnone : pd.CancelStopAndDisable.2.1.stopTimer = none := by
    unfold ProtocolsDaemon.CancelStopAndDisable
    cases h : pd.stopTimer <;> simp [h]
  have := trace_callback_none mgr calls _ hnone hcalls now effects h
  subst this
  exact ⟨rfl, by simp⟩

/-- Witness of C12: a stop scheduled at time 5 is cancelled; the callback then runs at
a time past the window, and again after a start. -/
theorem C12_cancel_silences_callback_witness :
    exPending.CancelStopAndDisable.1 = true ∧
    trace exMgr exPending.CancelStopAndDisable.2.1
        [Call.stopAndDisableCallback (5 + 11 * Second), Call.Start,
          Call.stopAndDisableCallback (5 + 12 * Second)] =
      [(Call.stopAndDisableCallback (5 + 11 * Second), []),
        (Call.Start, [Effect.request ManagerAction.start "pimd"]),
        (Call.stopAndDisableCallback (5 + 12 * Second), [])] ∧
    ([] : List Effect) = [] :=
  ⟨by decide, by decide,
    (C12_cancel_silences_callback exMgr exPending
      [Call.stopAndDisableCallback (5 + 11 * Second), Call.Start,
        Call.stopAndDisableCallback (5 + 12 * Second)]
      (by intro now; simp) (5 + 11 * Second) [] (by decide)).1⟩

/-- Claim C13. Take a daemon made by `NewProtocolsDaemon` after any sequence of calls,
with a stop pending.  Its window is `stopWaitSecs` = 10 seconds.  When
`stopAndDisableCallback` runs at a time later than the recorded start plus 10 seconds,
it stops the pending timer, requests a stop and then a disable of the unit, and nothing
else, and no stop is pending afterwards.  When it runs at any other time it does nothing
to the outside and leaves the daemon, with its pending stop and its start time, as it
was. -/
theorem C13_callback_after_window (mgr : ManagerAction → String → Option String)
    (unit : String) (calls : List Call) (now : Nat) (timer : Timer)
    (hpending : (after mgr (NewProtocolsDaemon unit) calls).stopTimer = some timer) :
    (after mgr (NewProtocolsDaemon unit) calls).stopTimerDuration = 10 * Second ∧
    (now > (after mgr (NewProtocolsDaemon unit) calls).stopTimerStartedAt + 10 * Second →
      ((after mgr (NewProtocolsDaemon unit) calls).stopAndDisableCallback mgr now).2 =
        [Effect.timerStop timer,
          Effect.request ManagerAction.stop (after mgr (NewProtocolsDaemon unit) calls).unit,
          Effect.request ManagerAction.disable
            (after mgr (NewProtocolsDaemon unit) calls).unit] ∧
      ((after mgr (NewProtocolsDaemon unit) calls).stopAndDisableCallback mgr now).1.stopTimer
        = none) ∧
    (¬ now > (after mgr (NewProtocolsDaemon unit) calls).stopTimerStartedAt + 10 * Second →
      (after mgr (NewProtocolsDaemon unit) calls).stopAndDisableCallback mgr now =
        (after mgr (NewProtocolsDaemon unit) calls, [])) := by
  have hd : (after mgr (NewProtocolsDaemon unit) calls).stopTimerDuration = 10 * Second := by
    rw [stopTimerDuration_after]
    rfl
  generalize after mgr (NewProtocolsDaemon unit) calls = pd at hpending hd ⊢
  refine ⟨hd, ?_, ?_⟩
  · intro hnow
    simp [ProtocolsDaemon.stopAndDisableCallback, hpending, hd, hnow, ProtocolsDaemon.Stop,
      ProtocolsDaemon.Disable, ProtocolsDaemon.control, ProtocolsDaemon.CancelStopAndDisable]
  · intro hnow
    simp [ProtocolsDaemon.stopAndDisableCallback, hpending, hd, hnow]

/-- Witness of C13: a stop is scheduled at time 5, rescheduled at time 7; the callback
then runs. -/
theorem C13_callback_after_window_witness :
    (after exMgr (NewProtocolsDaemon "pimd")
      [Call.ScheduleStopAndDisable 5, Call.ScheduleStopAndDisable 7]).stopTimer =
        some { d := 10 * Second } ∧
    (after exMgr (NewProtocolsDaemon "pimd")
      [Call.ScheduleStopAndDisable 5, Call.ScheduleStopAndDisable 7]).stopAndDisableCallback
        exMgr (6 + 10 * Second) =
      (after exMgr (NewProtocolsDaemon "pimd")
        [Call.ScheduleStopAndDisable 5, Call.ScheduleStopAndDisable 7], []) :=
  ⟨by decide, (C13_callback_after_window exMgr "pimd"
    [Call.ScheduleStopAndDisable 5, Call.ScheduleStopAndDisable 7] (6 + 10 * Second)
    { d := 10 * Second } (by decide)).2.2 (by decide)⟩

/-- Claim C14. When no stop is pending, `StopAndDisableIfScheduled` does nothing to the
outside and leaves the daemon as it was.  When a stop is pending, it stops the pending
timer and requests one stop and then one disable of the unit, and nothing else, and no
stop is pending afterwards; the rest of the daemon is as it was. -/
theorem C14_stop_and_disable_if_scheduled (mgr : ManagerAction → String → Option String)
    (pd : ProtocolsDaemon) :
    (pd.stopTimer = none → pd.StopAndDisableIfScheduled mgr = (pd, [])) ∧
    (∀ timer, pd.stopTimer = some timer →
      pd.StopAndDisableIfScheduled mgr =
        ({ pd with stopTimer := none },
          [Effect.timerStop timer, Effect.request ManagerAction.stop pd.unit,
            Effect.request ManagerAction.disable pd.unit])) := by
  constructor
  · intro h
    simp [ProtocolsDaemon.StopAndDisableIfScheduled, ProtocolsDaemon.CancelStopAndDisable, h]
  · intro timer h
    simp [ProtocolsDaemon.StopAndDisableIfScheduled, ProtocolsDaemon.CancelStopAndDisable, h,
      ProtocolsDaemon.Stop, ProtocolsDaemon.Disable, ProtocolsDaemon.control]

/-- Witness of C14: a daemon with a stop scheduled at time 5, and a daemon as
`NewProtocolsDaemon` makes it. -/
theorem C14_stop_and_disable_if_scheduled_witness :
    (NewProtocolsDaemon "pimd").StopAndDisableIfScheduled exMgr =
      (NewProtocolsDaemon "pimd", []) ∧
    exPending.StopAndDisableIfScheduled exMgr =
      ({ exPending with stopTimer := none },
        [Effect.timerStop { d := 10 * Second }, Effect.request ManagerAction.stop "pimd",
          Effect.request ManagerAction.disable "pimd"]) :=
  ⟨(C14_stop_and_disable_if_scheduled exMgr (NewProtocolsDaemon "pimd")).1 (by decide),
    (C14_stop_and_disable_if_scheduled exMgr exPending).2 { d := 10 * Second } (by decide)⟩

/-- Claim C15. `CancelStopAndDisable` returns true exactly when a stop was pending
before the call; no stop is pending after it; the rest of the daemon is as it was; and
the only thing it does to the outside is to stop the timer that was pending, so it makes
no request to the service manager. -/
theorem C15_cancel (pd : ProtocolsDaemon) :
    (pd.CancelStopAndDisable.1 = true ↔ pd.stopTimer ≠ none) ∧
    pd.CancelStopAndDisable.2.1 = { pd with stopTimer := none } ∧
    pd.CancelStopAndDisable.2.1.stopTimer = none ∧
    (∀ e ∈ pd.CancelStopAndDisable.2.2, ∃ timer, pd.stopTimer = some timer ∧
      e = Effect.timerStop timer) ∧
    ∀ action unit, Effect.request action unit ∉ pd.CancelStopAndDisable.2.2 := by
  unfold ProtocolsDaemon.CancelStopAndDisable
  cases h : pd.stopTimer <;> simp [h]
  cases pd
  simp_all

/-- Witness of C15: a daemon with a stop scheduled at time 5. -/
theorem C15_cancel_witness :
    (exPending.CancelStopAndDisable.1 = true ↔ exPending.stopTimer ≠ none) ∧
    exPending.CancelStopAndDisable.2.1.stopTimer = none ∧
    Effect.request ManagerAction.stop "pimd" ∉ exPending.CancelStopAndDisable.2.2 :=
  ⟨(C15_cancel exPending).1, (C15_cancel exPending).2.2.1,
    (C15_cancel exPending).2.2.2.2 ManagerAction.stop "pimd"⟩

/-! ## A second run of `TranslateTables` -/

theorem mapByKeyFrom_congr (sprint : Value → String) (kn : String) (es es' : List Fields)
    (h : es.map (fun e => sprint (index e kn)) = es'.map (fun e => sprint (index e kn)))
    (n : Nat) (acc : GoMap Nat) :
    mapByKeyFrom sprint kn n (es.map obj) acc = mapByKeyFrom sprint kn n (es'.map obj) acc := by
  induction es generalizing es' n acc with
  | nil =>
    cases es' with
    | nil => rfl
    | cons _ _ => simp at h
  | cons e es ih =>
    cases es' with
    | nil => simp at h
    | cons e' es' =>
      simp only [List.map_cons, List.cons.injEq] at h
      simp only [List.map_cons, mapByKeyFrom, h.1]
      exact ih es' h.2 _ _

theorem releaseLoop_bound (ri : String) (tbl_map : GoMap Nat) (todo : List (String × Nat))
    (h : ∀ p ∈ todo, lookup tbl_map p.1 ≠ none) : releaseLoop ri tbl_map todo = [] := by
  apply List.eq_nil_iff_forall_not_mem.2
  intro r hr
  obtain ⟨p, hp, hnone, _⟩ := (mem_releaseLoop ri tbl_map todo r).1 hr
  exact h p hp hnone

/-- A run of `TranslateTables` in which every lookup succeeds, position by position: an
entry that `MapByKey` does not bind is left as it was, an entry that it binds is rewritten
with the identifier returned for its tag. -/
theorem TranslateTables_positions (sprint : Value → String)
    (gv : String → String → Option String) (pf : String → Option Int)
    (order : GoMap Nat → GoMap Nat) (horder : ∀ m, (order m).Perm m)
    (pmap old_pmap : Fields) (key ri : String) (tbls : List Fields)
    (out : Fields) (requests : List Request)
    (hp : index pmap key = arr (tbls.map obj))
    (hlookups : ∀ t ∈ tbls, (gv ri (sprint (index t "tagnode"))).bind pf ≠ none)
    (hrun : TranslateTables sprint gv pf order pmap old_pmap key ri = some (out, requests)) :
    ∃ (tbls' : List Fields) (tbl_map : GoMap Nat) (old_tbl_arr : List Value)
      (old_tbl_map : GoMap Nat) (log : List Request),
      MapByKey sprint (tbls.map obj) "tagnode" = some tbl_map ∧
      tableSlice old_pmap key = some old_tbl_arr ∧
      MapByKey sprint old_tbl_arr "tagnode" = some old_tbl_map ∧
      index out key = arr (tbls'.map obj) ∧ tbls'.length = tbls.length ∧
      requests = log ++ releaseLoop ri tbl_map (order old_tbl_map) ∧
      (∀ r ∈ log, ∀ a b, r ≠ Request.delTable a b) ∧
      ∀ (i : Nat) (t : Fields), tbls[i]? = some t →
        (tbls'[i]? = some t ∧ ∀ k, (k, i) ∉ tbl_map) ∨
        ∃ o id t', (sprint (index t "tagnode"), i) ∈ tbl_map ∧
          gv ri (sprint (index t "tagnode")) = some o ∧ pf o = some id ∧
          translateTableRoutes (store t "tagnode" (num id)) = some t' ∧
          tbls'[i]? = some t' := by
  have hnn : (isNil (index pmap key) && isNil (index old_pmap key)) = false := by
    simp [hp, isNil]
  obtain ⟨tbl_arr0, old_tbl_arr, tbl_map, old_tbl_map, translated, log, fin, h1, h2, h3, h4,
    h5, hout, hreq⟩ := TranslateTables_run sprint gv pf order pmap old_pmap key ri out requests
      hnn hrun
  rw [tableSlice_arr pmap key _ hp, Option.some.injEq] at h1
  subst h1
  obtain ⟨es, hes, _, hsnd, hmem, _⟩ := MapByKey_spec sprint "tagnode" _ tbl_map h3
  have hes' : es = tbls := (map_obj_injective _ _ hes).symm
  subst hes'
  have hnd : ((order tbl_map).map Prod.snd).Nodup :=
    ((horder tbl_map).map Prod.snd).nodup_iff.2 hsnd
  have hfin : fin = true := by
    apply tablesLoop_fin gv pf ri _ _ _ _ _ _ _ h5
    intro p hp'
    obtain ⟨e, he, hk⟩ := hmem p.1 p.2 ((horder tbl_map).mem_iff.1 hp')
    have := hlookups e (List.getElem?_mem he)
    rw [hk] at this
    exact bind_ne_none_iff.1 this
  subst hfin
  obtain ⟨hlen, hkeep, asked, hlog, hasked⟩ := tablesLoop_inv gv pf ri _ _ _ _ _ _ h5
  have hrew := tablesLoop_rewritten gv pf ri _ _ _ _ _ hnd h5
  have hat : ∀ (i : Nat) (t : Fields), es[i]? = some t →
      (translated[i]? = some (obj t) ∧ ∀ k, (k, i) ∉ tbl_map) ∨
      ∃ o id t', (sprint (index t "tagnode"), i) ∈ tbl_map ∧
        gv ri (sprint (index t "tagnode")) = some o ∧ pf o = some id ∧
        translateTableRoutes (store t "tagnode" (num id)) = some t' ∧
        translated[i]? = some (obj t') := by
    intro i t hit
    by_cases hvis : i ∈ (order tbl_map).map Prod.snd
    · right
      obtain ⟨p, hpm, hpi⟩ := List.mem_map.1 hvis
      obtain ⟨k, i0⟩ := p
      simp only at hpi
      subst hpi
      have hpm' : (k, i0) ∈ tbl_map := (horder tbl_map).mem_iff.1 hpm
      obtain ⟨e, he, hk⟩ := hmem k i0 hpm'
      rw [hit, Option.some.injEq] at he
      subst he
      obtain ⟨e, o, id, e', hi, hg, hpf, ht, he'⟩ := hrew _ hpm
      simp only [List.getElem?_map, hit, Option.map_some', Option.some.injEq,
        obj.injEq] at hi
      subst hi
      subst hk
      exact ⟨o, id, e', hpm', hg, hpf, ht, he'⟩
    · left
      refine ⟨?_, ?_⟩
      · rw [hkeep i hvis]
        simp [List.getElem?_map, hit]
      · intro k hk
        exact hvis (List.mem_map.2 ⟨(k, i), (horder tbl_map).mem_iff.2 hk, rfl⟩)
  have hlen' : translated.length = es.length := by simpa using hlen
  obtain ⟨tbls', rfl⟩ := exists_map_obj translated (by
    intro v hv
    obtain ⟨i, hi, rfl⟩ := List.mem_iff_getElem.1 hv
    have hi2 : i < es.length := by omega
    rcases hat i es[i] (List.getElem?_eq_getElem hi2) with ⟨h, _⟩ | ⟨_, _, t', _, _, _, _, h⟩
    · rw [List.getElem?_eq_getElem hi, Option.some.injEq] at h
      exact ⟨_, h⟩
    · rw [List.getElem?_eq_getElem hi, Option.some.injEq] at h
      exact ⟨_, h⟩)
  refine ⟨tbls', tbl_map, old_tbl_arr, old_tbl_map, log, h3, h2, h4, ?_, by simpa using hlen',
    by simpa using hreq, ?_, ?_⟩
  · rw [hout]
    simp [tablesParent, hp, index_store_self]
  · intro r hr
    rw [hlog] at hr
    exact hasked r (by simpa using hr)
  · intro i t hit
    have hconv : ∀ x : Fields, (tbls'.map obj)[i]? = some (obj x) → tbls'[i]? = some x := by
      intro x hx
      rw [List.getElem?_map] at hx
      cases h : tbls'[i]? with
      | none => simp [h] at hx
      | some y =>
        simp only [h, Option.map_some', Option.some.injEq, obj.injEq] at hx
        rw [hx]
    rcases hat i t hit with ⟨h, hno⟩ | ⟨o, id, t', hm, hg, hpf, ht, h⟩
    · exact Or.inl ⟨hconv _ h, hno⟩
    · exact Or.inr ⟨o, id, t', hm, hg, hpf, ht, hconv _ h⟩

/-! ## A second translation of translated routes -/

theorem index_congr {m m' : Fields} {k : String} (h : lookup m k = lookup m' k) :
    index m k = index m' k := by
  simp [index, h]

theorem TranslateNexthops_isSome_congr (m m' : Fields) (key : String)
    (h : index m key = index m' key) :
    (TranslateNexthops m key).isSome = (TranslateNexthops m' key).isSome := by
  unfold TranslateNexthops
  rw [h]
  cases index m' key with
  | arr l =>
    simp only
    cases nexthopsLoop l with
    | none => rfl
    | some p => rfl
  | _ => rfl

theorem index_updateParent (pmap : Fields) (key : String) (kept : List Value) (deleted : Bool) :
    index (updateParent pmap key kept deleted) key = arr kept ∨
    index (updateParent pmap key kept deleted) key = null := by
  cases kept with
  | nil =>
    cases deleted
    · left; simp [index, lookup_updateParent_same]
    · right; simp [index, lookup_updateParent_emptied]
  | cons x xs =>
    left; simp [index, lookup_updateParent_kept]

/-- What `TranslateNexthops` leaves under the key is translated again without a failed
assertion. -/
theorem TranslateNexthops_again (pmap out : Fields) (key : String)
    (h : TranslateNexthops pmap key = some out) :
    (TranslateNexthops out key).isSome = true := by
  cases hv : index pmap key with
  | arr l =>
    obtain ⟨nhs, rfl⟩ := TranslateNexthops_maps pmap out key l hv h
    rw [TranslateNexthops_arr pmap key nhs hv, Option.some.injEq] at h
    subst h
    rcases index_updateParent pmap key
        ((nhs.filter (fun nh => !IsNexthopDisabled nh)).map
          (fun nh => obj (renameInterfaceName nh))) (nhs.any IsNexthopDisabled) with h1 | h1
    · have h2 : index (updateParent pmap key
          ((nhs.filter (fun nh => !IsNexthopDisabled nh)).map
            (fun nh => obj (renameInterfaceName nh))) (nhs.any IsNexthopDisabled)) key =
          arr (((nhs.filter (fun nh => !IsNexthopDisabled nh)).map renameInterfaceName).map
            obj) := by
        rw [h1]
        simp
      rw [TranslateNexthops_arr _ key _ h2]
      rfl
    · simp [TranslateNexthops, h1]
  | null =>
    simp only [TranslateNexthops, hv, Option.some.injEq] at h
    subst h
    simp [TranslateNexthops, hv]
  | nilSlice =>
    simp only [TranslateNexthops, hv, Option.some.injEq] at h
    subst h
    simp [TranslateNexthops, hv]
  | bool b => simp [TranslateNexthops, hv] at h
  | num n => simp [TranslateNexthops, hv] at h
  | str s => simp [TranslateNexthops, hv] at h
  | obj o => simp [TranslateNexthops, hv] at h

theorem instancesLoop_kept (nkey : String) (l : List Value) (r : List Value × Bool)
    (h : instancesLoop nkey l = some r) :
    ∃ ks : List Fields, r.1 = ks.map obj ∧
      ∀ k ∈ ks, (TranslateNexthops k nkey).isSome = true := by
  induction l generalizing r with
  | nil =>
    simp only [instancesLoop, Option.some.injEq] at h
    subst h
    exact ⟨[], rfl, by simp⟩
  | cons x xs ih =>
    cases x with
    | obj m =>
      rw [instancesLoop] at h
      cases hx : instancesLoop nkey xs with
      | none => simp [hx] at h
      | some p =>
        obtain ⟨kept, deleted⟩ := p
        obtain ⟨ks, hks, hall⟩ := ih _ hx
        simp only at hks
        subst hks
        simp only [hx] at h
        cases ht : TranslateNexthops m nkey with
        | none => simp [ht] at h
        | some translated =>
          simp only [ht] at h
          by_cases hn : isNil (index translated nkey) = true
          · simp only [hn, if_true, Option.some.injEq] at h
            subst h
            exact ⟨ks, rfl, hall⟩
          · simp only [hn, Bool.false_eq_true, if_false, Option.some.injEq] at h
            subst h
            refine ⟨translated :: ks, rfl, ?_⟩
            intro k hk
            rcases List.mem_cons.1 hk with rfl | hk
            · exact TranslateNexthops_again m k nkey ht
            · exact hall k hk
    | _ => simp [instancesLoop] at h

theorem instancesLoop_total (nkey : String) (ks : List Fields)
    (h : ∀ k ∈ ks, (TranslateNexthops k nkey).isSome = true) :
    (instancesLoop nkey (ks.map obj)).isSome = true := by
  induction ks with
  | nil => rfl
  | cons k ks ih =>
    have hrest := ih (fun x hx => h x (List.mem_cons_of_mem _ hx))
    have hk := h k (List.mem_cons_self _ _)
    simp only [List.map_cons, instancesLoop]
    cases hx : instancesLoop nkey (ks.map obj) with
    | none => simp [hx] at hrest
    | some p =>
      obtain ⟨kept, deleted⟩ := p
      cases ht : TranslateNexthops k nkey with
      | none => simp [ht] at hk
      | some translated =>
        simp only
        split <;> rfl

theorem TranslateNexthopInstances_isSome_congr (m m' : Fields) (pkey nkey : String)
    (h : index m pkey = index m' pkey) :
    (TranslateNexthopInstances m pkey nkey).isSome =
      (TranslateNexthopInstances m' pkey nkey).isSome := by
  unfold TranslateNexthopInstances
  rw [h]
  cases index m' pkey with
  | arr l =>
    simp only
    cases instancesLoop nkey l with
    | none => rfl
    | some p => rfl
  | _ => rfl

/-- What `TranslateNexthopInstances` leaves under the key is translated again without a
failed assertion. -/
theorem TranslateNexthopInstances_again (pmap out : Fields) (pkey nkey : String)
    (h : TranslateNexthopInstances pmap pkey nkey = some out) :
    (TranslateNexthopInstances out pkey nkey).isSome = true := by
  cases hv : index pmap pkey with
  | arr l =>
    simp only [TranslateNexthopInstances, hv] at h
    cases hl : instancesLoop nkey l with
    | none => simp [hl] at h
    | some p =>
      obtain ⟨kept, deleted⟩ := p
      simp only [hl, Option.some.injEq] at h
      subst h
      obtain ⟨ks, hks, hall⟩ := instancesLoop_kept nkey l _ hl
      simp only at hks
      subst hks
      rcases index_updateParent pmap pkey (ks.map obj) deleted with h1 | h1
      · have := instancesLoop_total nkey ks hall
        cases hr : instancesLoop nkey (ks.map obj) with
        | none => simp [hr] at this
        | some q => simp [TranslateNexthopInstances, h1, hr]
      · simp [TranslateNexthopInstances, h1]
  | null =>
    simp only [TranslateNexthopInstances, hv, Option.some.injEq] at h
    subst h
    simp [TranslateNexthopInstances, hv]
  | nilSlice =>
    simp only [TranslateNexthopInstances, hv, Option.some.injEq] at h
    subst h
    simp [TranslateNexthopInstances, hv]
  | bool b => simp [TranslateNexthopInstances, hv] at h
  | num n => simp [TranslateNexthopInstances, hv] at h
  | str s => simp [TranslateNexthopInstances, hv] at h
  | obj o => simp [TranslateNexthopInstances, hv] at h

theorem index_deleteIfNil_self (m : Fields) (k : String) :
    index (deleteIfNil m k) k = index m k ∨ index (deleteIfNil m k) k = null := by
  unfold deleteIfNil
  split
  · right
    simp [index, lookup_delete_self]
  · left
    rfl

theorem TranslateNexthops_isSome_of (m0 m1 : Fields) (key : String)
    (h0 : (TranslateNexthops m0 key).isSome = true)
    (h : index m1 key = index m0 key ∨ index m1 key = null) :
    (TranslateNexthops m1 key).isSome = true := by
  rcases h with h | h
  · rw [TranslateNexthops_isSome_congr m1 m0 key h]
    exact h0
  · simp [TranslateNexthops, h]

theorem TranslateNexthopInstances_isSome_of (m0 m1 : Fields) (pkey nkey : String)
    (h0 : (TranslateNexthopInstances m0 pkey nkey).isSome = true)
    (h : index m1 pkey = index m0 pkey ∨ index m1 pkey = null) :
    (TranslateNexthopInstances m1 pkey nkey).isSome = true := by
  rcases h with h | h
  · rw [TranslateNexthopInstances_isSome_congr m1 m0 pkey nkey h]
    exact h0
  · simp [TranslateNexthopInstances, h]

theorem isNil_index_renameInstanceV6 (m : Fields) :
    isNil (index (renameInstanceV6 m) "next-hop-routing-instance-v6") = true := by
  unfold renameInstanceV6
  split
  · assumption
  · simp [index, lookup_delete_self, isNil]

/-- A translated route is translated again without a failed assertion. -/
theorem translateRoute_again (nkey : String) (r r' : Fields)
    (hn1 : nkey ≠ "next-hop-routing-instance") (hn2 : nkey ≠ "next-hop-routing-instance-v6")
    (h : translateRoute nkey r = some r') :
    (translateRoute nkey r').isSome = true := by
  have h0 := h
  unfold translateRoute at h
  cases hh : TranslateNexthops r nkey with
  | none => simp [hh] at h
  | some hops =>
    simp only [hh] at h
    cases hi : TranslateNexthopInstances (renameInstanceV6 (deleteIfNil hops nkey))
        "next-hop-routing-instance" nkey with
    | none => simp [hi] at h
    | some insts =>
      simp only [hi, Option.some.injEq] at h
      -- the next-hops of the translated route
      have hnk : index r' nkey = index hops nkey ∨ index r' nkey = null := by
        obtain ⟨hops0, hh0, hl⟩ := translateRoute_nkey nkey r r' hn1 hn2 h0
        rw [hh, Option.some.injEq] at hh0
        subst hh0
        rw [index_congr hl]
        exact index_deleteIfNil_self hops nkey
      have hdef := TranslateNexthops_isSome_of hops r' nkey
        (TranslateNexthops_again r hops nkey hh) hnk
      cases hh2 : TranslateNexthops r' nkey with
      | none => simp [hh2] at hdef
      | some hops2 =>
        have hframe : ∀ k, k ≠ nkey → lookup (deleteIfNil hops2 nkey) k = lookup r' k := by
          intro k hk
          rw [lookup_deleteIfNil_ne _ _ _ hk, TranslateNexthops_frame _ _ _ _ hh2 hk]
        -- the renamed key is not there any more
        have hv6 : isNil (index r' "next-hop-routing-instance-v6") = true := by
          have : lookup r' "next-hop-routing-instance-v6" =
              lookup (renameInstanceV6 (deleteIfNil hops nkey))
                "next-hop-routing-instance-v6" := by
            rw [← h, lookup_deleteIfNil_ne _ _ _ (by decide),
              TranslateNexthopInstances_frame _ _ _ _ _ hi (by decide)]
          rw [index_congr this]
          exact isNil_index_renameInstanceV6 _
        have hsame : renameInstanceV6 (deleteIfNil hops2 nkey) = deleteIfNil hops2 nkey := by
          unfold renameInstanceV6
          rw [index_congr (hframe _ (Ne.symm hn2)), hv6]
          rfl
        -- the instances of the translated route
        have hri : index (deleteIfNil hops2 nkey) "next-hop-routing-instance" =
              index insts "next-hop-routing-instance" ∨
            index (deleteIfNil hops2 nkey) "next-hop-routing-instance" = null := by
          rw [index_congr (hframe _ (Ne.symm hn1)), ← h]
          exact index_deleteIfNil_self insts _
        have hdef2 := TranslateNexthopInstances_isSome_of insts (deleteIfNil hops2 nkey)
          "next-hop-routing-instance" nkey
          (TranslateNexthopInstances_again _ insts _ nkey hi) hri
        unfold translateRoute
        simp only [hh2, hsame]
        cases hi2 : TranslateNexthopInstances (deleteIfNil hops2 nkey)
            "next-hop-routing-instance" nkey with
        | none => simp [hi2] at hdef2
        | some insts2 => rfl

theorem routesLoop_kept (nkey : String) (l : List Value) (r : List Value × Bool)
    (hn1 : nkey ≠ "next-hop-routing-instance") (hn2 : nkey ≠ "next-hop-routing-instance-v6")
    (h : routesLoop nkey l = some r) :
    ∃ ks : List Fields, r.1 = ks.map obj ∧
      ∀ k ∈ ks, (translateRoute nkey k).isSome = true := by
  induction l generalizing r with
  | nil =>
    simp only [routesLoop, Option.some.injEq] at h
    subst h
    exact ⟨[], rfl, by simp⟩
  | cons x xs ih =>
    cases x with
    | obj m =>
      rw [routesLoop] at h
      cases hx : routesLoop nkey xs with
      | none => simp [hx] at h
      | some p =>
        obtain ⟨kept, deleted⟩ := p
        obtain ⟨ks, hks, hall⟩ := ih _ hx
        simp only at hks
        subst hks
        simp only [hx] at h
        cases ht : translateRoute nkey m with
        | none => simp [ht] at h
        | some translated =>
          simp only [ht] at h
          by_cases hn : len translated ≤ 1
          · simp only [hn, if_true, Option.some.injEq] at h
            subst h
            exact ⟨ks, rfl, hall⟩
          · simp only [hn, if_false, Option.some.injEq] at h
            subst h
            refine ⟨translated :: ks, rfl, ?_⟩
            intro k hk
            rcases List.mem_cons.1 hk with rfl | hk
            · exact translateRoute_again nkey m k hn1 hn2 ht
            · exact hall k hk
    | _ => simp [routesLoop] at h

theorem routesLoop_total (nkey : String) (ks : List Fields)
    (h : ∀ k ∈ ks, (translateRoute nkey k).isSome = true) :
    (routesLoop nkey (ks.map obj)).isSome = true := by
  induction ks with
  | nil => rfl
  | cons k ks ih =>
    have hrest := ih (fun x hx => h x (List.mem_cons_of_mem _ hx))
    have hk := h k (List.mem_cons_self _ _)
    simp only [List.map_cons, routesLoop]
    cases hx : routesLoop nkey (ks.map obj) with
    | none => simp [hx] at hrest
    | some p =>
      obtain ⟨kept, deleted⟩ := p
      cases ht : translateRoute nkey k with
      | none => simp [ht] at hk
      | some translated =>
        simp only
        split <;> rfl

theorem TranslateRoutes_isSome_congr (m m' : Fields) (pkey nkey : String)
    (h : index m pkey = index m' pkey) :
    (TranslateRoutes m pkey nkey).isSome = (TranslateRoutes m' pkey nkey).isSome := by
  unfold TranslateRoutes
  rw [h]
  cases index m' pkey with
  | arr l =>
    simp only
    cases routesLoop nkey l with
    | none => rfl
    | some p => rfl
  | _ => rfl

/-- What `TranslateRoutes` leaves under the key is translated again without a failed
assertion. -/
theorem TranslateRoutes_again (pmap out : Fields) (pkey nkey : String)
    (hn1 : nkey ≠ "next-hop-routing-instance") (hn2 : nkey ≠ "next-hop-routing-instance-v6")
    (h : TranslateRoutes pmap pkey nkey = some out) :
    (TranslateRoutes out pkey nkey).isSome = true := by
  cases hv : index pmap pkey with
  | arr l =>
    simp only [TranslateRoutes, hv] at h
    cases hl : routesLoop nkey l with
    | none => simp [hl] at h
    | some p =>
      obtain ⟨kept, deleted⟩ := p
      simp only [hl, Option.some.injEq] at h
      subst h
      obtain ⟨ks, hks, hall⟩ := routesLoop_kept nkey l _ hn1 hn2 hl
      simp only at hks
      subst hks
      rcases index_updateParent pmap pkey (ks.map obj) deleted with h1 | h1
      · have := routesLoop_total nkey ks hall
        cases hr : routesLoop nkey (ks.map obj) with
        | none => simp [hr] at this
        | some q => simp [TranslateRoutes, h1, hr]
      · simp [TranslateRoutes, h1]
  | null =>
    simp only [TranslateRoutes, hv, Option.some.injEq] at h
    subst h
    simp [TranslateRoutes, hv]
  | nilSlice =>
    simp only [TranslateRoutes, hv, Option.some.injEq] at h
    subst h
    simp [TranslateRoutes, hv]
  | bool b => simp [TranslateRoutes, hv] at h
  | num n => simp [TranslateRoutes, hv] at h
  | str s => simp [TranslateRoutes, hv] at h
  | obj o => simp [TranslateRoutes, hv] at h

/-- The routes of a table entry, once translated, are translated again without a failed
assertion, whatever is stored under `tagnode` in between. -/
theorem translateTableRoutes_again (m m1 : Fields) (v : Value)
    (h : translateTableRoutes m = some m1) :
    (translateTableRoutes (store m1 "tagnode" v)).isSome = true := by
  unfold translateTableRoutes at h
  cases h1 : TranslateRoutes m "interface-route" "next-hop-interface" with
  | none => simp [h1] at h
  | some a =>
    cases h2 : TranslateRoutes a "interface-route6" "next-hop-interface" with
    | none => simp [h1, h2] at h
    | some b =>
      cases h3 : TranslateRoutes b "route" "next-hop" with
      | none => simp [h1, h2, h3] at h
      | some c =>
        simp only [h1, h2, h3, Option.some_bind] at h
        -- the first collection
        have e1 : index (store m1 "tagnode" v) "interface-route" = index a "interface-route" := by
          apply index_congr
          rw [lookup_store_ne _ _ _ _ (by decide),
            TranslateRoutes_frame _ _ _ _ _ h (by decide),
            TranslateRoutes_frame _ _ _ _ _ h3 (by decide),
            TranslateRoutes_frame _ _ _ _ _ h2 (by decide)]
        have d1 : (TranslateRoutes (store m1 "tagnode" v) "interface-route"
            "next-hop-interface").isSome = true := by
          rw [TranslateRoutes_isSome_congr _ a _ _ e1]
          exact TranslateRoutes_again m a _ _ (by decide) (by decide) h1
        cases g1 : TranslateRoutes (store m1 "tagnode" v) "interface-route"
            "next-hop-interface" with
        | none => simp [g1] at d1
        | some a2 =>
          -- the second collection
          have e2 : index a2 "interface-route6" = index b "interface-route6" := by
            apply index_congr
            rw [TranslateRoutes_frame _ _ _ _ _ g1 (by decide),
              lookup_store_ne _ _ _ _ (by decide),
              TranslateRoutes_frame _ _ _ _ _ h (by decide),
              TranslateRoutes_frame _ _ _ _ _ h3 (by decide)]
          have d2 : (TranslateRoutes a2 "interface-route6" "next-hop-interface").isSome =
              true := by
            rw [TranslateRoutes_isSome_congr _ b _ _ e2]
            exact TranslateRoutes_again a b _ _ (by decide) (by decide) h2
          cases g2 : TranslateRoutes a2 "interface-route6" "next-hop-interface" with
          | none => simp [g2] at d2
          | some b2 =>
            -- the third collection
            have e3 : index b2 "route" = index c "route" := by
              apply index_congr
              rw [TranslateRoutes_frame _ _ _ _ _ g2 (by decide),
                TranslateRoutes_frame _ _ _ _ _ g1 (by decide),
                lookup_store_ne _ _ _ _ (by decide),
                TranslateRoutes_frame _ _ _ _ _ h (by decide)]
            have d3 : (TranslateRoutes b2 "route" "next-hop").isSome = true := by
              rw [TranslateRoutes_isSome_congr _ c _ _ e3]
              exact TranslateRoutes_again b c _ _ (by decide) (by decide) h3
            cases g3 : TranslateRoutes b2 "route" "next-hop" with
            | none => simp [g3] at d3
            | some c2 =>
              -- the fourth collection
              have e4 : index c2 "route6" = index m1 "route6" := by
                apply index_congr
                rw [TranslateRoutes_frame _ _ _ _ _ g3 (by decide),
                  TranslateRoutes_frame _ _ _ _ _ g2 (by decide),
                  TranslateRoutes_frame _ _ _ _ _ g1 (by decide),
                  lookup_store_ne _ _ _ _ (by decide)]
              have d4 : (TranslateRoutes c2 "route6" "next-hop").isSome = true := by
                rw [TranslateRoutes_isSome_congr _ m1 _ _ e4]
                exact TranslateRoutes_again c m1 _ _ (by decide) (by decide) h
              unfold translateTableRoutes
              simp only [g1, g2, g3, Option.some_bind]
              exact d4

/-- Counterexample to C11: the allocator is a function, every lookup succeeds and the
previous tree is the current tree, with the one table `1`.  The first run writes 101.  The
second run, on the tree as rewritten, looks up the tag `101`, writes 201 and releases the
table `1` of the previous tree. -/
theorem C11_counterexample :
    (∀ ri table_id, (exShiftGetvrftable ri table_id).bind exShiftParseFloat ≠ none) ∧
    TranslateTables sprintSmall exShiftGetvrftable exShiftParseFloat id exTables1 exTables1
        "table" "default" =
      some ([("table", arr [obj [("tagnode", num 101)]])],
        [Request.addTable "default" "1", Request.getTable "default" "1"]) ∧
    TranslateTables sprintSmall exShiftGetvrftable exShiftParseFloat id
        [("table", arr [obj [("tagnode", num 101)]])] exTables1 "table" "default" =
      some ([("table", arr [obj [("tagnode", num 201)]])],
        [Request.addTable "default" "101", Request.getTable "default" "101",
          Request.delTable "default" "1"]) := by
  refine ⟨?_, by decide, by decide⟩
  intro ri table_id
  unfold exShiftGetvrftable
  split <;> simp only [Option.some_bind] <;> unfold exShiftParseFloat <;> split <;> simp

/-- Claim C11, amended. Let the previous tree be the current tree, and let the allocator
return, for the tag of every table, an identifier that is rendered as that tag.  Then
`TranslateTables` returns, and a second run on the tree as the first run left it, against
the same previous tree, returns as well, runs no release command and leaves under
`tagnode`, at every position of the table collection, what the first run wrote.  (The
table collection is a slice of maps whose routes translate.) -/
theorem C11_second_run_stable (sprint : Value → String)
    (gv : String → String → Option String) (pf : String → Option Int)
    (order : GoMap Nat → GoMap Nat) (horder : ∀ m, (order m).Perm m)
    (pmap : Fields) (key ri : String) (tbls : List Fields)
    (hp : index pmap key = arr (tbls.map obj))
    (hsame : ∀ t ∈ tbls,
      ((gv ri (sprint (index t "tagnode"))).bind pf).map (fun id => sprint (num id)) =
        some (sprint (index t "tagnode")))
    (hroutes : ∀ t ∈ tbls, ∀ id, translateTableRoutes (store t "tagnode" (num id)) ≠ none) :
    ∃ (out1 out2 : Fields) (requests1 requests2 : List Request) (tbls1 tbls2 : List Fields),
      TranslateTables sprint gv pf order pmap pmap key ri = some (out1, requests1) ∧
      TranslateTables sprint gv pf order out1 pmap key ri = some (out2, requests2) ∧
      (∀ a b, Request.delTable a b ∉ requests2) ∧
      index out1 key = arr (tbls1.map obj) ∧ index out2 key = arr (tbls2.map obj) ∧
      tbls2.map (fun t => lookup t "tagnode") = tbls1.map (fun t => lookup t "tagnode") := by
  have hlookups : ∀ t ∈ tbls, (gv ri (sprint (index t "tagnode"))).bind pf ≠ none := by
    intro t ht h
    have := hsame t ht
    rw [h] at this
    simp at this
  have hrender : ∀ t ∈ tbls, ∀ o id, gv ri (sprint (index t "tagnode")) = some o →
      pf o = some id → sprint (num id) = sprint (index t "tagnode") := by
    intro t ht o id hg hpf
    have := hsame t ht
    simpa [hg, hpf] using this
  -- the first run
  obtain ⟨out1, requests1, hrun1⟩ := TranslateTables_total sprint gv pf order horder pmap
    pmap key ri tbls tbls (tableSlice_arr _ _ _ hp) (tableSlice_arr _ _ _ hp) hlookups hroutes
  obtain ⟨tbls1, tbl_map, old_arr, old_map, log1, hmap, hold, holdmap, hout1, hlen1, _, _,
    hat1⟩ := TranslateTables_positions sprint gv pf order horder pmap pmap key ri tbls out1
      requests1 hp hlookups hrun1
  rw [tableSlice_arr _ _ _ hp, Option.some.injEq] at hold
  subst hold
  rw [hmap, Option.some.injEq] at holdmap
  subst holdmap
  have htag1 : ∀ (i : Nat) (t t1 : Fields), tbls[i]? = some t → tbls1[i]? = some t1 →
      sprint (index t1 "tagnode") = sprint (index t "tagnode") := by
    intro i t t1 hit hit1
    rcases hat1 i t hit with ⟨h, _⟩ | ⟨o, id, t', _, hg, hpf, ht, h⟩
    · rw [hit1, Option.some.injEq] at h
      rw [h]
    · rw [hit1, Option.some.injEq] at h
      subst h
      have hl : lookup t1 "tagnode" = some (num id) := by
        rw [translateTableRoutes_tagnode _ _ ht, lookup_store_self]
      rw [index_eq_of_lookup hl]
      exact hrender t (List.getElem?_mem hit) o id hg hpf
  have hkeys : tbls1.map (fun e => sprint (index e "tagnode")) =
      tbls.map (fun e => sprint (index e "tagnode")) := by
    apply List.ext_getElem?
    intro i
    simp only [List.getElem?_map]
    cases h1 : tbls1[i]? with
    | none =>
      have : tbls[i]? = none := by
        rw [List.getElem?_eq_none_iff] at h1 ⊢
        omega
      simp [this]
    | some t1 =>
      cases h0 : tbls[i]? with
      | none =>
        rw [List.getElem?_eq_none_iff] at h0
        have : tbls1[i]? = none := by
          rw [List.getElem?_eq_none_iff]
          omega
        rw [this] at h1
        simp at h1
      | some t =>
        simp [htag1 i t t1 h0 h1]
  have hfrom : ∀ t1 ∈ tbls1, ∃ (i : Nat) (t : Fields),
      tbls[i]? = some t ∧ tbls1[i]? = some t1 := by
    intro t1 ht1
    obtain ⟨i, hi, rfl⟩ := List.mem_iff_getElem.1 ht1
    have hi0 : i < tbls.length := by omega
    exact ⟨i, tbls[i], List.getElem?_eq_getElem hi0, List.getElem?_eq_getElem hi⟩
  have hlookups1 : ∀ t1 ∈ tbls1, (gv ri (sprint (index t1 "tagnode"))).bind pf ≠ none := by
    intro t1 ht1
    obtain ⟨i, t, hit, hit1⟩ := hfrom t1 ht1
    rw [htag1 i t t1 hit hit1]
    exact hlookups t (List.getElem?_mem hit)
  have hroutes1 : ∀ t1 ∈ tbls1, ∀ id,
      translateTableRoutes (store t1 "tagnode" (num id)) ≠ none := by
    intro t1 ht1 id2
    obtain ⟨i, t, hit, hit1⟩ := hfrom t1 ht1
    rcases hat1 i t hit with ⟨h, _⟩ | ⟨o, id, t', _, _, _, ht, h⟩
    · rw [hit1, Option.some.injEq] at h
      rw [h]
      exact hroutes t (List.getElem?_mem hit) id2
    · rw [hit1, Option.some.injEq] at h
      subst h
      intro hnone
      have := translateTableRoutes_again _ t1 (num id2) ht
      rw [hnone] at this
      simp at this
  -- the second run
  obtain ⟨out2, requests2, hrun2⟩ := TranslateTables_total sprint gv pf order horder out1
    pmap key ri tbls1 tbls (tableSlice_arr _ _ _ hout1) (tableSlice_arr _ _ _ hp) hlookups1
    hroutes1
  obtain ⟨tbls2, tbl_map2, old_arr2, old_map2, log2, hmap2, hold2, holdmap2, hout2, hlen2,
    hreq2, hlog2, hat2⟩ := TranslateTables_positions sprint gv pf order horder out1 pmap key
      ri tbls1 out2 requests2 hout1 hlookups1 hrun2
  rw [tableSlice_arr _ _ _ hp, Option.some.injEq] at hold2
  subst hold2
  rw [hmap, Option.some.injEq] at holdmap2
  subst holdmap2
  have hsamemap : tbl_map2 = tbl_map := by
    have := mapByKeyFrom_congr sprint "tagnode" tbls1 tbls hkeys 0 []
    unfold MapByKey at hmap hmap2
    rw [this, hmap, Option.some.injEq] at hmap2
    exact hmap2.symm
  subst hsamemap
  have hnorelease : releaseLoop ri tbl_map2 (order tbl_map2) = [] := by
    apply releaseLoop_bound
    intro p hp'
    rw [lookup_ne_none_iff]
    exact List.mem_map_of_mem _ ((horder tbl_map2).mem_iff.1 hp')
  rw [hnorelease, List.append_nil] at hreq2
  subst hreq2
  refine ⟨out1, out2, requests1, requests2, tbls1, tbls2, hrun1, hrun2, ?_, hout1, hout2, ?_⟩
  · intro a b hmem
    exact hlog2 _ hmem a b rfl
  · apply List.ext_getElem?
    intro i
    simp only [List.getElem?_map]
    cases h1 : tbls1[i]? with
    | none =>
      have : tbls2[i]? = none := by
        rw [List.getElem?_eq_none_iff] at h1 ⊢
        omega
      simp [this]
    | some t1 =>
      rcases hat2 i t1 h1 with ⟨h, _⟩ | ⟨o2, id2, t2, hm2, hg2, hpf2, ht2, h⟩
      · simp [h]
      · have hi0 : i < tbls.length := by
          have := (List.getElem?_eq_some_iff.1 h1).1
          omega
        have hit : tbls[i]? = some tbls[i] := List.getElem?_eq_getElem hi0
        rcases hat1 i _ hit with ⟨_, hno⟩ | ⟨o, id, t', _, hg, hpf, ht, h'⟩
        · exact absurd hm2 (hno _)
        · rw [h1, Option.some.injEq] at h'
          subst h'
          rw [htag1 i _ _ hit h1, hg, Option.some.injEq] at hg2
          subst hg2
          rw [hpf, Option.some.injEq] at hpf2
          subst hpf2
          simp only [h, Option.map_some', Option.some.injEq]
          rw [translateTableRoutes_tagnode _ _ ht2, lookup_store_self,
            translateTableRoutes_tagnode _ _ ht, lookup_store_self]

/-- The routes of the table `7` of the examples translate, whatever number is stored under
`tagnode`. -/
theorem exTable7_routes (id : Int) :
    translateTableRoutes
        (store [("tagnode", num 7), ("route", arr [obj exRouteA, obj exRouteB])] "tagnode"
          (num id)) =
      some [("tagnode", num id), ("route", arr [obj exRouteA'])] := by
  rfl

/-- Witness of C11 (amended) on the table `7`, to which the allocator gives the
identifier 7. -/
theorem C11_second_run_stable_witness :
    ∃ (out1 out2 : Fields) (requests1 requests2 : List Request) (tbls1 tbls2 : List Fields),
      TranslateTables sprintSmall exSameGetvrftable exSameParseFloat id exTables7 exTables7
        "table" "default" = some (out1, requests1) ∧
      TranslateTables sprintSmall exSameGetvrftable exSameParseFloat id out1 exTables7
        "table" "default" = some (out2, requests2) ∧
      (∀ a b, Request.delTable a b ∉ requests2) ∧
      index out1 "table" = arr (tbls1.map obj) ∧ index out2 "table" = arr (tbls2.map obj) ∧
      tbls2.map (fun t => lookup t "tagnode") = tbls1.map (fun t => lookup t "tagnode") :=
  C11_second_run_stable sprintSmall exSameGetvrftable exSameParseFloat id
    (fun m => List.Perm.refl m) exTables7 "table" "default"
    [[("tagnode", num 7), ("route", arr [obj exRouteA, obj exRouteB])]]
    (by decide) (by decide)
    (by
      intro t ht id
      simp only [List.mem_singleton] at ht
      subst ht
      rw [exTable7_routes]
      simp)

/-! ## Lemmas on `TranslateProtocols` -/

theorem tablesLoop_congr (gv gv' : String → String → Option String) (pf : String → Option Int)
    (ri : String) (hagree : ∀ k, gv ri k = gv' ri k) (todo : List (String × Nat))
    (tbl_arr : List Value) (requests : List Request) :
    tablesLoop gv pf ri todo tbl_arr requests = tablesLoop gv' pf ri todo tbl_arr requests := by
  induction todo generalizing tbl_arr requests with
  | nil => simp [tablesLoop]
  | cons p todo ih =>
    obtain ⟨table_id, i⟩ := p
    rw [tablesLoop_cons, tablesLoop_cons, hagree table_id]
    simp only [ih]

theorem TranslateTables_congr (sprint : Value → String)
    (gv gv' : String → String → Option String) (pf : String → Option Int)
    (order : GoMap Nat → GoMap Nat) (pmap old_pmap : Fields) (key ri : String)
    (hagree : ∀ k, gv ri k = gv' ri k) :
    TranslateTables sprint gv pf order pmap old_pmap key ri =
      TranslateTables sprint gv' pf order pmap old_pmap key ri := by
  unfold TranslateTables
  simp only [tablesLoop_congr gv gv' pf ri hagree]

theorem TranslateProtocols_congr (sprint : Value → String)
    (gv gv' : String → String → Option String) (pf : String → Option Int)
    (order : GoMap Nat → GoMap Nat) (proto_if old_proto_if : Value) (ri : String)
    (hagree : ∀ k, gv ri k = gv' ri k) :
    TranslateProtocols sprint gv pf order proto_if old_proto_if ri =
      TranslateProtocols sprint gv' pf order proto_if old_proto_if ri := by
  unfold TranslateProtocols
  simp only [TranslateTables_congr sprint gv gv' pf order _ _ _ ri hagree]

theorem tablesLoop_ri (gv : String → String → Option String) (pf : String → Option Int)
    (ri : String) (todo : List (String × Nat)) (tbl_arr : List Value) (requests : List Request)
    (arr' : List Value) (log' : List Request) (fin : Bool)
    (hreq : ∀ r ∈ requests, r.ri = ri)
    (h : tablesLoop gv pf ri todo tbl_arr requests = some (arr', log', fin)) :
    ∀ r ∈ log', r.ri = ri := by
  induction todo generalizing tbl_arr requests with
  | nil =>
    simp only [tablesLoop, Option.some.injEq, Prod.mk.injEq] at h
    obtain ⟨_, rfl, _⟩ := h
    exact hreq
  | cons p todo ih =>
    obtain ⟨table_id, i⟩ := p
    have hasked : ∀ r ∈ requests ++
        [Request.addTable ri table_id, Request.getTable ri table_id], r.ri = ri := by
      intro r hr
      simp only [List.mem_append, List.mem_cons, List.mem_singleton, List.not_mem_nil,
        or_false] at hr
      rcases hr with hr | rfl | rfl
      · exact hreq r hr
      · rfl
      · rfl
    rcases tablesLoop_cons_some gv pf ri table_id i todo tbl_arr requests _ h with
      ⟨hres, _⟩ | ⟨out, id, e, e', _, _, _, _, hrest⟩
    · simp only [Prod.mk.injEq] at hres
      obtain ⟨_, rfl, _⟩ := hres
      exact hasked
    · exact ih _ _ hasked hrest

theorem releaseLoop_ri (ri : String) (tbl_map : GoMap Nat) (todo : List (String × Nat)) :
    ∀ r ∈ releaseLoop ri tbl_map todo, r.ri = ri := by
  intro r hr
  obtain ⟨p, _, _, rfl⟩ := (mem_releaseLoop ri tbl_map todo r).1 hr
  rfl

theorem TranslateTables_ri (sprint : Value → String) (gv : String → String → Option String)
    (pf : String → Option Int) (order : GoMap Nat → GoMap Nat) (pmap old_pmap : Fields)
    (key ri : String) (out : Fields) (requests : List Request)
    (hrun : TranslateTables sprint gv pf order pmap old_pmap key ri = some (out, requests)) :
    ∀ r ∈ requests, r.ri = ri := by
  cases hnn : (isNil (index pmap key) && isNil (index old_pmap key)) with
  | true =>
    simp only [TranslateTables, hnn, if_true, Option.some.injEq, Prod.mk.injEq] at hrun
    rw [← hrun.2]
    simp
  | false =>
    obtain ⟨_, _, tbl_map, old_tbl_map, _, log, fin, _, _, _, _, h5, _, hreq⟩ :=
      TranslateTables_run sprint gv pf order pmap old_pmap key ri out requests hnn hrun
    intro r hr
    rw [hreq, List.mem_append] at hr
    rcases hr with hr | hr
    · exact tablesLoop_ri gv pf ri _ _ _ _ _ _ (by simp) h5 r hr
    · cases fin with
      | true => exact releaseLoop_ri ri _ _ r (by simpa using hr)
      | false => simp at hr

theorem TranslateProtocols_ri (sprint : Value → String) (gv : String → String → Option String)
    (pf : String → Option Int) (order : GoMap Nat → GoMap Nat) (proto_if old_proto_if : Value)
    (ri : String) (out : Value) (requests : List Request)
    (hrun : TranslateProtocols sprint gv pf order proto_if old_proto_if ri =
      some (out, requests)) :
    ∀ r ∈ requests, r.ri = ri := by
  unfold TranslateProtocols at hrun
  split at hrun
  · simp only [Option.some.injEq, Prod.mk.injEq] at hrun
    rw [← hrun.2]
    simp
  · split at hrun
    · split at hrun
      · simp only [Option.some.injEq, Prod.mk.injEq] at hrun
        rw [← hrun.2]
        simp
      · split at hrun
        · split at hrun
          · simp at hrun
          · split at hrun
            · simp at hrun
            · rename_i translated reqs ht
              simp only [Option.some.injEq, Prod.mk.injEq] at hrun
              rw [← hrun.2]
              exact TranslateTables_ri sprint gv pf order _ _ _ ri _ _ ht
        · simp at hrun
    · simp at hrun

/-! ## Lemmas on `TranslateRouting` -/

theorem order_nil (order : GoMap Nat → GoMap Nat) (horder : ∀ m, (order m).Perm m) :
    order [] = [] :=
  List.Perm.eq_nil (horder [])

/-- `TranslateProtocols` for a routing instance that is not in the current tree: the
tables of the previous `static` map are released. -/
theorem TranslateProtocols_removed (sprint : Value → String)
    (gv : String → String → Option String) (pf : String → Option Int)
    (order : GoMap Nat → GoMap Nat) (horder : ∀ m, (order m).Perm m)
    (protos static : Fields) (tbls : List Fields) (ri : String)
    (hs : index protos "static" = obj static)
    (ht : index static "table" = arr (tbls.map obj)) :
    ∃ old_tbl_map, MapByKey sprint (tbls.map obj) "tagnode" = some old_tbl_map ∧
      TranslateProtocols sprint gv pf order null (obj protos) ri =
        some (null, releaseLoop ri [] (order old_tbl_map)) := by
  obtain ⟨old_tbl_map, hmap⟩ := mapByKeyFrom_total sprint "tagnode" 0 tbls []
  refine ⟨old_tbl_map, hmap, ?_⟩
  have hroutes : translateStaticRoutes [] = some [] := rfl
  have htables : TranslateTables sprint gv pf order [] static "table" ri =
      some ([], releaseLoop ri [] (order old_tbl_map)) := by
    have h1 : tableSlice ([] : Fields) "table" = some [] := rfl
    have h2 : MapByKey sprint [] "tagnode" = some [] := rfl
    have h3 : index ([] : Fields) "table" = null := rfl
    have hmap' : MapByKey sprint (tbls.map obj) "tagnode" = some old_tbl_map := hmap
    simp [TranslateTables, h1, h2, h3, ht, isNil, tableSlice_arr static "table" _ ht, hmap',
      order_nil order horder, tablesLoop, tablesParent]
  have h0 : index ([] : Fields) "static" = null := rfl
  simp [TranslateProtocols, isNil, mapOrMake, h0, hs, hroutes, htables, protocolsAfter]

theorem routingOldLoop_mem (sprint : Value → String) (gv : String → String → Option String)
    (pf : String → Option Int) (order : GoMap Nat → GoMap Nat) (ri_map : GoMap Nat)
    (old_ri_arr : List Value) (todo : List (String × Nat)) (requests all : List Request)
    (h : routingOldLoop sprint gv pf order ri_map old_ri_arr todo requests = some all) :
    (∀ r ∈ requests, r ∈ all) ∧
    ∀ key j oe, (key, j) ∈ todo → lookup ri_map key = none →
      old_ri_arr[j]? = some (obj oe) →
      ∃ v asked, TranslateProtocols sprint gv pf order null (index oe "protocols") key =
        some (v, asked) ∧ ∀ r ∈ asked, r ∈ all := by
  induction todo generalizing requests with
  | nil =>
    simp only [routingOldLoop, Option.some.injEq] at h
    subst h
    exact ⟨fun _ hr => hr, by simp⟩
  | cons p todo ih =>
    obtain ⟨key0, j0⟩ := p
    rw [routingOldLoop] at h
    by_cases hb : (lookup ri_map key0).isNone = true
    · simp only [hb, if_true] at h
      cases hj : old_ri_arr[j0]? with
      | none => simp [hj] at h
      | some v0 =>
        cases v0 with
        | obj oe0 =>
          simp only [hj] at h
          cases htp : TranslateProtocols sprint gv pf order null (index oe0 "protocols")
              key0 with
          | none => simp [htp] at h
          | some res =>
            obtain ⟨v, asked⟩ := res
            simp only [htp] at h
            obtain ⟨hsub, hrest⟩ := ih _ h
            refine ⟨fun r hr => hsub r (List.mem_append_left _ hr), ?_⟩
            intro key j oe hmem hnone hoe
            rcases List.mem_cons.1 hmem with heq | hmem'
            · simp only [Prod.mk.injEq] at heq
              obtain ⟨rfl, rfl⟩ := heq
              rw [hj, Option.some.injEq, obj.injEq] at hoe
              subst hoe
              exact ⟨v, asked, htp, fun r hr => hsub r (List.mem_append_right _ hr)⟩
            · exact hrest key j oe hmem' hnone hoe
        | _ => simp [hj] at h
    · simp only [hb, if_false] at h
      obtain ⟨hsub, hrest⟩ := ih _ h
      refine ⟨hsub, ?_⟩
      intro key j oe hmem hnone hoe
      rcases List.mem_cons.1 hmem with heq | hmem'
      · simp only [Prod.mk.injEq] at heq
        obtain ⟨rfl, rfl⟩ := heq
        simp [hnone] at hb
      · exact hrest key j oe hmem' hnone hoe

/-- The run of `TranslateRouting` that gets past its tests, taken apart. -/
theorem TranslateRouting_run (sprint : Value → String) (gv : String → String → Option String)
    (pf : String → Option Int) (order : GoMap Nat → GoMap Nat)
    (routing_if old_routing_if : Value) (routing_map old_routing_map : Fields)
    (out : Value) (all : List Request)
    (hnn0 : (isNil routing_if && isNil old_routing_if) = false)
    (hcur : mapOrMake routing_if = some routing_map)
    (hold : mapOrMake old_routing_if = some old_routing_map)
    (hnn : (isNil (index routing_map "routing-instance") &&
      isNil (index old_routing_map "routing-instance")) = false)
    (hrun : TranslateRouting sprint gv pf order routing_if old_routing_if = some (out, all)) :
    ∃ ri_arr old_ri_arr ri_map old_ri_map translated requests,
      tableSlice routing_map "routing-instance" = some ri_arr ∧
      tableSlice old_routing_map "routing-instance" = some old_ri_arr ∧
      MapByKey sprint ri_arr "instance-name" = some ri_map ∧
      MapByKey sprint old_ri_arr "instance-name" = some old_ri_map ∧
      routingLoop sprint gv pf order old_ri_arr old_ri_map (order ri_map) ri_arr [] =
        some (translated, requests) ∧
      routingOldLoop sprint gv pf order ri_map old_ri_arr (order old_ri_map) requests =
        some all ∧
      out = routingAfter routing_if translated := by
  unfold TranslateRouting at hrun
  simp only [hnn0, Bool.false_eq_true, if_false, hcur, hold, hnn] at hrun
  cases h1 : tableSlice routing_map "routing-instance" with
  | none => simp [h1] at hrun
  | some ri_arr =>
    cases h2 : tableSlice old_routing_map "routing-instance" with
    | none => simp [h1, h2] at hrun
    | some old_ri_arr =>
      simp only [h1, h2] at hrun
      cases h3 : MapByKey sprint ri_arr "instance-name" with
      | none => simp [h3] at hrun
      | some ri_map =>
        cases h4 : MapByKey sprint old_ri_arr "instance-name" with
        | none => simp [h3, h4] at hrun
        | some old_ri_map =>
          simp only [h3, h4] at hrun
          cases h5 : routingLoop sprint gv pf order old_ri_arr old_ri_map (order ri_map)
              ri_arr [] with
          | none => simp [h5] at hrun
          | some res =>
            obtain ⟨translated, requests⟩ := res
            simp only [h5] at hrun
            cases h6 : routingOldLoop sprint gv pf order ri_map old_ri_arr
                (order old_ri_map) requests with
            | none => simp [h6] at hrun
            | some all0 =>
              simp only [h6, Option.some.injEq, Prod.mk.injEq] at hrun
              obtain ⟨rfl, rfl⟩ := hrun
              exact ⟨ri_arr, old_ri_arr, ri_map, old_ri_map, translated, requests, rfl, rfl,
                h3, h4, h5, h6, rfl⟩

theorem Translate_run (sprint : Value → String) (gv : String → String → Option String)
    (pf : String → Option Int) (order : GoMap Nat → GoMap Nat)
    (frontend_map old_frontend_map out : Fields) (requests : List Request)
    (hrun : Translate sprint gv pf order frontend_map old_frontend_map = some (out, requests)) :
    ∃ protocols asked routing released,
      TranslateProtocols sprint gv pf order (index frontend_map "protocols")
        (index old_frontend_map "protocols") "default" = some (protocols, asked) ∧
      TranslateRouting sprint gv pf order (index frontend_map "routing")
        (index old_frontend_map "routing") = some (routing, released) ∧
      out = rewritten (rewritten frontend_map "protocols" protocols) "routing" routing ∧
      requests = asked ++ released := by
  unfold Translate at hrun
  cases h1 : TranslateProtocols sprint gv pf order (index frontend_map "protocols")
      (index old_frontend_map "protocols") "default" with
  | none => simp [h1] at hrun
  | some res1 =>
    obtain ⟨protocols, asked⟩ := res1
    simp only [h1] at hrun
    cases h2 : TranslateRouting sprint gv pf order (index frontend_map "routing")
        (index old_frontend_map "routing") with
    | none => simp [h2] at hrun
    | some res2 =>
      obtain ⟨routing, released⟩ := res2
      simp only [h2, Option.some.injEq, Prod.mk.injEq] at hrun
      exact ⟨protocols, asked, routing, released, rfl, rfl, hrun.1.symm, hrun.2.symm⟩

/-! ## Claims on `Translate` -/

/-- Claim C16. Let the previous tree hold, in its routing-instance collection, an entry
with an instance name that no entry of the current tree's collection has, the names of
the previous collection being pairwise distinct as `MapByKey` renders them.  When
`Translate` returns, the commands it ran include, for every table of the `table`
collection of that entry's `protocols`, `static`, the release of the table under the
instance name of the entry. -/
theorem C16_removed_instance_released (sprint : Value → String)
    (gv : String → String → Option String) (pf : String → Option Int)
    (order : GoMap Nat → GoMap Nat) (horder : ∀ m, (order m).Perm m)
    (frontend_map old_frontend_map out : Fields) (requests : List Request)
    (routing_map old_routing_map : Fields) (curs olds : List Fields)
    (e protos static : Fields) (tbls : List Fields) (t : Fields)
    (hcur : mapOrMake (index frontend_map "routing") = some routing_map)
    (hcurs : tableSlice routing_map "routing-instance" = some (curs.map obj))
    (hold : index old_frontend_map "routing" = obj old_routing_map)
    (holds : index old_routing_map "routing-instance" = arr (olds.map obj))
    (hnames : (olds.map (fun o => sprint (index o "instance-name"))).Nodup)
    (he : e ∈ olds)
    (habsent : ∀ c ∈ curs, sprint (index c "instance-name") ≠ sprint (index e "instance-name"))
    (hprotos : index e "protocols" = obj protos)
    (hstatic : index protos "static" = obj static)
    (htable : index static "table" = arr (tbls.map obj))
    (ht : t ∈ tbls)
    (hrun : Translate sprint gv pf order frontend_map old_frontend_map = some (out, requests)) :
    Request.delTable (sprint (index e "instance-name")) (sprint (index t "tagnode")) ∈
      requests := by
  obtain ⟨protocols, asked, routing, released, _, hrouting, _, hreq⟩ :=
    Translate_run sprint gv pf order frontend_map old_frontend_map out requests hrun
  have hnn0 : (isNil (index frontend_map "routing") &&
      isNil (index old_frontend_map "routing")) = false := by
    simp [hold, isNil]
  have hnn : (isNil (index routing_map "routing-instance") &&
      isNil (index old_routing_map "routing-instance")) = false := by
    simp [holds, isNil]
  obtain ⟨ri_arr, old_ri_arr, ri_map, old_ri_map, translated, reqs1, h1, h2, h3, h4, _, h6,
    _⟩ := TranslateRouting_run sprint gv pf order _ _ routing_map old_routing_map routing
      released hnn0 hcur (by simp [hold, mapOrMake]) hnn hrouting
  rw [hcurs, Option.some.injEq] at h1
  subst h1
  rw [tableSlice_arr _ _ _ holds, Option.some.injEq] at h2
  subst h2
  -- the name is not bound in the current map
  obtain ⟨cs, hcs, _, _, _, hcurkeys⟩ := MapByKey_spec sprint "instance-name" _ ri_map h3
  have hcs' : cs = curs := (map_obj_injective _ _ hcs).symm
  subst hcs'
  have hnone : lookup ri_map (sprint (index e "instance-name")) = none := by
    by_contra hne
    obtain ⟨c, hc, hk⟩ := (hcurkeys _).1 hne
    exact habsent c hc hk
  -- the name is bound in the previous map, to the position of the entry
  obtain ⟨os, hos, _, _, holdmem, holdkeys⟩ :=
    MapByKey_spec sprint "instance-name" _ old_ri_map h4
  have hos' : os = olds := (map_obj_injective _ _ hos).symm
  subst hos'
  have hbound : lookup old_ri_map (sprint (index e "instance-name")) ≠ none :=
    (holdkeys _).2 ⟨e, he, rfl⟩
  obtain ⟨p, hp, hpk⟩ := List.mem_map.1 ((lookup_ne_none_iff _ _).1 hbound)
  obtain ⟨k, j⟩ := p
  simp only at hpk
  subst hpk
  obtain ⟨e2, he2, hk2⟩ := holdmem _ j hp
  have hsame : e2 = e :=
    List.inj_on_of_nodup_map hnames (List.getElem?_mem he2) he hk2
  subst hsame
  obtain ⟨v, asked2, htp, hsub⟩ := (routingOldLoop_mem sprint gv pf order ri_map _ _ _ _
    h6).2 _ j e2 ((horder old_ri_map).mem_iff.2 hp) hnone (by
      simp [List.getElem?_map, he2])
  obtain ⟨old_tbl_map, hmap, hremoved⟩ := TranslateProtocols_removed sprint gv pf order horder
    protos static tbls (sprint (index e2 "instance-name")) hstatic htable
  rw [hprotos, hremoved, Option.some.injEq, Prod.mk.injEq] at htp
  rw [hreq]
  apply List.mem_append_right
  apply hsub
  rw [← htp.2, mem_releaseLoop]
  obtain ⟨ts, hts, _, _, _, htkeys⟩ := MapByKey_spec sprint "tagnode" _ old_tbl_map hmap
  have hts' : ts = tbls := (map_obj_injective _ _ hts).symm
  subst hts'
  have htb : lookup old_tbl_map (sprint (index t "tagnode")) ≠ none :=
    (htkeys _).2 ⟨t, ht, rfl⟩
  obtain ⟨q, hq, hqk⟩ := List.mem_map.1 ((lookup_ne_none_iff _ _).1 htb)
  exact ⟨q, (horder old_tbl_map).mem_iff.2 hq, rfl, by rw [hqk]⟩

/-- Witness of C16: the previous tree has the instance `red` with the tables `1` and
`3`, the current tree has the instance `blue` only. -/
theorem C16_removed_instance_released_witness :
    Translate sprintSmall exGetvrftable exParseFloat id exTreeBlue exTreeRed =
      some (exTreeBlue, [Request.delTable "red" "1", Request.delTable "red" "3"]) ∧
    Request.delTable
        (sprintSmall (index ([("instance-name", str "red"),
          ("protocols", obj [("static", obj [("table",
            arr [obj [("tagnode", num 1)], obj [("tagnode", num 3)]])])])] : Fields)
          "instance-name"))
        (sprintSmall (index ([("tagnode", num 3)] : Fields) "tagnode")) ∈
      [Request.delTable "red" "1", Request.delTable "red" "3"] :=
  ⟨by decide,
    C16_removed_instance_released sprintSmall exGetvrftable exParseFloat id
      (fun m => List.Perm.refl m) exTreeBlue exTreeRed exTreeBlue
      [Request.delTable "red" "1", Request.delTable "red" "3"]
      [("routing-instance", arr [obj [("instance-name", str "blue")]])]
      [("routing-instance", arr [obj [("instance-name", str "red"),
        ("protocols", obj [("static", obj [("table",
          arr [obj [("tagnode", num 1)], obj [("tagnode", num 3)]])])])]])]
      [[("instance-name", str "blue")]]
      [[("instance-name", str "red"),
        ("protocols", obj [("static", obj [("table",
          arr [obj [("tagnode", num 1)], obj [("tagnode", num 3)]])])])]]
      [("instance-name", str "red"),
        ("protocols", obj [("static", obj [("table",
          arr [obj [("tagnode", num 1)], obj [("tagnode", num 3)]])])])]
      [("static", obj [("table", arr [obj [("tagnode", num 1)], obj [("tagnode", num 3)]])])]
      [("table", arr [obj [("tagnode", num 1)], obj [("tagnode", num 3)]])]
      [[("tagnode", num 1)], [("tagnode", num 3)]] [("tagnode", num 3)]
      (by decide) (by decide) (by decide) (by decide) (by decide) (by decide) (by decide)
      (by decide) (by decide) (by decide) (by decide) (by decide)⟩

/-! ## Two runs of `Translate` with allocators that differ for one routing instance -/

theorem index_rewritten_ne (m : Fields) (k k' : String) (v : Value) (h : k' ≠ k) :
    index (rewritten m k v) k' = index m k' := by
  unfold rewritten
  split
  · simp only [index, lookup_store_ne _ _ _ _ h]
  · rfl

theorem index_rewritten_self (m m0 : Fields) (k : String) (v : Value)
    (h : index m k = obj m0) : index (rewritten m k v) k = v := by
  simp [rewritten, h, index_store_self]

theorem filter_ri_eq_nil (ri0 : String) (asked : List Request)
    (h : ∀ r ∈ asked, r.ri = ri0) : asked.filter (fun r => decide (r.ri ≠ ri0)) = [] := by
  apply List.filter_eq_nil_iff.2
  intro r hr
  simp [h r hr]

theorem routingLoop_cons_some (sprint : Value → String) (gv : String → String → Option String)
    (pf : String → Option Int) (order : GoMap Nat → GoMap Nat) (old_ri_arr : List Value)
    (old_ri_map : GoMap Nat) (key : String) (i : Nat) (todo : List (String × Nat))
    (ri_arr : List Value) (requests : List Request) (res : List Value × List Request)
    (h : routingLoop sprint gv pf order old_ri_arr old_ri_map ((key, i) :: todo) ri_arr
      requests = some res) :
    ∃ em protocols asked, ri_arr[i]? = some (obj em) ∧
      TranslateProtocols sprint gv pf order (index em "protocols")
        (index (oldEntry old_ri_arr old_ri_map key) "protocols") key =
          some (protocols, asked) ∧
      routingLoop sprint gv pf order old_ri_arr old_ri_map todo
        (ri_arr.set i (obj (rewritten em "protocols" protocols))) (requests ++ asked) =
          some res := by
  rw [routingLoop] at h
  cases hi : ri_arr[i]? with
  | none => simp [hi] at h
  | some v =>
    cases v with
    | obj em =>
      simp only [hi] at h
      cases htp : TranslateProtocols sprint gv pf order (index em "protocols")
          (index (oldEntry old_ri_arr old_ri_map key) "protocols") key with
      | none => simp [htp] at h
      | some r =>
        obtain ⟨protocols, asked⟩ := r
        simp only [htp] at h
        exact ⟨em, protocols, asked, rfl, htp, h⟩
    | _ => simp [hi] at h

/-- Two runs of the first loop of `TranslateRouting`, with allocators that agree for every
routing instance but `ri0`: the entries of the other instances and the commands run for
the other instances are the same. -/
theorem routingLoop_agree (sprint : Value → String) (gv gv' : String → String → Option String)
    (pf : String → Option Int) (order : GoMap Nat → GoMap Nat) (ri0 : String)
    (hagree : ∀ ri, ri ≠ ri0 → ∀ k, gv ri k = gv' ri k)
    (old_ri_arr : List Value) (old_ri_map : GoMap Nat) (orig : List Value)
    (todo : List (String × Nat)) (ri_arr ri_arr' : List Value)
    (requests requests' : List Request) (res res' : List Value × List Request)
    (hkeys : ∀ p ∈ todo, ∃ e, orig[p.2]? = some (obj e) ∧
      sprint (index e "instance-name") = p.1)
    (hinv : ∀ (j : Nat) (e : Fields), orig[j]? = some (obj e) →
      sprint (index e "instance-name") ≠ ri0 → ri_arr[j]? = ri_arr'[j]?)
    (hreqs : requests.filter (fun r => decide (r.ri ≠ ri0)) =
      requests'.filter (fun r => decide (r.ri ≠ ri0)))
    (h : routingLoop sprint gv pf order old_ri_arr old_ri_map todo ri_arr requests = some res)
    (h' : routingLoop sprint gv' pf order old_ri_arr old_ri_map todo ri_arr' requests' =
      some res') :
    (∀ (j : Nat) (e : Fields), orig[j]? = some (obj e) →
      sprint (index e "instance-name") ≠ ri0 → res.1[j]? = res'.1[j]?) ∧
    res.2.filter (fun r => decide (r.ri ≠ ri0)) =
      res'.2.filter (fun r => decide (r.ri ≠ ri0)) ∧
    res.1.length = ri_arr.length ∧ res'.1.length = ri_arr'.length := by
  induction todo generalizing ri_arr ri_arr' requests requests' with
  | nil =>
    simp only [routingLoop, Option.some.injEq] at h h'
    subst h
    subst h'
    exact ⟨hinv, hreqs, rfl, rfl⟩
  | cons p todo ih =>
    obtain ⟨key, i⟩ := p
    obtain ⟨em, prot, asked, hi, htp, hrest⟩ := routingLoop_cons_some sprint gv pf order
      old_ri_arr old_ri_map key i todo ri_arr requests res h
    obtain ⟨em', prot', asked', hi', htp', hrest'⟩ := routingLoop_cons_some sprint gv' pf
      order old_ri_arr old_ri_map key i todo ri_arr' requests' res' h'
    obtain ⟨e, he, hname⟩ := hkeys (key, i) (List.mem_cons_self _ _)
    simp only at he hname
    have hlt : i < ri_arr.length := (List.getElem?_eq_some_iff.1 hi).1
    have hlt' : i < ri_arr'.length := (List.getElem?_eq_some_iff.1 hi').1
    have hkeys' : ∀ p ∈ todo, ∃ e, orig[p.2]? = some (obj e) ∧
        sprint (index e "instance-name") = p.1 :=
      fun p hp => hkeys p (List.mem_cons_of_mem _ hp)
    by_cases hk : key = ri0
    · subst hk
      have hnil := filter_ri_eq_nil key asked (TranslateProtocols_ri sprint gv pf order _ _ _
        _ _ htp)
      have hnil' := filter_ri_eq_nil key asked' (TranslateProtocols_ri sprint gv' pf order
        _ _ _ _ _ htp')
      obtain ⟨h1, h2, h3, h4⟩ := ih _ _ _ _ hkeys' (by
        intro j e2 hj hne
        have hji : i ≠ j := by
          intro hij
          subst hij
          rw [he, Option.some.injEq, obj.injEq] at hj
          subst hj
          exact hne hname
        rw [List.getElem?_set_ne hji, List.getElem?_set_ne hji]
        exact hinv j e2 hj hne) (by
        rw [List.filter_append, List.filter_append, hnil, hnil', hreqs]) hrest hrest'
      exact ⟨h1, h2, by simpa using h3, by simpa using h4⟩
    · have hsame : ri_arr[i]? = ri_arr'[i]? := hinv i e he (by rw [hname]; exact hk)
      rw [hi, hi', Option.some.injEq, obj.injEq] at hsame
      subst hsame
      rw [TranslateProtocols_congr sprint gv gv' pf order _ _ key (hagree key hk), htp',
        Option.some.injEq, Prod.mk.injEq] at htp
      obtain ⟨rfl, rfl⟩ := htp
      obtain ⟨h1, h2, h3, h4⟩ := ih _ _ _ _ hkeys' (by
        intro j e2 hj hne
        by_cases hji : i = j
        · subst hji
          rw [List.getElem?_set_self hlt, List.getElem?_set_self hlt']
        · rw [List.getElem?_set_ne hji, List.getElem?_set_ne hji]
          exact hinv j e2 hj hne) (by
        rw [List.filter_append, List.filter_append, hreqs]) hrest hrest'
      exact ⟨h1, h2, by simpa using h3, by simpa using h4⟩

/-- Two runs of the second loop of `TranslateRouting`, with allocators that agree for
every routing instance but `ri0`: the commands run for the other instances are the
same. -/
theorem routingOldLoop_agree (sprint : Value → String)
    (gv gv' : String → String → Option String) (pf : String → Option Int)
    (order : GoMap Nat → GoMap Nat) (ri0 : String)
    (hagree : ∀ ri, ri ≠ ri0 → ∀ k, gv ri k = gv' ri k)
    (ri_map : GoMap Nat) (old_ri_arr : List Value) (todo : List (String × Nat))
    (requests requests' all all' : List Request)
    (hreqs : requests.filter (fun r => decide (r.ri ≠ ri0)) =
      requests'.filter (fun r => decide (r.ri ≠ ri0)))
    (h : routingOldLoop sprint gv pf order ri_map old_ri_arr todo requests = some all)
    (h' : routingOldLoop sprint gv' pf order ri_map old_ri_arr todo requests' = some all') :
    all.filter (fun r => decide (r.ri ≠ ri0)) = all'.filter (fun r => decide (r.ri ≠ ri0)) := by
  induction todo generalizing requests requests' with
  | nil =>
    simp only [routingOldLoop, Option.some.injEq] at h h'
    subst h
    subst h'
    exact hreqs
  | cons p todo ih =>
    obtain ⟨key, j⟩ := p
    rw [routingOldLoop] at h h'
    by_cases hb : (lookup ri_map key).isNone = true
    · simp only [hb, if_true] at h h'
      cases hj : old_ri_arr[j]? with
      | none => simp [hj] at h
      | some v =>
        cases v with
        | obj oe =>
          simp only [hj] at h h'
          cases htp : TranslateProtocols sprint gv pf order null (index oe "protocols")
              key with
          | none => simp [htp] at h
          | some r =>
            cases htp' : TranslateProtocols sprint gv' pf order null (index oe "protocols")
                key with
            | none => simp [htp'] at h'
            | some r' =>
              obtain ⟨v1, asked⟩ := r
              obtain ⟨v1', asked'⟩ := r'
              simp only [htp] at h
              simp only [htp'] at h'
              refine ih _ _ ?_ h h'
              rw [List.filter_append, List.filter_append, hreqs]
              by_cases hk : key = ri0
              · subst hk
                rw [filter_ri_eq_nil key asked (TranslateProtocols_ri sprint gv pf order _ _
                    _ _ _ htp),
                  filter_ri_eq_nil key asked' (TranslateProtocols_ri sprint gv' pf order _ _
                    _ _ _ htp')]
              · rw [TranslateProtocols_congr sprint gv gv' pf order _ _ key (hagree key hk),
                  htp', Option.some.injEq, Prod.mk.injEq] at htp
                rw [htp.2]
        | _ => simp [hj] at h
    · simp only [hb, if_false] at h h'
      exact ih _ _ hreqs h h'

/-- Two runs of `TranslateRouting`, with allocators that agree for every routing instance
but `ri0`. -/
theorem TranslateRouting_agree (sprint : Value → String)
    (gv gv' : String → String → Option String) (pf : String → Option Int)
    (order : GoMap Nat → GoMap Nat) (horder : ∀ m, (order m).Perm m) (ri0 : String)
    (hagree : ∀ ri, ri ≠ ri0 → ∀ k, gv ri k = gv' ri k)
    (routing_if old_routing_if out out' : Value) (all all' : List Request)
    (h : TranslateRouting sprint gv pf order routing_if old_routing_if = some (out, all))
    (h' : TranslateRouting sprint gv' pf order routing_if old_routing_if = some (out', all')) :
    all.filter (fun r => decide (r.ri ≠ ri0)) = all'.filter (fun r => decide (r.ri ≠ ri0)) ∧
    ∀ routing_map ris, routing_if = obj routing_map →
      index routing_map "routing-instance" = arr ris →
      ∃ ris1 ris1' : List Value,
        out = obj (store routing_map "routing-instance" (arr ris1)) ∧
        out' = obj (store routing_map "routing-instance" (arr ris1')) ∧
        ris1.length = ris.length ∧ ris1'.length = ris.length ∧
        ∀ (j : Nat) (e : Fields), ris[j]? = some (obj e) →
          sprint (index e "instance-name") ≠ ri0 → ris1[j]? = ris1'[j]? := by
  cases hnn0 : (isNil routing_if && isNil old_routing_if) with
  | true =>
    simp only [TranslateRouting, hnn0, if_true, Option.some.injEq, Prod.mk.injEq] at h h'
    refine ⟨by rw [← h.2, ← h'.2], ?_⟩
    intro routing_map ris hr _
    simp [hr, isNil] at hnn0
  | false =>
    cases hold : mapOrMake old_routing_if with
    | none => simp [TranslateRouting, hnn0, hold] at h
    | some old_routing_map =>
      cases hcur : mapOrMake routing_if with
      | none => simp [TranslateRouting, hnn0, hold, hcur] at h
      | some routing_map =>
        cases hnn : (isNil (index routing_map "routing-instance") &&
            isNil (index old_routing_map "routing-instance")) with
        | true =>
          simp only [TranslateRouting, hnn0, hold, hcur, hnn, if_true, Bool.false_eq_true,
            if_false, Option.some.injEq, Prod.mk.injEq] at h h'
          refine ⟨by rw [← h.2, ← h'.2], ?_⟩
          intro rm ris hr hris
          rw [hr] at hcur
          simp only [mapOrMake, Option.some.injEq] at hcur
          subst hcur
          simp [hris, isNil] at hnn
        | false =>
          obtain ⟨ri_arr, old_ri_arr, ri_map, old_ri_map, translated, requests, h1, h2, h3,
            h4, h5, h6, hout⟩ := TranslateRouting_run sprint gv pf order routing_if
              old_routing_if routing_map old_routing_map out all hnn0 hcur hold hnn h
          obtain ⟨ri_arr', old_ri_arr', ri_map', old_ri_map', translated', requests', h1',
            h2', h3', h4', h5', h6', hout'⟩ := TranslateRouting_run sprint gv' pf order
              routing_if old_routing_if routing_map old_routing_map out' all' hnn0 hcur hold
              hnn h'
          rw [h1, Option.some.injEq] at h1'
          subst h1'
          rw [h2, Option.some.injEq] at h2'
          subst h2'
          rw [h3, Option.some.injEq] at h3'
          subst h3'
          rw [h4, Option.some.injEq] at h4'
          subst h4'
          obtain ⟨es, hes, _, _, hmem, _⟩ := MapByKey_spec sprint "instance-name" _ ri_map h3
          obtain ⟨hpos, hfilter, hlen, hlen'⟩ := routingLoop_agree sprint gv gv' pf order ri0
            hagree old_ri_arr old_ri_map ri_arr (order ri_map) ri_arr ri_arr [] []
            (translated, requests) (translated', requests') (by
              intro p hp
              obtain ⟨e, he, hk⟩ := hmem p.1 p.2 ((horder ri_map).mem_iff.1 hp)
              exact ⟨e, by rw [hes]; simp [List.getElem?_map, he], hk⟩)
            (fun _ _ _ _ => rfl) rfl h5 h5'
          refine ⟨routingOldLoop_agree sprint gv gv' pf order ri0 hagree ri_map old_ri_arr
            (order old_ri_map) requests requests' all all' hfilter h6 h6', ?_⟩
          intro rm ris hr hris
          rw [hr] at hcur
          simp only [mapOrMake, Option.some.injEq] at hcur
          subst hcur
          rw [tableSlice_arr _ _ _ hris, Option.some.injEq] at h1
          subst h1
          refine ⟨translated, translated', ?_, ?_, hlen, hlen', hpos⟩
          · rw [hout, hr]
            simp [routingAfter, tablesParent, hris]
          · rw [hout', hr]
            simp [routingAfter, tablesParent, hris]

/-! ## Further claims on next-hops -/

/-- Claim C22. Let `TranslateNexthops` run on a list of next-hops `nhs`.  The list
afterwards holds, in their order, the next-hops without a `disable` field, each as
`renameInterfaceName` leaves it.  For such a next-hop whose `interface-name` is not `nil`:
afterwards `tagnode` holds what `interface-name` held, there is no `interface-name` field
and every other field is as it was.  A next-hop whose `interface-name` reads as `nil`, as
when it has no such field, is left as it was. -/
theorem C22_interface_name_becomes_tagnode (pmap : Fields) (key : String) (nhs : List Fields)
    (hp : index pmap key = arr (nhs.map obj)) :
    ∃ out : Fields,
      TranslateNexthops pmap key = some out ∧
      sliceOrNil (index out key) =
        (nhs.filter (fun nh => !IsNexthopDisabled nh)).map
          (fun nh => obj (renameInterfaceName nh)) ∧
      ∀ nh ∈ nhs, IsNexthopDisabled nh = false →
        (isNil (index nh "interface-name") = false →
          lookup (renameInterfaceName nh) "tagnode" = some (index nh "interface-name") ∧
          lookup (renameInterfaceName nh) "interface-name" = none ∧
          ∀ k, k ≠ "tagnode" → k ≠ "interface-name" →
            lookup (renameInterfaceName nh) k = lookup nh k) ∧
        (lookup nh "interface-name" = none → renameInterfaceName nh = nh) := by
  refine ⟨_, TranslateNexthops_arr pmap key nhs hp, sliceOrNil_updateParent _ _ _ _, ?_⟩
  intro nh _ _
  constructor
  · intro hnn
    simp only [renameInterfaceName, hnn, Bool.false_eq_true, if_false]
    refine ⟨?_, lookup_delete_self _ _, ?_⟩
    · rw [lookup_delete_ne _ _ _ (by decide), lookup_store_self]
    · intro k hk1 hk2
      rw [lookup_delete_ne _ _ _ hk2, lookup_store_ne _ _ _ _ hk1]
  · intro hnone
    simp [renameInterfaceName, index, hnone, isNil]

/-- Witness of C22 on two next-hops, one named by `interface-name` and one without that
field. -/
theorem C22_interface_name_becomes_tagnode_witness :
    ∃ out : Fields,
      TranslateNexthops
          [("next-hop", arr [obj [("interface-name", str "dp0s3"), ("distance", num 2)],
            obj [("tagnode", str "10.0.0.1")]])] "next-hop" = some out ∧
      sliceOrNil (index out "next-hop") =
        [obj [("distance", num 2), ("tagnode", str "dp0s3")],
          obj [("tagnode", str "10.0.0.1")]] :=
  let h := C22_interface_name_becomes_tagnode
    [("next-hop", arr [obj [("interface-name", str "dp0s3"), ("distance", num 2)],
      obj [("tagnode", str "10.0.0.1")]])] "next-hop"
    [[("interface-name", str "dp0s3"), ("distance", num 2)], [("tagnode", str "10.0.0.1")]]
    (by decide)
  ⟨h.choose, h.choose_spec.1, h.choose_spec.2.1.trans (by decide)⟩

/-! ## Further claims on the daemon -/

/-- Claim C25. Each of `Start`, `Stop`, `Restart`, `Enable` and `Disable` returns what the
service manager returns for its one request, of its own kind and for the unit of the
daemon; no stop is pending afterwards, the rest of the daemon being as it was; and what
it does to the outside is to stop the timer that was pending, when there was one, and
then to make that one request. -/
theorem C25_control_methods (mgr : ManagerAction → String → Option String)
    (pd : ProtocolsDaemon) :
    pd.Start mgr = (mgr ManagerAction.start pd.unit, { pd with stopTimer := none },
      (pd.stopTimer.map Effect.timerStop).toList ++
        [Effect.request ManagerAction.start pd.unit]) ∧
    pd.Stop mgr = (mgr ManagerAction.stop pd.unit, { pd with stopTimer := none },
      (pd.stopTimer.map Effect.timerStop).toList ++
        [Effect.request ManagerAction.stop pd.unit]) ∧
    pd.Restart mgr = (mgr ManagerAction.restart pd.unit, { pd with stopTimer := none },
      (pd.stopTimer.map Effect.timerStop).toList ++
        [Effect.request ManagerAction.restart pd.unit]) ∧
    pd.Enable mgr = (mgr ManagerAction.enable pd.unit, { pd with stopTimer := none },
      (pd.stopTimer.map Effect.timerStop).toList ++
        [Effect.request ManagerAction.enable pd.unit]) ∧
    pd.Disable mgr = (mgr ManagerAction.disable pd.unit, { pd with stopTimer := none },
      (pd.stopTimer.map Effect.timerStop).toList ++
        [Effect.request ManagerAction.disable pd.unit]) := by
  cases pd with
  | mk unit stopTimer d t =>
    cases stopTimer <;>
      simp [ProtocolsDaemon.Start, ProtocolsDaemon.Stop, ProtocolsDaemon.Restart,
        ProtocolsDaemon.Enable, ProtocolsDaemon.Disable, ProtocolsDaemon.control,
        ProtocolsDaemon.CancelStopAndDisable]

/-- Witness of C25: `Enable` on a daemon with a stop scheduled at time 5. -/
theorem C25_control_methods_witness :
    exPending.Enable exMgr = (none, { exPending with stopTimer := none },
      [Effect.timerStop { d := 10 * Second }, Effect.request ManagerAction.enable "pimd"]) :=
  (C25_control_methods exMgr exPending).2.2.2.1

/-- Claim C26. Take a daemon made by `NewProtocolsDaemon` after any sequence of calls.
After `ScheduleStopAndDisable` runs at the time `t`, a stop is pending, with a timer of 10
seconds, and the recorded start is `t`; the rest of the daemon is as it was.  What the
call does to the outside is to stop the timer that was pending, when there was one, and
then to arm the new timer: it makes no request to the service manager. -/
theorem C26_schedule (mgr : ManagerAction → String → Option String) (unit : String)
    (calls : List Call) (t : Nat) :
    (after mgr (NewProtocolsDaemon unit) calls).ScheduleStopAndDisable t =
      ({ after mgr (NewProtocolsDaemon unit) calls with
          stopTimerStartedAt := t, stopTimer := some { d := 10 * Second } },
        ((after mgr (NewProtocolsDaemon unit) calls).stopTimer.map Effect.timerStop).toList ++
          [Effect.afterFunc { d := 10 * Second }]) ∧
    ((after mgr (NewProtocolsDaemon unit) calls).ScheduleStopAndDisable t).1.stopTimerDuration =
      10 * Second ∧
    ∀ action name, Effect.request action name ∉
      ((after mgr (NewProtocolsDaemon unit) calls).ScheduleStopAndDisable t).2 := by
  have hd : (after mgr (NewProtocolsDaemon unit) calls).stopTimerDuration = 10 * Second := by
    rw [stopTimerDuration_after]
    rfl
  generalize after mgr (NewProtocolsDaemon unit) calls = pd at hd ⊢
  cases pd with
  | mk u stopTimer d s =>
    simp only at hd
    subst hd
    cases stopTimer <;>
      simp [ProtocolsDaemon.ScheduleStopAndDisable, ProtocolsDaemon.CancelStopAndDisable]

/-- Witness of C26: a stop scheduled at time 5 is scheduled again at time 7. -/
theorem C26_schedule_witness :
    (after exMgr (NewProtocolsDaemon "pimd")
        [Call.ScheduleStopAndDisable 5]).ScheduleStopAndDisable 7 =
      ({ unit := "pimd", stopTimer := some { d := 10 * Second },
          stopTimerDuration := 10 * Second, stopTimerStartedAt := 7 },
        [Effect.timerStop { d := 10 * Second }, Effect.afterFunc { d := 10 * Second }]) :=
  (C26_schedule exMgr "pimd" [Call.ScheduleStopAndDisable 5] 7).1.trans (by decide)

/-! ## Further claims on `Translate` -/

/-- Claim C27. When neither tree has a `protocols` key or a `routing` key, `Translate`
returns the current tree as it is and runs no command. -/
theorem C27_nothing_to_translate (sprint : Value → String)
    (gv : String → String → Option String) (pf : String → Option Int)
    (order : GoMap Nat → GoMap Nat) (frontend_map old_frontend_map : Fields)
    (hp : lookup frontend_map "protocols" = none) (hr : lookup frontend_map "routing" = none)
    (hop : lookup old_frontend_map "protocols" = none)
    (hor : lookup old_frontend_map "routing" = none) :
    Translate sprint gv pf order frontend_map old_frontend_map = some (frontend_map, []) := by
  simp [Translate, TranslateProtocols, TranslateRouting, index, hp, hr, hop, hor, isNil,
    rewritten]

/-- Witness of C27 on two trees that hold interfaces only. -/
theorem C27_nothing_to_translate_witness :
    Translate sprintSmall exGetvrftable exParseFloat id [("interfaces", arr [obj exVif100])]
        [("interfaces", arr [])] =
      some ([("interfaces", arr [obj exVif100])], []) :=
  C27_nothing_to_translate sprintSmall exGetvrftable exParseFloat id
    [("interfaces", arr [obj exVif100])] [("interfaces", arr [])]
    (by decide) (by decide) (by decide) (by decide)

/-! ## The keys of the tree that `ConvertInterfaceConfig` returns -/

/-- Claim C28. The tree that `ConvertInterfaceConfig` returns reads, under every key but
`interfaces`, what the input reads there; and it has the keys of the input, no more and
no fewer, in the same number. -/
theorem C28_other_keys_untouched (sprint : Value → String) (cfg_map out : Fields)
    (h : ConvertInterfaceConfig sprint cfg_map = some out) :
    (∀ k, k ≠ INTERFACES_KEY → lookup out k = lookup cfg_map k) ∧
    (∀ k, lookup out k ≠ none ↔ lookup cfg_map k ≠ none) ∧
    len out = len cfg_map := by
  unfold ConvertInterfaceConfig at h
  cases hv : index cfg_map INTERFACES_KEY with
  | null =>
    simp only [hv, Option.some.injEq] at h
    subst h
    exact ⟨fun _ _ => rfl, fun _ => Iff.rfl, rfl⟩
  | obj types =>
    simp only [hv] at h
    cases hc : convertTypes sprint types with
    | none => simp [hc] at h
    | some l =>
      simp only [hc, Option.some.injEq] at h
      subst h
      have hl : lookup cfg_map INTERFACES_KEY ≠ none := by
        intro hnone
        simp [index, hnone] at hv
      have hfst : (store cfg_map INTERFACES_KEY (sliceValue l)).map Prod.fst =
          cfg_map.map Prod.fst := map_fst_store_of_lookup _ _ _ hl
      refine ⟨fun k hk => lookup_store_ne _ _ _ _ hk, ?_, ?_⟩
      · intro k
        rw [lookup_ne_none_iff, lookup_ne_none_iff, hfst]
      · simp [len, keys, hfst]
  | bool b => simp [hv] at h
  | num n => simp [hv] at h
  | str s => simp [hv] at h
  | nilSlice => simp [hv] at h
  | arr xs => simp [hv] at h

/-- Witness of C28 on the input of `TestConvertInterfaceConfigParentAndVifs` with its
`protocols` block. -/
theorem C28_other_keys_untouched_witness :
    ConvertInterfaceConfig sprintSmall
        [("interfaces", obj [("dataplane", arr [obj exParent])]), ("protocols", exProtocols)] =
      some [("interfaces", arr [
          obj [("tagnode", str "dp0s4.100"), ("ip", exTtl 78), ("ipv6", exTtl 90)],
          obj [("tagnode", str "dp0s4.200"), ("ip", exTtl 77), ("ipv6", exTtl 82)],
          obj [("ip", exTtl 100), ("ipv6", exTtl 110), ("tagnode", str "dp0s4")]]),
        ("protocols", exProtocols)] ∧
    lookup ([("interfaces", arr [
          obj [("tagnode", str "dp0s4.100"), ("ip", exTtl 78), ("ipv6", exTtl 90)],
          obj [("tagnode", str "dp0s4.200"), ("ip", exTtl 77), ("ipv6", exTtl 82)],
          obj [("ip", exTtl 100), ("ipv6", exTtl 110), ("tagnode", str "dp0s4")]]),
        ("protocols", exProtocols)] : Fields) "protocols" =
      lookup ([("interfaces", obj [("dataplane", arr [obj exParent])]),
        ("protocols", exProtocols)] : Fields) "protocols" :=
  ⟨by decide,
    (C28_other_keys_untouched sprintSmall
      [("interfaces", obj [("dataplane", arr [obj exParent])]), ("protocols", exProtocols)]
      [("interfaces", arr [
          obj [("tagnode", str "dp0s4.100"), ("ip", exTtl 78), ("ipv6", exTtl 90)],
          obj [("tagnode", str "dp0s4.200"), ("ip", exTtl 77), ("ipv6", exTtl 82)],
          obj [("ip", exTtl 100), ("ipv6", exTtl 110), ("tagnode", str "dp0s4")]]),
        ("protocols", exProtocols)] (by decide)).1 "protocols" (by decide)⟩

/-! ## The default test of a meaningful configuration -/

theorem dropWhile_replicate_append (c x : Nat) (a : Nat) (l : Bytes) (hx : x ≠ c) :
    (List.replicate a c ++ x :: l).dropWhile (fun b => b == c) = x :: l := by
  induction a with
  | zero =>
    have : (x == c) = false := by simpa using hx
    simp [List.dropWhile, this]
  | succ a ih => simpa [List.replicate_succ, List.dropWhile] using ih

theorem exists_replicate_append_dropWhile (c : Nat) (l : Bytes) :
    ∃ a, l = List.replicate a c ++ l.dropWhile (fun b => b == c) := by
  refine ⟨(l.takeWhile (fun b => b == c)).length, ?_⟩
  have h1 : l.takeWhile (fun b => b == c) =
      List.replicate (l.takeWhile (fun b => b == c)).length c := by
    rw [List.eq_replicate_iff]
    refine ⟨rfl, ?_⟩
    intro b hb
    simpa using List.mem_takeWhile_imp hb
  rw [← h1, List.takeWhile_append_dropWhile]

/-- The byte lists that `Trim` takes to the two bytes `x`, `y`, neither being `c`. -/
theorem Trim_eq_pair_iff (cfg : Bytes) (c x y : Nat) (hx : x ≠ c) (hy : y ≠ c) :
    Trim cfg c = [x, y] ↔
      ∃ a b, cfg = List.replicate a c ++ [x, y] ++ List.replicate b c := by
  constructor
  · intro h
    obtain ⟨a, ha⟩ := exists_replicate_append_dropWhile c cfg
    obtain ⟨b, hb⟩ := exists_replicate_append_dropWhile c
      (cfg.dropWhile (fun b => b == c)).reverse
    have h2 : ((cfg.dropWhile (fun b => b == c)).reverse.dropWhile (fun b => b == c)) =
        [y, x] := by
      have := congrArg List.reverse h
      simpa [Trim] using this
    rw [h2] at hb
    have h3 : cfg.dropWhile (fun b => b == c) = [x, y] ++ List.replicate b c := by
      have := congrArg List.reverse hb
      simpa using this
    refine ⟨a, b, ?_⟩
    rw [List.append_assoc, ← h3]
    exact ha
  · rintro ⟨a, b, rfl⟩
    have h1 : (List.replicate a c ++ [x, y] ++ List.replicate b c).dropWhile
        (fun b => b == c) = x :: y :: List.replicate b c := by
      have := dropWhile_replicate_append c x a (y :: List.replicate b c) hx
      simpa using this
    have h2 : (x :: y :: List.replicate b c).reverse = List.replicate b c ++ y :: [x] := by
      simp
    unfold Trim
    rw [h1, h2, dropWhile_replicate_append c y b [x] hy]
    rfl

/-- Claim C30. `defaultPmcMeanFunc` returns `false` exactly when the bytes of the
configuration are newlines, any number of them, then the two bytes of `{}`, then
newlines, any number of them, which is when `bytes.Trim` with the newline as cutset
leaves `{}`; it returns `true` for every other configuration. -/
theorem C30_default_meaningful (cfg : Bytes) :
    (defaultPmcMeanFunc cfg = false ↔ Trim cfg 10 = EmptyConfig) ∧
    (defaultPmcMeanFunc cfg = false ↔
      ∃ a b, cfg = List.replicate a 10 ++ [123, 125] ++ List.replicate b 10) ∧
    (defaultPmcMeanFunc cfg = true ↔
      ¬ ∃ a b, cfg = List.replicate a 10 ++ [123, 125] ++ List.replicate b 10) := by
  have h1 : defaultPmcMeanFunc cfg = false ↔ Trim cfg 10 = EmptyConfig := by
    simp [defaultPmcMeanFunc, IsEmptyConfig]
  have h2 := Trim_eq_pair_iff cfg 10 123 125 (by decide) (by decide)
  refine ⟨h1, h1.trans h2, ?_⟩
  rw [← h2]
  have h3 : Trim cfg 10 = [123, 125] ↔ defaultPmcMeanFunc cfg = false := h1.symm
  rw [h3]
  cases defaultPmcMeanFunc cfg <;> simp

/-- Witness of C30: `{}` between newlines is not meaningful, `{"a":1}` is. -/
theorem C30_default_meaningful_witness :
    defaultPmcMeanFunc [10, 123, 125, 10, 10] = false ∧
    defaultPmcMeanFunc [123, 34, 97, 34, 58, 49, 125] = true :=
  ⟨(C30_default_meaningful [10, 123, 125, 10, 10]).2.1.2 ⟨1, 2, by decide⟩, by decide⟩

/-! ## Lemmas on the next-hop routing instances of a route -/

theorem instancesLoop_lists (nkey : String) (l : List Value) (r : List Value × Bool)
    (h : instancesLoop nkey l = some r) :
    ∃ insts insts' : List Fields, l = insts.map obj ∧
      insts.map (fun i => TranslateNexthops i nkey) = insts'.map some := by
  induction l generalizing r with
  | nil => exact ⟨[], [], rfl, rfl⟩
  | cons x xs ih =>
    cases x with
    | obj m =>
      rw [instancesLoop] at h
      cases hx : instancesLoop nkey xs with
      | none => simp [hx] at h
      | some p =>
        obtain ⟨insts, insts', rfl, hmap⟩ := ih p hx
        cases ht : TranslateNexthops m nkey with
        | none =>
          obtain ⟨kept, deleted⟩ := p
          simp [hx, ht] at h
        | some t => exact ⟨m :: insts, t :: insts', rfl, by simp [ht, hmap]⟩
    | _ => simp [instancesLoop] at h

theorem instancesLoop_spec (nkey : String) (insts insts' : List Fields)
    (h : insts.map (fun i => TranslateNexthops i nkey) = insts'.map some) :
    instancesLoop nkey (insts.map obj) =
      some ((insts'.filter (fun i' => !isNil (index i' nkey))).map obj,
        insts'.any (fun i' => isNil (index i' nkey))) := by
  induction insts generalizing insts' with
  | nil =>
    cases insts' with
    | nil => simp [instancesLoop]
    | cons _ _ => simp at h
  | cons i insts ih =>
    cases insts' with
    | nil => simp at h
    | cons i' insts' =>
      simp only [List.map_cons, List.cons.injEq] at h
      simp only [List.map_cons, instancesLoop, ih insts' h.2, h.1]
      cases hn : isNil (index i' nkey) <;> simp [hn, List.filter_cons]

/-- The body of the loop of `TranslateRoutes` on one route, taken apart. -/
theorem translateRoute_unfold (nkey : String) (r r' : Fields)
    (h : translateRoute nkey r = some r') :
    ∃ hops insts, TranslateNexthops r nkey = some hops ∧
      TranslateNexthopInstances (renameInstanceV6 (deleteIfNil hops nkey))
        "next-hop-routing-instance" nkey = some insts ∧
      r' = deleteIfNil insts "next-hop-routing-instance" := by
  unfold translateRoute at h
  cases hh : TranslateNexthops r nkey with
  | none => simp [hh] at h
  | some hops =>
    simp only [hh] at h
    cases hi : TranslateNexthopInstances (renameInstanceV6 (deleteIfNil hops nkey))
        "next-hop-routing-instance" nkey with
    | none => simp [hi] at h
    | some insts =>
      simp only [hi, Option.some.injEq] at h
      exact ⟨hops, insts, rfl, hi, h.symm⟩

/-- What the loop of `TranslateRoutes` hands to `TranslateNexthopInstances`: the value
of `next-hop-routing-instance-v6` when it is not `nil`, else the value of
`next-hop-routing-instance`. -/
theorem index_instances_of_route (nkey : String) (r hops : Fields)
    (hn1 : nkey ≠ "next-hop-routing-instance") (hn2 : nkey ≠ "next-hop-routing-instance-v6")
    (hh : TranslateNexthops r nkey = some hops) :
    index (renameInstanceV6 (deleteIfNil hops nkey)) "next-hop-routing-instance" =
      (if isNil (index r "next-hop-routing-instance-v6") then
        index r "next-hop-routing-instance"
      else index r "next-hop-routing-instance-v6") ∧
    (isNil (index r "next-hop-routing-instance-v6") = false →
      lookup (renameInstanceV6 (deleteIfNil hops nkey)) "next-hop-routing-instance-v6" =
        none) := by
  have hframe : ∀ k, k ≠ nkey → lookup (deleteIfNil hops nkey) k = lookup r k := by
    intro k hk
    rw [lookup_deleteIfNil_ne _ _ _ hk, TranslateNexthops_frame _ _ _ _ hh hk]
  have hv6 : index (deleteIfNil hops nkey) "next-hop-routing-instance-v6" =
      index r "next-hop-routing-instance-v6" := index_congr (hframe _ (Ne.symm hn2))
  have hri : index (deleteIfNil hops nkey) "next-hop-routing-instance" =
      index r "next-hop-routing-instance" := index_congr (hframe _ (Ne.symm hn1))
  unfold renameInstanceV6
  rw [hv6]
  cases hn : isNil (index r "next-hop-routing-instance-v6") with
  | true => simp [hri]
  | false =>
    simp only [Bool.false_eq_true, if_false, forall_true_left]
    refine ⟨?_, lookup_delete_self _ _⟩
    simp only [index]
    rw [lookup_delete_ne _ _ _ (by decide), lookup_store_self]
    rfl

/-- The instances of a route after the loop of `TranslateRoutes`: the instances that
`TranslateNexthops` leaves with next-hops, in their order; the key is gone when there were
instances and none is left. -/
theorem translateRoute_instances (nkey : String) (r r' hops : Fields) (inst_arr : List Value)
    (hh : TranslateNexthops r nkey = some hops)
    (hx : index (renameInstanceV6 (deleteIfNil hops nkey)) "next-hop-routing-instance" =
      arr inst_arr)
    (h : translateRoute nkey r = some r') :
    ∃ insts insts' : List Fields, inst_arr = insts.map obj ∧
      insts.map (fun i => TranslateNexthops i nkey) = insts'.map some ∧
      (insts'.filter (fun i' => !isNil (index i' nkey)) ≠ [] →
        lookup r' "next-hop-routing-instance" =
          some (arr ((insts'.filter (fun i' => !isNil (index i' nkey))).map obj))) ∧
      (insts ≠ [] → insts'.filter (fun i' => !isNil (index i' nkey)) = [] →
        lookup r' "next-hop-routing-instance" = none) ∧
      (insts = [] → lookup r' "next-hop-routing-instance" = some (arr [])) := by
  obtain ⟨hops0, out, hh0, hi, hr'⟩ := translateRoute_unfold nkey r r' h
  rw [hh, Option.some.injEq] at hh0
  subst hh0
  simp only [TranslateNexthopInstances, hx] at hi
  cases hl : instancesLoop nkey inst_arr with
  | none => simp [hl] at hi
  | some p =>
    obtain ⟨insts, insts', rfl, hmap⟩ := instancesLoop_lists nkey inst_arr p hl
    have hl2 := hl
    rw [instancesLoop_spec nkey insts insts' hmap, Option.some.injEq] at hl2
    subst hl2
    simp only [hl, Option.some.injEq] at hi
    subst hi
    subst hr'
    have hlen : insts'.length = insts.length := by
      have := congrArg List.length hmap
      simpa using this.symm
    refine ⟨insts, insts', rfl, hmap, ?_, ?_, ?_⟩
    · intro hne
      apply lookup_deleteIfNil_arr
      apply lookup_updateParent_kept
      simpa using hne
    · intro hne hnil
      apply lookup_deleteIfNil_none
      have hany : insts'.any (fun i' => isNil (index i' nkey)) = true := by
        cases insts' with
        | nil =>
          have : insts = [] := by simpa using hlen.symm
          exact absurd this hne
        | cons x xs =>
          have hx' : x ∉ (x :: xs).filter (fun i' => !isNil (index i' nkey)) := by
            simp [hnil]
          simp only [List.mem_filter, List.mem_cons, true_or, true_and, Bool.not_eq_true',
            Bool.not_eq_false] at hx'
          simp [hx']
      rw [hnil, hany]
      exact lookup_updateParent_emptied _ _
    · intro hnil
      subst hnil
      have : insts' = [] := by simpa using hlen
      subst this
      apply lookup_deleteIfNil_arr
      simp [lookup_updateParent_same]

/-! ## Claims on the next-hop routing instances of a route -/

/-- Counterexample to C21: the instance of the first route has an empty list of next-hops,
so it is left without next-hops, yet it is kept and the route is as it was; the second
route has the instance `blue`, with an enabled next-hop, under `next-hop-routing-instance`
and the instance `green` under `next-hop-routing-instance-v6`, and afterwards it holds
`green` only: `blue` is not kept. -/
theorem C21_counterexample :
    index exInstEmpty "next-hop" = arr [] ∧
    TranslateRoutes [("route", arr [obj exRouteInstEmpty])] "route" "next-hop" =
      some [("route", arr [obj exRouteInstEmpty])] ∧
    TranslateNexthops exInstBlue "next-hop" = some exInstBlue' ∧
    index exInstBlue' "next-hop" = arr [obj [("tagnode", str "192.0.2.2")]] ∧
    TranslateRoutes [("route", arr [obj exRouteInstBoth])] "route" "next-hop" =
      some [("route", arr [obj [("tagnode", str "12.0.0.0/8"),
        ("next-hop-routing-instance", arr [obj exInstGreen])]])] := by
  decide

/-- Claim C21, amended. Let `TranslateRoutes` run on a collection of routes `rs` that it
rewrites to `rs'`, and take a route whose `next-hop-routing-instance-v6` reads as `nil`
and whose `next-hop-routing-instance` holds a list.  The list is a list of maps `insts`,
which `TranslateNexthops` rewrites to `insts'`: in an instance with a list of next-hops,
the list afterwards is the list of the next-hops without a `disable` field, in their
order, the next-hop key is gone when there were next-hops and all were disabled, and an
empty list stays.  Under `next-hop-routing-instance` the
route holds afterwards the instances of `insts'` whose next-hop key does not read as
`nil`, in their order; the key is gone from the route when there were instances and none
is left; an empty list stays.  Here `rs[i]` is the route before and `rs'[i]` the same
route after. -/
theorem C21_instances_pruned (pmap : Fields) (pkey nkey : String) (rs rs' : List Fields)
    (hn1 : nkey ≠ "next-hop-routing-instance") (hn2 : nkey ≠ "next-hop-routing-instance-v6")
    (hp : index pmap pkey = arr (rs.map obj))
    (hrs : rs.map (translateRoute nkey) = rs'.map some) :
    ∃ out : Fields,
      TranslateRoutes pmap pkey nkey = some out ∧
      sliceOrNil (index out pkey) = (rs'.filter (fun r' => decide (1 < len r'))).map obj ∧
      ∀ (i : Nat) (r r' : Fields) (inst_arr : List Value),
        rs[i]? = some r → rs'[i]? = some r' →
        isNil (index r "next-hop-routing-instance-v6") = true →
        index r "next-hop-routing-instance" = arr inst_arr →
        ∃ insts insts' : List Fields, inst_arr = insts.map obj ∧
          insts.map (fun inst => TranslateNexthops inst nkey) = insts'.map some ∧
          (∀ (j : Nat) (inst inst' : Fields) (nhs : List Fields),
            insts[j]? = some inst → insts'[j]? = some inst' →
            index inst nkey = arr (nhs.map obj) →
            ((∃ nh ∈ nhs, IsNexthopDisabled nh = false) →
              lookup inst' nkey =
                some (arr ((nhs.filter (fun nh => !IsNexthopDisabled nh)).map
                  (fun nh => obj (renameInterfaceName nh))))) ∧
            (nhs ≠ [] → (∀ nh ∈ nhs, IsNexthopDisabled nh = true) →
              lookup inst' nkey = none) ∧
            (nhs = [] → lookup inst' nkey = some (arr []))) ∧
          (insts'.filter (fun i' => !isNil (index i' nkey)) ≠ [] →
            lookup r' "next-hop-routing-instance" =
              some (arr ((insts'.filter (fun i' => !isNil (index i' nkey))).map obj))) ∧
          (insts ≠ [] → insts'.filter (fun i' => !isNil (index i' nkey)) = [] →
            lookup r' "next-hop-routing-instance" = none) ∧
          (insts = [] → lookup r' "next-hop-routing-instance" = some (arr [])) := by
  refine ⟨_, TranslateRoutes_arr pmap pkey nkey rs rs' hp hrs, sliceOrNil_updateParent _ _ _ _,
    ?_⟩
  intro i r r' inst_arr hr hr' hv6 hri
  have htr : translateRoute nkey r = some r' := by
    have := congrArg (fun l => l[i]?) hrs
    simpa [List.getElem?_map, hr, hr'] using this
  obtain ⟨hops, _, hh, _, _⟩ := translateRoute_unfold nkey r r' htr
  have hx := (index_instances_of_route nkey r hops hn1 hn2 hh).1
  rw [hv6, if_pos rfl, hri] at hx
  obtain ⟨insts, insts', hl, hmap, hb, hc, hd⟩ :=
    translateRoute_instances nkey r r' hops inst_arr hh hx htr
  refine ⟨insts, insts', hl, hmap, ?_, hb, hc, hd⟩
  intro j inst inst' nhs hj hj' hnh
  have ht : TranslateNexthops inst nkey = some inst' := by
    have := congrArg (fun l => l[j]?) hmap
    simpa [List.getElem?_map, hj, hj'] using this
  rw [TranslateNexthops_arr inst nkey nhs hnh, Option.some.injEq] at ht
  subst ht
  refine ⟨?_, ?_, ?_⟩
  · rintro ⟨nh, hmem, hdis⟩
    apply lookup_updateParent_kept
    intro hnil
    have : nh ∈ nhs.filter (fun nh => !IsNexthopDisabled nh) :=
      List.mem_filter.2 ⟨hmem, by simp [hdis]⟩
    rw [List.map_eq_nil_iff] at hnil
    rw [hnil] at this
    simp at this
  · intro hne hall
    have hf : nhs.filter (fun nh => !IsNexthopDisabled nh) = [] := by
      apply List.filter_eq_nil_iff.2
      intro nh hmem
      simp [hall nh hmem]
    have hany : nhs.any IsNexthopDisabled = true := by
      cases nhs with
      | nil => exact absurd rfl hne
      | cons x xs => simp [hall x (List.mem_cons_self _ _)]
    rw [hf, hany]
    exact lookup_updateParent_emptied _ _
  · intro hnil
    subst hnil
    simp [updateParent, lookup_store_self]

/-- Witness of C21 (amended): the instance `red` loses its only next-hop and is removed, the
instance `blue` keeps one next-hop. -/
theorem C21_instances_pruned_witness :
    ∃ out : Fields,
      TranslateRoutes [("route", arr [obj exRouteInst])] "route" "next-hop" = some out ∧
      sliceOrNil (index out "route") =
        [obj [("tagnode", str "12.0.0.0/8"),
          ("next-hop-routing-instance", arr [obj exInstBlue'])]] :=
  let h := C21_instances_pruned [("route", arr [obj exRouteInst])] "route" "next-hop"
    [exRouteInst]
    [[("tagnode", str "12.0.0.0/8"), ("next-hop-routing-instance", arr [obj exInstBlue'])]]
    (by decide) (by decide) (by decide) (by decide)
  ⟨h.choose, h.choose_spec.1, h.choose_spec.2.1.trans (by decide)⟩

/-- Claim C23. Let `TranslateRoutes` run on a collection of routes `rs` that it rewrites
to `rs'`, and take a route whose `next-hop-routing-instance-v6` is not `nil`.  Afterwards
the route has no `next-hop-routing-instance-v6` field.  When that field held a list, it
is a list of maps `insts`, which `TranslateNexthops` rewrites to `insts'`, and under
`next-hop-routing-instance` the route holds afterwards the instances of `insts'` whose
next-hop key does not read as `nil`, in their order; the key is gone from the route when
there were instances and none is left.  Here `rs[i]` is the route before and `rs'[i]` the
same route after. -/
theorem C23_instance_v6_renamed (pmap : Fields) (pkey nkey : String) (rs rs' : List Fields)
    (hn1 : nkey ≠ "next-hop-routing-instance") (hn2 : nkey ≠ "next-hop-routing-instance-v6")
    (hp : index pmap pkey = arr (rs.map obj))
    (hrs : rs.map (translateRoute nkey) = rs'.map some) :
    ∃ out : Fields,
      TranslateRoutes pmap pkey nkey = some out ∧
      sliceOrNil (index out pkey) = (rs'.filter (fun r' => decide (1 < len r'))).map obj ∧
      ∀ (i : Nat) (r r' : Fields), rs[i]? = some r → rs'[i]? = some r' →
        isNil (index r "next-hop-routing-instance-v6") = false →
        lookup r' "next-hop-routing-instance-v6" = none ∧
        ∀ inst_arr, index r "next-hop-routing-instance-v6" = arr inst_arr →
          ∃ insts insts' : List Fields, inst_arr = insts.map obj ∧
            insts.map (fun inst => TranslateNexthops inst nkey) = insts'.map some ∧
            (insts'.filter (fun i' => !isNil (index i' nkey)) ≠ [] →
              lookup r' "next-hop-routing-instance" =
                some (arr ((insts'.filter (fun i' => !isNil (index i' nkey))).map obj))) ∧
            (insts ≠ [] → insts'.filter (fun i' => !isNil (index i' nkey)) = [] →
              lookup r' "next-hop-routing-instance" = none) ∧
            (insts = [] → lookup r' "next-hop-routing-instance" = some (arr [])) := by
  refine ⟨_, TranslateRoutes_arr pmap pkey nkey rs rs' hp hrs, sliceOrNil_updateParent _ _ _ _,
    ?_⟩
  intro i r r' hr hr' hv6
  have htr : translateRoute nkey r = some r' := by
    have := congrArg (fun l => l[i]?) hrs
    simpa [List.getElem?_map, hr, hr'] using this
  obtain ⟨hops, out, hh, hi, hout⟩ := translateRoute_unfold nkey r r' htr
  obtain ⟨hx, hgone⟩ := index_instances_of_route nkey r hops hn1 hn2 hh
  constructor
  · rw [hout, lookup_deleteIfNil_ne _ _ _ (by decide),
      TranslateNexthopInstances_frame _ _ _ _ _ hi (by decide)]
    exact hgone hv6
  · intro inst_arr hv
    rw [hv6, if_neg (by simp), hv] at hx
    exact translateRoute_instances nkey r r' hops inst_arr hh hx htr

/-- Witness of C23: the two instances are under `next-hop-routing-instance-v6`; the
instance `blue`, pruned, is under `next-hop-routing-instance` afterwards. -/
theorem C23_instance_v6_renamed_witness :
    ∃ out : Fields,
      TranslateRoutes [("route6", arr [obj exRouteInstV6])] "route6" "next-hop" = some out ∧
      sliceOrNil (index out "route6") =
        [obj [("tagnode", str "2001:db8::/32"),
          ("next-hop-routing-instance", arr [obj exInstBlue'])]] :=
  let h := C23_instance_v6_renamed [("route6", arr [obj exRouteInstV6])] "route6" "next-hop"
    [exRouteInstV6]
    [[("tagnode", str "2001:db8::/32"), ("next-hop-routing-instance", arr [obj exInstBlue'])]]
    (by decide) (by decide) (by decide) (by decide)
  ⟨h.choose, h.choose_spec.1, h.choose_spec.2.1.trans (by decide)⟩

/-! ## The release commands of `TranslateTables` -/

theorem releaseLoop_eq (ri : String) (tbl_map : GoMap Nat) (todo : List (String × Nat)) :
    releaseLoop ri tbl_map todo =
      (todo.filter (fun p => (lookup tbl_map p.1).isNone)).map
        (fun p => Request.delTable ri p.1) := by
  induction todo with
  | nil => rfl
  | cons p todo ih =>
    obtain ⟨table_id, j⟩ := p
    cases h : (lookup tbl_map table_id).isNone <;> simp [releaseLoop, h, ih, List.filter_cons]

theorem releaseLoop_nodup (ri : String) (tbl_map : GoMap Nat) (todo : List (String × Nat))
    (h : (todo.map Prod.fst).Nodup) : (releaseLoop ri tbl_map todo).Nodup := by
  rw [releaseLoop_eq]
  have h1 : ((todo.filter (fun p => (lookup tbl_map p.1).isNone)).map Prod.fst).Nodup :=
    List.Nodup.sublist (List.Sublist.map _ (List.filter_sublist _)) h
  have h2 := List.Nodup.map (f := fun k => Request.delTable ri k)
    (fun a b hab => by simpa using hab) h1
  simpa [List.map_map] using h2

/-- The commands of a run of `TranslateTables` in which every lookup succeeds: the
commands of the first loop, none of which is a release, then the commands of the release
loop. -/
theorem TranslateTables_requests (sprint : Value → String)
    (gv : String → String → Option String) (pf : String → Option Int)
    (order : GoMap Nat → GoMap Nat) (horder : ∀ m, (order m).Perm m)
    (pmap old_pmap : Fields) (key ri : String) (tbls olds : List Fields)
    (out : Fields) (requests : List Request)
    (hcur : tableSlice pmap key = some (tbls.map obj))
    (hold : tableSlice old_pmap key = some (olds.map obj))
    (hlookups : ∀ e ∈ tbls, (gv ri (sprint (index e "tagnode"))).bind pf ≠ none)
    (hrun : TranslateTables sprint gv pf order pmap old_pmap key ri = some (out, requests)) :
    ∃ (tbl_map old_tbl_map : GoMap Nat) (log : List Request),
      MapByKey sprint (tbls.map obj) "tagnode" = some tbl_map ∧
      MapByKey sprint (olds.map obj) "tagnode" = some old_tbl_map ∧
      requests = log ++ releaseLoop ri tbl_map (order old_tbl_map) ∧
      ∀ r ∈ log, ∀ a b, r ≠ Request.delTable a b := by
  cases hnn : (isNil (index pmap key) && isNil (index old_pmap key)) with
  | true =>
    simp only [TranslateTables, hnn, if_true, Option.some.injEq, Prod.mk.injEq] at hrun
    simp only [Bool.and_eq_true] at hnn
    simp only [tableSlice, hnn.1, hnn.2, if_true, Option.some.injEq] at hcur hold
    have h1 : tbls = [] := by simpa using hcur.symm
    have h2 : olds = [] := by simpa using hold.symm
    subst h1
    subst h2
    refine ⟨[], [], [], rfl, rfl, ?_, by simp⟩
    rw [← hrun.2, order_nil order horder]
    rfl
  | false =>
    obtain ⟨tbl_arr0, old_tbl_arr, tbl_map, old_tbl_map, translated, log, fin, h1, h2, h3, h4,
      h5, _, hreq⟩ := TranslateTables_run sprint gv pf order pmap old_pmap key ri out requests
        hnn hrun
    rw [hcur, Option.some.injEq] at h1
    subst h1
    rw [hold, Option.some.injEq] at h2
    subst h2
    obtain ⟨es, hes, _, _, hmem, _⟩ := MapByKey_spec sprint "tagnode" _ tbl_map h3
    have hes' : es = tbls := (map_obj_injective _ _ hes).symm
    subst hes'
    have hfin : fin = true := by
      apply tablesLoop_fin gv pf ri _ _ _ _ _ _ _ h5
      intro p hp'
      obtain ⟨e, he, hk⟩ := hmem p.1 p.2 ((horder tbl_map).mem_iff.1 hp')
      have := hlookups e (List.getElem?_mem he)
      rw [hk] at this
      exact bind_ne_none_iff.1 this
    subst hfin
    obtain ⟨_, _, asked, hlog, hasked⟩ := tablesLoop_inv gv pf ri _ _ _ _ _ _ h5
    refine ⟨tbl_map, old_tbl_map, log, h3, h4, by simpa using hreq, ?_⟩
    intro r hr
    rw [hlog] at hr
    exact hasked r (by simpa using hr)

/-! ## Further claims on `TranslateTables` -/

/-- Claim C24. In a call of `TranslateTables` in which the lookup succeeds for every table
of the current tree (both table collections being slices of maps whose routes translate),
every release command names the routing instance of the call, and the release command for
a tag is run once when the tag occurs in the previous table collection and not in the
current one, and is not run otherwise: so no release command is run when every previous
tag is a current tag.  The result of a release command is not read by `TranslateTables`,
so the commands that are run are the same whether a release fails or not. -/
theorem C24_releases_exactly_removed (sprint : Value → String)
    (gv : String → String → Option String) (pf : String → Option Int)
    (order : GoMap Nat → GoMap Nat) (horder : ∀ m, (order m).Perm m)
    (pmap old_pmap : Fields) (key ri : String) (tbls olds : List Fields)
    (hcur : tableSlice pmap key = some (tbls.map obj))
    (hold : tableSlice old_pmap key = some (olds.map obj))
    (hlookups : ∀ e ∈ tbls, (gv ri (sprint (index e "tagnode"))).bind pf ≠ none)
    (hroutes : ∀ e ∈ tbls, ∀ id, translateTableRoutes (store e "tagnode" (num id)) ≠ none) :
    ∃ (out : Fields) (requests : List Request),
      TranslateTables sprint gv pf order pmap old_pmap key ri = some (out, requests) ∧
      (∀ a b, Request.delTable a b ∈ requests → a = ri) ∧
      (∀ tag, requests.count (Request.delTable ri tag) =
        if tag ∈ olds.map (fun e => sprint (index e "tagnode")) ∧
            tag ∉ tbls.map (fun e => sprint (index e "tagnode")) then 1 else 0) ∧
      ((∀ e ∈ olds, ∃ t ∈ tbls, sprint (index t "tagnode") = sprint (index e "tagnode")) →
        ∀ a b, Request.delTable a b ∉ requests) := by
  obtain ⟨out, requests, hrun⟩ := TranslateTables_total sprint gv pf order horder pmap
    old_pmap key ri tbls olds hcur hold hlookups hroutes
  obtain ⟨tbl_map, old_tbl_map, log, h3, h4, hreq, hlog⟩ := TranslateTables_requests sprint gv
    pf order horder pmap old_pmap key ri tbls olds out requests hcur hold hlookups hrun
  obtain ⟨es, hes, _, _, _, hkeys⟩ := MapByKey_spec sprint "tagnode" _ tbl_map h3
  have hes' : es = tbls := (map_obj_injective _ _ hes).symm
  subst hes'
  obtain ⟨os, hos, hond, _, _, hokeys⟩ := MapByKey_spec sprint "tagnode" _ old_tbl_map h4
  have hos' : os = olds := (map_obj_injective _ _ hos).symm
  subst hos'
  have hmemdel : ∀ a b, Request.delTable a b ∈ requests ↔
      a = ri ∧ (∃ e ∈ os, sprint (index e "tagnode") = b) ∧
        ¬ ∃ t ∈ es, sprint (index t "tagnode") = b := by
    intro a b
    rw [hreq, List.mem_append, mem_releaseLoop]
    constructor
    · rintro (h | ⟨p, hp, hnone, heq⟩)
      · exact absurd rfl (hlog _ h a b)
      · simp only [Request.delTable.injEq] at heq
        obtain ⟨rfl, rfl⟩ := heq
        refine ⟨rfl, ?_, ?_⟩
        · apply (hokeys p.1).1
          rw [lookup_ne_none_iff]
          exact List.mem_map_of_mem _ ((horder old_tbl_map).mem_iff.1 hp)
        · intro hex
          exact (hkeys p.1).2 hex hnone
    · rintro ⟨rfl, hprev, hnow⟩
      right
      have hb := (hokeys b).2 hprev
      obtain ⟨p, hp, hpk⟩ := List.mem_map.1 ((lookup_ne_none_iff _ _).1 hb)
      refine ⟨p, (horder old_tbl_map).mem_iff.2 hp, ?_, by rw [hpk]⟩
      by_contra hne
      rw [hpk] at hne
      exact hnow ((hkeys b).1 hne)
  have hnd : (releaseLoop ri tbl_map (order old_tbl_map)).Nodup :=
    releaseLoop_nodup ri tbl_map _ (((horder old_tbl_map).map Prod.fst).nodup_iff.2 hond)
  refine ⟨out, requests, hrun, fun a b h => ((hmemdel a b).1 h).1, ?_, ?_⟩
  · intro tag
    have hcount : requests.count (Request.delTable ri tag) =
        (releaseLoop ri tbl_map (order old_tbl_map)).count (Request.delTable ri tag) := by
      rw [hreq, List.count_append]
      have : log.count (Request.delTable ri tag) = 0 := by
        apply List.count_eq_zero.2
        intro h
        exact hlog _ h ri tag rfl
      rw [this, Nat.zero_add]
    rw [hcount, List.count_eq_of_nodup hnd]
    have hiff : Request.delTable ri tag ∈ releaseLoop ri tbl_map (order old_tbl_map) ↔
        tag ∈ os.map (fun e => sprint (index e "tagnode")) ∧
          tag ∉ es.map (fun e => sprint (index e "tagnode")) := by
      have h1 := hmemdel ri tag
      rw [hreq, List.mem_append] at h1
      constructor
      · intro h
        have := h1.1 (Or.inr h)
        simpa using this.2
      · intro h
        have h2 := h1.2 ⟨rfl, by simpa using h.1, by simpa using h.2⟩
        rcases h2 with h2 | h2
        · exact absurd rfl (hlog _ h2 ri tag)
        · exact h2
    by_cases hc : tag ∈ os.map (fun e => sprint (index e "tagnode")) ∧
        tag ∉ es.map (fun e => sprint (index e "tagnode"))
    · rw [if_pos (hiff.2 hc), if_pos hc]
    · rw [if_neg (fun h => hc (hiff.1 h)), if_neg hc]
  · intro hsame a b hmem
    obtain ⟨_, ⟨e, he, hk⟩, hnot⟩ := (hmemdel a b).1 hmem
    obtain ⟨t, ht, htk⟩ := hsame e he
    exact hnot ⟨t, ht, htk.trans hk⟩

/-- Witness of C24: current tables `1` and `3`, previous tables `1` and `5`. -/
theorem C24_releases_exactly_removed_witness :
    ∃ (out : Fields) (requests : List Request),
      TranslateTables sprintSmall exGetvrftable exParseFloat id exTables13 exTables15
        "table" "default" = some (out, requests) ∧
      requests.count (Request.delTable "default" "5") = 1 ∧
      requests.count (Request.delTable "default" "1") = 0 :=
  let h := C24_releases_exactly_removed sprintSmall exGetvrftable exParseFloat id
    (fun m => List.Perm.refl m) exTables13 exTables15 "table" "default"
    [[("tagnode", num 1), ("route", arr [obj exRouteA, obj exRouteB])], [("tagnode", num 3)]]
    [[("tagnode", num 1)], [("tagnode", num 5)]]
    (by decide) (by decide) (by decide)
    (by
      intro e he id
      simp only [List.mem_cons, List.mem_singleton, List.not_mem_nil, or_false] at he
      rcases he with rfl | rfl
      · rw [exTable1_routes]; simp
      · rw [exTableBare_routes]; simp)
  ⟨h.choose, h.choose_spec.choose, h.choose_spec.choose_spec.1,
    (h.choose_spec.choose_spec.2.2.1 "5").trans (by decide),
    (h.choose_spec.choose_spec.2.2.1 "1").trans (by decide)⟩

/-! ## Lemmas on `Set` -/

theorem control_eq {ε : Type} (mgr : ManagerAction → String → Option ε)
    (action : ManagerAction)
    (pd : ProtocolsDaemon) :
    pd.control mgr action = (mgr action pd.unit, { pd with stopTimer := none },
      (pd.stopTimer.map Effect.timerStop).toList ++ [Effect.request action pd.unit]) := by
  cases pd with
  | mk unit stopTimer d t =>
    cases stopTimer <;> simp [ProtocolsDaemon.control, ProtocolsDaemon.CancelStopAndDisable]


/-- The loop of `Set` for a meaningful configuration. -/
theorem setLoop_meaningful (mgr : ManagerAction → String → Option GoError)
    (now : String → Nat) (meanFunc : Bytes → Bool) (conv_cfg : Bytes)
    (hmean : meanFunc conv_cfg = true) (daemons : GoMap ProtocolsDaemon)
    (ret_err : List String) :
    setLoop mgr now meanFunc conv_cfg daemons ret_err =
      (daemons.map (fun p => (p.1, { p.2 with stopTimer := none })),
        ret_err ++ (daemons.map (fun p =>
          multierr.appended (mgr ManagerAction.enable p.2.unit) ++
            multierr.appended (mgr ManagerAction.start p.2.unit))).flatten,
        (daemons.map (fun p =>
          ((p.2.stopTimer.map Effect.timerStop).toList ++
            [Effect.request ManagerAction.enable p.2.unit,
              Effect.request ManagerAction.start p.2.unit]).map
            (SetEvent.daemon p.1))).flatten) := by
  induction daemons generalizing ret_err with
  | nil => simp [setLoop]
  | cons p rest ih =>
    obtain ⟨name, pd⟩ := p
    simp only [setLoop, hmean, if_true, ProtocolsDaemon.Enable, ProtocolsDaemon.Start,
      control_eq, ih, multierr.Append]
    simp

/-- The loop of `Set` for a configuration that is not meaningful. -/
theorem setLoop_not_meaningful (mgr : ManagerAction → String → Option GoError)
    (now : String → Nat) (meanFunc : Bytes → Bool) (conv_cfg : Bytes)
    (hmean : meanFunc conv_cfg = false) (daemons : GoMap ProtocolsDaemon)
    (ret_err : List String) :
    setLoop mgr now meanFunc conv_cfg daemons ret_err =
      (daemons.map (fun p => (p.1, (p.2.ScheduleStopAndDisable (now p.1)).1)),
        ret_err,
        (daemons.map (fun p =>
          (p.2.ScheduleStopAndDisable (now p.1)).2.map (SetEvent.daemon p.1))).flatten) := by
  induction daemons generalizing ret_err with
  | nil => simp [setLoop]
  | cons p rest ih =>
    obtain ⟨name, pd⟩ := p
    simp only [setLoop, hmean, Bool.false_eq_true, if_false, ih]
    simp

/-! ## Claims on `Set` -/

/-- Claim C29. Let the conversion of the configuration succeed.  `Set` calls the set
handler, writes the system configuration file and then goes over every daemon of the
component, in the order of the map, whatever the set handler and the requests for the
daemons before returned.  For a meaningful configuration each daemon has its pending
timer stopped, when there is one, and is requested to be enabled and then to be started;
no stop is pending afterwards.  For a configuration that is not meaningful each daemon
has `ScheduleStopAndDisable` run, and no request is made.  The errors that `Set` returns
are those of the set handler and then, daemon by daemon, those of the enable and of the
start request: for each error that is not `nil`, the errors it holds when it is a
`*multierror.Error`, and the error itself otherwise.  `Set` returns `nil` exactly when
there is none, and the `*multierror.Error` that holds them otherwise.  When the
conversion fails, `Set` returns its error and does nothing else. -/
theorem C29_set_drives_every_daemon
    (ConvertConfigToInternalJson : Bytes → Bytes × Option GoError)
    (mgr : ManagerAction → String → Option GoError) (now : String → Nat)
    (pmc : ProtocolsModelComponent) (cfg conv_cfg : Bytes) :
    (ConvertConfigToInternalJson cfg = (conv_cfg, none) → pmc.meanFunc conv_cfg = true →
      pmc.Set ConvertConfigToInternalJson mgr now cfg =
        (multierr.ErrorOrNil (multierr.appended (pmc.setFunc conv_cfg) ++
            (pmc.daemons.map (fun p =>
              multierr.appended (mgr ManagerAction.enable p.2.unit) ++
                multierr.appended (mgr ManagerAction.start p.2.unit))).flatten),
          pmc.daemons.map (fun p => (p.1, { p.2 with stopTimer := none })),
          SetEvent.handler conv_cfg :: SetEvent.cache cfg ::
            (pmc.daemons.map (fun p =>
              ((p.2.stopTimer.map Effect.timerStop).toList ++
                [Effect.request ManagerAction.enable p.2.unit,
                  Effect.request ManagerAction.start p.2.unit]).map
                (SetEvent.daemon p.1))).flatten)) ∧
    (ConvertConfigToInternalJson cfg = (conv_cfg, none) → pmc.meanFunc conv_cfg = false →
      pmc.Set ConvertConfigToInternalJson mgr now cfg =
        (multierr.ErrorOrNil (multierr.appended (pmc.setFunc conv_cfg)),
          pmc.daemons.map (fun p => (p.1, (p.2.ScheduleStopAndDisable (now p.1)).1)),
          SetEvent.handler conv_cfg :: SetEvent.cache cfg ::
            (pmc.daemons.map (fun p =>
              (p.2.ScheduleStopAndDisable (now p.1)).2.map (SetEvent.daemon p.1))).flatten)) ∧
    (multierr.appended none = [] ∧
      (∀ msg, multierr.appended (some (GoError.plain msg)) = [msg]) ∧
      ∀ errors, multierr.appended (some (GoError.multi errors)) = errors) ∧
    (∀ errors, multierr.ErrorOrNil errors = none ↔ errors = []) ∧
    (∀ errors, errors ≠ [] → multierr.ErrorOrNil errors = some (GoError.multi errors)) ∧
    (∀ err, ConvertConfigToInternalJson cfg = (conv_cfg, some err) →
      pmc.Set ConvertConfigToInternalJson mgr now cfg = (some err, pmc.daemons, [])) := by
  refine ⟨?_, ?_, ⟨rfl, fun _ => rfl, fun _ => rfl⟩, ?_, ?_, ?_⟩
  · intro hconv hmean
    simp [ProtocolsModelComponent.Set, hconv,
      setLoop_meaningful mgr now pmc.meanFunc conv_cfg hmean, multierr.Append]
  · intro hconv hmean
    simp [ProtocolsModelComponent.Set, hconv,
      setLoop_not_meaningful mgr now pmc.meanFunc conv_cfg hmean, multierr.Append]
  · intro errors
    cases errors <;> simp [multierr.ErrorOrNil]
  · intro errors hne
    cases errors with
    | nil => exact absurd rfl hne
    | cons e es => simp [multierr.ErrorOrNil]
  · intro err hconv
    simp [ProtocolsModelComponent.Set, hconv]

/-- Witness of C29: the set handler fails with the two errors of `writeJsonFile` and `pimd`
cannot be started; `ripd`, which comes after `pimd`, is enabled and started all the same,
and the three errors are returned. -/
theorem C29_set_drives_every_daemon_witness :
    exComponent.Set exConvert exMgrNoStart (fun _ => 20) [123, 34, 97, 34, 58, 49, 125] =
      (some (GoError.multi ["chown failed", "rename failed",
          "Unit pimd.service not found."]),
        [("pimd", NewProtocolsDaemon "pimd"),
          ("ripd", { exRipd with stopTimer := none })],
        [SetEvent.handler [123, 34, 97, 34, 58, 49, 125],
          SetEvent.cache [123, 34, 97, 34, 58, 49, 125],
          SetEvent.daemon "pimd" (Effect.request ManagerAction.enable "pimd"),
          SetEvent.daemon "pimd" (Effect.request ManagerAction.start "pimd"),
          SetEvent.daemon "ripd" (Effect.timerStop { d := 10 * Second }),
          SetEvent.daemon "ripd" (Effect.request ManagerAction.enable "ripd"),
          SetEvent.daemon "ripd" (Effect.request ManagerAction.start "ripd")]) :=
  ((C29_set_drives_every_daemon exConvert exMgrNoStart (fun _ => 20) exComponent
    [123, 34, 97, 34, 58, 49, 125] [123, 34, 97, 34, 58, 49, 125]).1 (by decide)
    (by decide)).trans (by decide)

/-! ## The tree when no interface entry is appended -/

/-- Claim C31. When the tree has interface-type groups and every entry of every group
appends nothing, `ConvertInterfaceConfig` returns the tree with the nil slice stored
under `interfaces`: the key is there, what it holds is written as `null` by
`json.Marshal`, and it is not the empty list. -/
theorem C31_nothing_emitted_null (sprint : Value → String) (cfg_map : Fields)
    (groups : List (String × List Value))
    (hcfg : index cfg_map INTERFACES_KEY = obj (groups.map (fun g => (g.1, arr g.2))))
    (hdrop : ∀ g ∈ groups, ∀ e ∈ g.2, convertInterface sprint e = some []) :
    ∃ (out : Fields) (v : Value),
      ConvertInterfaceConfig sprint cfg_map = some out ∧
      lookup out INTERFACES_KEY = some v ∧
      marshalsAsNull v = true ∧ v ≠ arr [] ∧ v = nilSlice ∧
      ∀ k, k ≠ INTERFACES_KEY → lookup out k = lookup cfg_map k := by
  refine ⟨store cfg_map INTERFACES_KEY nilSlice, nilSlice, ?_, lookup_store_self _ _ _, rfl,
    by simp, rfl, fun k hk => lookup_store_ne _ _ _ _ hk⟩
  have hjoin := convertTypes_join sprint groups (fun _ => []) hdrop
  have hnil : (groups.map (fun g => (g.2.map (fun _ => ([] : List Value))).flatten)).flatten
      = [] := by
    simp
  rw [hnil] at hjoin
  simp [ConvertInterfaceConfig, hcfg, hjoin, sliceValue]

/-- Witness of C31 on the input of `TestConvertInterfaceswitchVifInvalidName`. -/
theorem C31_nothing_emitted_null_witness :
    ∃ (out : Fields) (v : Value),
      ConvertInterfaceConfig sprintSmall exSwitchIfName = some out ∧
      lookup out INTERFACES_KEY = some v ∧
      marshalsAsNull v = true ∧ v ≠ arr [] ∧ v = nilSlice ∧
      ∀ k, k ≠ INTERFACES_KEY → lookup out k = lookup exSwitchIfName k :=
  C31_nothing_emitted_null sprintSmall exSwitchIfName
    [("switch", [obj [("vif", arr [obj [("tagnode", num 100), ("ip", exTtl 79)]]),
      ("if-name", str "sw1")]])]
    (by decide) (by decide)

/-! ## A second run of `TranslateRoutes` on its own result -/

theorem store_same {α : Type} (m : GoMap α) (k : String) (v : α)
    (h : lookup m k = some v) : store m k v = m := by
  induction m with
  | nil => simp [lookup] at h
  | cons p m ih =>
    obtain ⟨k0, v0⟩ := p
    by_cases h0 : k0 = k
    · simp only [lookup, h0, if_true, Option.some.injEq] at h
      simp [store, h0, h]
    · simp only [lookup, h0, if_false] at h
      simp [store, h0, ih h]

theorem delete_of_lookup_none {α : Type} (m : GoMap α) (k : String)
    (h : lookup m k = none) : delete m k = m := by
  unfold delete
  rw [List.filter_eq_self]
  intro p hp
  have hk : k ∉ m.map Prod.fst := (lookup_eq_none_iff m k).1 h
  have : p.1 ≠ k := by
    intro heq
    exact hk (heq ▸ List.mem_map_of_mem _ hp)
  simpa using this

theorem lookup_of_index_ne_null {m : Fields} {k : String} {v : Value}
    (h : index m k = v) (hv : v ≠ null) : lookup m k = some v := by
  cases hl : lookup m k with
  | none =>
    rw [index_of_lookup_none hl] at h
    exact absurd h.symm hv
  | some w =>
    rw [index_eq_of_lookup hl] at h
    rw [h]

/-- What `updateParent` leaves under the key: nothing, when entries were deleted and none
is left, or the kept entries. -/
theorem lookup_updateParent (pmap : Fields) (key : String) (kept : List Value)
    (deleted : Bool) :
    lookup (updateParent pmap key kept deleted) key = none ∨
      lookup (updateParent pmap key kept deleted) key = some (arr kept) := by
  cases kept with
  | nil =>
    cases deleted
    · right; exact lookup_updateParent_same _ _ _
    · left; exact lookup_updateParent_emptied _ _
  | cons x xs =>
    right; exact lookup_updateParent_kept _ _ _ _ (by simp)

theorem updateParent_fixed (out : Fields) (key : String) (kept : List Value)
    (h : lookup out key = some (arr kept)) : updateParent out key kept false = out := by
  simp [updateParent, store_same out key (arr kept) h]

theorem IsNexthopDisabled_rename (nh : Fields) :
    IsNexthopDisabled (renameInterfaceName nh) = IsNexthopDisabled nh := by
  unfold renameInterfaceName IsNexthopDisabled
  split
  · rfl
  · rw [lookup_delete_ne _ _ _ (by decide), lookup_store_ne _ _ _ _ (by decide)]

theorem renameInterfaceName_again (nh : Fields) :
    renameInterfaceName (renameInterfaceName nh) = renameInterfaceName nh := by
  by_cases h : isNil (index nh "interface-name") = true
  · simp [renameInterfaceName, h]
  · have hr : renameInterfaceName nh =
        delete (store nh "tagnode" (index nh "interface-name")) "interface-name" := by
      simp [renameInterfaceName, h]
    rw [hr]
    have hgone : isNil (index
        (delete (store nh "tagnode" (index nh "interface-name")) "interface-name")
        "interface-name") = true := by
      simp [index, lookup_delete_self, isNil]
    unfold renameInterfaceName
    rw [if_pos hgone]

/-- The next-hops that the loop of `TranslateNexthops` keeps are kept as they are by a
second run of the loop. -/
theorem nexthopsLoop_again (nhs : List Fields) :
    nexthopsLoop ((nhs.filter (fun nh => !IsNexthopDisabled nh)).map
        (fun nh => obj (renameInterfaceName nh))) =
      some ((nhs.filter (fun nh => !IsNexthopDisabled nh)).map
        (fun nh => obj (renameInterfaceName nh)), false) := by
  have h := nexthopsLoop_map
    ((nhs.filter (fun nh => !IsNexthopDisabled nh)).map renameInterfaceName)
  rw [List.map_map] at h
  have hall : ∀ x ∈ (nhs.filter (fun nh => !IsNexthopDisabled nh)).map renameInterfaceName,
      IsNexthopDisabled x = false ∧ renameInterfaceName x = x := by
    intro x hx
    obtain ⟨nh, hnh, rfl⟩ := List.mem_map.1 hx
    have := (List.mem_filter.1 hnh).2
    exact ⟨by rw [IsNexthopDisabled_rename]; simpa using this, renameInterfaceName_again nh⟩
  have hf : ((nhs.filter (fun nh => !IsNexthopDisabled nh)).map renameInterfaceName).filter
      (fun nh => !IsNexthopDisabled nh) =
      (nhs.filter (fun nh => !IsNexthopDisabled nh)).map renameInterfaceName := by
    rw [List.filter_eq_self]
    intro x hx
    simp [(hall x hx).1]
  have hany : ((nhs.filter (fun nh => !IsNexthopDisabled nh)).map renameInterfaceName).any
      IsNexthopDisabled = false := by
    rw [List.any_eq_false]
    intro x hx
    simp [(hall x hx).1]
  have hmap : ((nhs.filter (fun nh => !IsNexthopDisabled nh)).map renameInterfaceName).map
      (fun nh => obj (renameInterfaceName nh)) =
      (nhs.filter (fun nh => !IsNexthopDisabled nh)).map
        (fun nh => obj (renameInterfaceName nh)) := by
    rw [List.map_map]
    apply List.map_congr_left
    intro nh _
    simp [renameInterfaceName_again]
  rw [hf, hany, hmap] at h
  exact h

/-- `TranslateNexthops` leaves its own result as it is. -/
theorem TranslateNexthops_idem (pmap out : Fields) (key : String)
    (h : TranslateNexthops pmap key = some out) : TranslateNexthops out key = some out := by
  cases hv : index pmap key with
  | arr l =>
    obtain ⟨nhs, rfl⟩ := TranslateNexthops_maps pmap out key l hv h
    rw [TranslateNexthops_arr pmap key nhs hv, Option.some.injEq] at h
    subst h
    rcases lookup_updateParent pmap key
        ((nhs.filter (fun nh => !IsNexthopDisabled nh)).map
          (fun nh => obj (renameInterfaceName nh))) (nhs.any IsNexthopDisabled) with h1 | h1
    · simp [TranslateNexthops, index_of_lookup_none h1]
    · simp only [TranslateNexthops, index_eq_of_lookup h1, nexthopsLoop_again]
      rw [updateParent_fixed _ _ _ h1]
  | null =>
    simp only [TranslateNexthops, hv, Option.some.injEq] at h
    subst h
    simp [TranslateNexthops, hv]
  | nilSlice =>
    simp only [TranslateNexthops, hv, Option.some.injEq] at h
    subst h
    simp [TranslateNexthops, hv]
  | bool b => simp [TranslateNexthops, hv] at h
  | num n => simp [TranslateNexthops, hv] at h
  | str s => simp [TranslateNexthops, hv] at h
  | obj o => simp [TranslateNexthops, hv] at h

/-- A map that `TranslateNexthops` leaves as it is, and a map that holds the same under
the key: `TranslateNexthops` leaves that one as it is too. -/
theorem TranslateNexthops_fixed_of (m m' : Fields) (key : String)
    (hfix : TranslateNexthops m key = some m) (hl : lookup m' key = lookup m key) :
    TranslateNexthops m' key = some m' := by
  have hi : index m' key = index m key := index_congr hl
  cases hv : index m key with
  | arr l =>
    have hlm : lookup m key = some (arr l) := lookup_of_index_ne_null hv (by simp)
    simp only [TranslateNexthops, hv] at hfix
    cases hloop : nexthopsLoop l with
    | none => simp [hloop] at hfix
    | some p =>
      obtain ⟨kept, deleted⟩ := p
      simp only [hloop, Option.some.injEq] at hfix
      have hk : lookup (updateParent m key kept deleted) key = some (arr l) := by
        rw [hfix]
        exact hlm
      have hkept : kept = l := by
        rcases lookup_updateParent m key kept deleted with h1 | h1
        · rw [h1] at hk
          simp at hk
        · rw [h1] at hk
          simpa using hk
      subst hkept
      have hnot : ¬ (deleted = true ∧ kept.length = 0) := by
        rintro ⟨hd, hlen⟩
        have : kept = [] := by simpa using hlen
        subst this
        subst hd
        rw [lookup_updateParent_emptied] at hk
        simp at hk
      have hstore : updateParent m' key kept deleted = m' := by
        have hs : store m' key (arr kept) = m' := store_same _ _ _ (hl.trans hlm)
        unfold updateParent
        by_cases hd : deleted = true
        · have hlen : ¬ kept.length = 0 := fun hlen => hnot ⟨hd, hlen⟩
          simp [hd, hlen, hs]
        · simp [hd, hs]
      simp [TranslateNexthops, hi, hv, hloop, hstore]
  | null => simp [TranslateNexthops, hi, hv]
  | nilSlice => simp [TranslateNexthops, hi, hv]
  | bool b => simp [TranslateNexthops, hv] at hfix
  | num n => simp [TranslateNexthops, hv] at hfix
  | str s => simp [TranslateNexthops, hv] at hfix
  | obj o => simp [TranslateNexthops, hv] at hfix

theorem instancesLoop_again (nkey : String) (insts insts' : List Fields)
    (hmap : insts.map (fun i => TranslateNexthops i nkey) = insts'.map some) :
    instancesLoop nkey ((insts'.filter (fun i' => !isNil (index i' nkey))).map obj) =
      some ((insts'.filter (fun i' => !isNil (index i' nkey))).map obj, false) := by
  have hall : ∀ x ∈ insts'.filter (fun i' => !isNil (index i' nkey)),
      TranslateNexthops x nkey = some x ∧ isNil (index x nkey) = false := by
    intro x hx
    obtain ⟨hx1, hx2⟩ := List.mem_filter.1 hx
    have : some x ∈ insts.map (fun i => TranslateNexthops i nkey) := by
      rw [hmap]
      exact List.mem_map_of_mem _ hx1
    obtain ⟨i, _, hi⟩ := List.mem_map.1 this
    exact ⟨TranslateNexthops_idem i x nkey hi, by simpa using hx2⟩
  have hm : (insts'.filter (fun i' => !isNil (index i' nkey))).map
      (fun i => TranslateNexthops i nkey) =
      (insts'.filter (fun i' => !isNil (index i' nkey))).map some := by
    apply List.map_congr_left
    intro x hx
    exact (hall x hx).1
  rw [instancesLoop_spec nkey _ _ hm]
  have hf : (insts'.filter (fun i' => !isNil (index i' nkey))).filter
      (fun i' => !isNil (index i' nkey)) =
      insts'.filter (fun i' => !isNil (index i' nkey)) := by
    rw [List.filter_eq_self]
    intro x hx
    simp [(hall x hx).2]
  have hany : (insts'.filter (fun i' => !isNil (index i' nkey))).any
      (fun i' => isNil (index i' nkey)) = false := by
    rw [List.any_eq_false]
    intro x hx
    simp [(hall x hx).2]
  rw [hf, hany]

/-- `TranslateNexthopInstances` leaves its own result as it is. -/
theorem TranslateNexthopInstances_idem (pmap out : Fields) (pkey nkey : String)
    (h : TranslateNexthopInstances pmap pkey nkey = some out) :
    TranslateNexthopInstances out pkey nkey = some out := by
  cases hv : index pmap pkey with
  | arr l =>
    simp only [TranslateNexthopInstances, hv] at h
    cases hl : instancesLoop nkey l with
    | none => simp [hl] at h
    | some p =>
      obtain ⟨insts, insts', rfl, hmap⟩ := instancesLoop_lists nkey l p hl
      have hl2 := hl
      rw [instancesLoop_spec nkey insts insts' hmap, Option.some.injEq] at hl2
      subst hl2
      simp only [hl, Option.some.injEq] at h
      subst h
      rcases lookup_updateParent pmap pkey
          ((insts'.filter (fun i' => !isNil (index i' nkey))).map obj)
          (insts'.any (fun i' => isNil (index i' nkey))) with h1 | h1
      · simp [TranslateNexthopInstances, index_of_lookup_none h1]
      · simp only [TranslateNexthopInstances, index_eq_of_lookup h1,
          instancesLoop_again nkey insts insts' hmap]
        rw [updateParent_fixed _ _ _ h1]
  | null =>
    simp only [TranslateNexthopInstances, hv, Option.some.injEq] at h
    subst h
    simp [TranslateNexthopInstances, hv]
  | nilSlice =>
    simp only [TranslateNexthopInstances, hv, Option.some.injEq] at h
    subst h
    simp [TranslateNexthopInstances, hv]
  | bool b => simp [TranslateNexthopInstances, hv] at h
  | num n => simp [TranslateNexthopInstances, hv] at h
  | str s => simp [TranslateNexthopInstances, hv] at h
  | obj o => simp [TranslateNexthopInstances, hv] at h

theorem deleteIfNil_cases (m : Fields) (k : String) :
    (isNil (index m k) = true ∧ deleteIfNil m k = delete m k ∧
      lookup (deleteIfNil m k) k = none) ∨
    (isNil (index m k) = false ∧ deleteIfNil m k = m) := by
  cases h : isNil (index m k) with
  | true => exact Or.inl ⟨rfl, by simp [deleteIfNil, h], by
      simp [deleteIfNil, h, lookup_delete_self]⟩
  | false => exact Or.inr ⟨rfl, by simp [deleteIfNil, h]⟩

theorem deleteIfNil_of_lookup_none (m : Fields) (k : String) (h : lookup m k = none) :
    deleteIfNil m k = m := by
  simp [deleteIfNil, index_of_lookup_none h, isNil, delete_of_lookup_none m k h]

/-- A translated route is left as it is by a second translation. -/
theorem translateRoute_idem (nkey : String) (r r' : Fields)
    (hn1 : nkey ≠ "next-hop-routing-instance")
    (h : translateRoute nkey r = some r') : translateRoute nkey r' = some r' := by
  obtain ⟨hops, insts, hh, hi, hr'⟩ := translateRoute_unfold nkey r r' h
  -- the keys that the later steps leave alone
  have hframe : ∀ k, k ≠ "next-hop-routing-instance" →
      lookup r' k = lookup (renameInstanceV6 (deleteIfNil hops nkey)) k := by
    intro k hk
    rw [hr', lookup_deleteIfNil_ne _ _ _ hk, TranslateNexthopInstances_frame _ _ _ _ _ hi hk]
  -- the next-hops
  have h1 : TranslateNexthops r' nkey = some r' ∧ deleteIfNil r' nkey = r' := by
    by_cases hn2 : nkey = "next-hop-routing-instance-v6"
    · -- the next-hop key is the key that is renamed: it is gone
      subst hn2
      have hnone : lookup r' "next-hop-routing-instance-v6" = none := by
        rw [hframe _ (by decide)]
        rcases deleteIfNil_cases hops "next-hop-routing-instance-v6" with
          ⟨_, _, hnone⟩ | ⟨hnn, hsame⟩
        · have hnil : isNil (index (deleteIfNil hops "next-hop-routing-instance-v6")
              "next-hop-routing-instance-v6") = true := by
            simp [index_of_lookup_none hnone, isNil]
          unfold renameInstanceV6
          rw [if_pos hnil]
          exact hnone
        · rw [hsame]
          unfold renameInstanceV6
          rw [if_neg (by simp [hnn])]
          exact lookup_delete_self _ _
      exact ⟨by simp [TranslateNexthops, index_of_lookup_none hnone],
        deleteIfNil_of_lookup_none r' _ hnone⟩
    · have hnk : lookup r' nkey = lookup (deleteIfNil hops nkey) nkey := by
        rw [hframe nkey hn1, lookup_renameInstanceV6 _ _ hn1 hn2]
      rcases deleteIfNil_cases hops nkey with ⟨_, _, hnone⟩ | ⟨hnn, hsame⟩
      · rw [hnone] at hnk
        exact ⟨by simp [TranslateNexthops, index_of_lookup_none hnk],
          deleteIfNil_of_lookup_none r' nkey hnk⟩
      · rw [hsame] at hnk
        refine ⟨TranslateNexthops_fixed_of hops r' nkey
          (TranslateNexthops_idem r hops nkey hh) hnk, ?_⟩
        have : isNil (index r' nkey) = false := by
          rw [index_congr hnk]
          exact hnn
        simp [deleteIfNil, this]
  -- the renamed key
  have h2 : renameInstanceV6 r' = r' := by
    have hv6 : isNil (index r' "next-hop-routing-instance-v6") = true := by
      rw [index_congr (hframe _ (by decide))]
      exact isNil_index_renameInstanceV6 _
    unfold renameInstanceV6
    rw [if_pos hv6]
  -- the instances
  have h3 : TranslateNexthopInstances r' "next-hop-routing-instance" nkey = some r' ∧
      deleteIfNil r' "next-hop-routing-instance" = r' := by
    rcases deleteIfNil_cases insts "next-hop-routing-instance" with
      ⟨_, _, hnone⟩ | ⟨hnn, hsame⟩
    · rw [← hr'] at hnone
      exact ⟨by simp [TranslateNexthopInstances, index_of_lookup_none hnone],
        deleteIfNil_of_lookup_none r' _ hnone⟩
    · rw [← hr'] at hsame
      subst hsame
      exact ⟨TranslateNexthopInstances_idem _ r' _ nkey hi, by simp [deleteIfNil, hnn]⟩
  unfold translateRoute
  simp only [h1.1, h1.2, h2, h3.1, h3.2]

theorem routesLoop_lists (nkey : String) (l : List Value) (r : List Value × Bool)
    (h : routesLoop nkey l = some r) :
    ∃ rs rs' : List Fields, l = rs.map obj ∧
      rs.map (translateRoute nkey) = rs'.map some := by
  induction l generalizing r with
  | nil => exact ⟨[], [], rfl, rfl⟩
  | cons x xs ih =>
    cases x with
    | obj m =>
      rw [routesLoop] at h
      cases hx : routesLoop nkey xs with
      | none => simp [hx] at h
      | some p =>
        obtain ⟨rs, rs', rfl, hmap⟩ := ih p hx
        cases ht : translateRoute nkey m with
        | none =>
          obtain ⟨kept, deleted⟩ := p
          simp [hx, ht] at h
        | some t => exact ⟨m :: rs, t :: rs', rfl, by simp [ht, hmap]⟩
    | _ => simp [routesLoop] at h

theorem routesLoop_again (nkey : String) (rs rs' : List Fields)
    (hn1 : nkey ≠ "next-hop-routing-instance")
    (hmap : rs.map (translateRoute nkey) = rs'.map some) :
    routesLoop nkey ((rs'.filter (fun r' => decide (1 < len r'))).map obj) =
      some ((rs'.filter (fun r' => decide (1 < len r'))).map obj, false) := by
  have hall : ∀ x ∈ rs'.filter (fun r' => decide (1 < len r')),
      translateRoute nkey x = some x ∧ 1 < len x := by
    intro x hx
    obtain ⟨hx1, hx2⟩ := List.mem_filter.1 hx
    have : some x ∈ rs.map (translateRoute nkey) := by
      rw [hmap]
      exact List.mem_map_of_mem _ hx1
    obtain ⟨r, _, hr⟩ := List.mem_map.1 this
    exact ⟨translateRoute_idem nkey r x hn1 hr, by simpa using hx2⟩
  have hm : (rs'.filter (fun r' => decide (1 < len r'))).map (translateRoute nkey) =
      (rs'.filter (fun r' => decide (1 < len r'))).map some := by
    apply List.map_congr_left
    intro x hx
    exact (hall x hx).1
  rw [routesLoop_spec nkey _ _ hm]
  have hf : (rs'.filter (fun r' => decide (1 < len r'))).filter
      (fun r' => decide (1 < len r')) = rs'.filter (fun r' => decide (1 < len r')) := by
    rw [List.filter_eq_self]
    intro x hx
    simp [(hall x hx).2]
  have hany : (rs'.filter (fun r' => decide (1 < len r'))).any
      (fun r' => decide (len r' ≤ 1)) = false := by
    rw [List.any_eq_false]
    intro x hx
    have := (hall x hx).2
    simp
    omega
  rw [hf, hany]


/-! ## Claims on a second run of `TranslateRoutes` -/

/-- Counterexample to C32: with `next-hop-routing-instance` as the next-hop key the run
has no failed assertion, and the second run changes the result of the first.  The first
run moves the instance list from `next-hop-routing-instance-v6` to
`next-hop-routing-instance` after it has gone over the next-hops of the route; the second
run finds the list under the next-hop key and renames the `interface-name` of the
instance. -/
theorem C32_counterexample :
    TranslateRoutes [("route", arr [obj exRouteNested])] "route" "next-hop-routing-instance" =
      some [("route", arr [obj [("tagnode", str "10.0.0.0/8"),
        ("next-hop-routing-instance", arr [obj [("interface-name", str "dp0s3"),
          ("next-hop-routing-instance", arr [obj [("tagnode", str "192.0.2.1")]])]])]])] ∧
    TranslateRoutes
        [("route", arr [obj [("tagnode", str "10.0.0.0/8"),
          ("next-hop-routing-instance", arr [obj [("interface-name", str "dp0s3"),
            ("next-hop-routing-instance", arr [obj [("tagnode", str "192.0.2.1")]])]])]])]
        "route" "next-hop-routing-instance" =
      some [("route", arr [obj [("tagnode", str "10.0.0.0/8"),
        ("next-hop-routing-instance", arr [obj [
          ("next-hop-routing-instance", arr [obj [("tagnode", str "192.0.2.1")]]),
          ("tagnode", str "dp0s3")]])]])] ∧
    ([("route", arr [obj [("tagnode", str "10.0.0.0/8"),
        ("next-hop-routing-instance", arr [obj [
          ("next-hop-routing-instance", arr [obj [("tagnode", str "192.0.2.1")]]),
          ("tagnode", str "dp0s3")]])]])] : Fields) ≠
      [("route", arr [obj [("tagnode", str "10.0.0.0/8"),
        ("next-hop-routing-instance", arr [obj [("interface-name", str "dp0s3"),
          ("next-hop-routing-instance", arr [obj [("tagnode", str "192.0.2.1")]])]])]])] := by
  decide

/-- Claim C32, amended. For every parent map, collection key and next-hop key other than
`next-hop-routing-instance`: when `TranslateRoutes` runs without a failed assertion, a
second run on its result has no failed assertion either and leaves the result as it
is. -/
theorem C32_second_run_changes_nothing (pmap out : Fields) (pkey nkey : String)
    (hn1 : nkey ≠ "next-hop-routing-instance")
    (h : TranslateRoutes pmap pkey nkey = some out) :
    TranslateRoutes out pkey nkey = some out := by
  cases hv : index pmap pkey with
  | arr l =>
    simp only [TranslateRoutes, hv] at h
    cases hl : routesLoop nkey l with
    | none => simp [hl] at h
    | some p =>
      obtain ⟨rs, rs', rfl, hmap⟩ := routesLoop_lists nkey l p hl
      have hl2 := hl
      rw [routesLoop_spec nkey rs rs' hmap, Option.some.injEq] at hl2
      subst hl2
      simp only [hl, Option.some.injEq] at h
      subst h
      rcases lookup_updateParent pmap pkey
          ((rs'.filter (fun r' => decide (1 < len r'))).map obj)
          (rs'.any (fun r' => decide (len r' ≤ 1))) with h1 | h1
      · simp [TranslateRoutes, index_of_lookup_none h1]
      · simp only [TranslateRoutes, index_eq_of_lookup h1,
          routesLoop_again nkey rs rs' hn1 hmap]
        rw [updateParent_fixed _ _ _ h1]
  | null =>
    simp only [TranslateRoutes, hv, Option.some.injEq] at h
    subst h
    simp [TranslateRoutes, hv]
  | nilSlice =>
    simp only [TranslateRoutes, hv, Option.some.injEq] at h
    subst h
    simp [TranslateRoutes, hv]
  | bool b => simp [TranslateRoutes, hv] at h
  | num n => simp [TranslateRoutes, hv] at h
  | str s => simp [TranslateRoutes, hv] at h
  | obj o => simp [TranslateRoutes, hv] at h

/-- Witness of C32 (amended) on the collection of the two routes `exRouteA`, `exRouteB`. -/
theorem C32_second_run_changes_nothing_witness :
    TranslateRoutes exStatic "route" "next-hop" = some [("route", arr [obj exRouteA'])] ∧
    TranslateRoutes [("route", arr [obj exRouteA'])] "route" "next-hop" =
      some [("route", arr [obj exRouteA'])] :=
  ⟨by decide, C32_second_run_changes_nothing exStatic [("route", arr [obj exRouteA'])] "route"
    "next-hop" (by decide) (by decide)⟩

/-! ## The release of the tables that are gone -/

/-- Claim C9, amended. In a call of `TranslateTables` in which the lookup succeeds for every
table of the current tree (both table collections being slices of maps whose routes
translate), a release command is run for every table tag that occurs in the previous
table collection and not in the current one.  The table collection of the current tree
holds afterwards, position by position, the entries it held, none of which had that tag:
each is as it was or is rewritten, with the identifier allocated to its own tag under
`tagnode`. -/
theorem C9_removed_table_released (sprint : Value → String)
    (gv : String → String → Option String) (pf : String → Option Int)
    (order : GoMap Nat → GoMap Nat) (horder : ∀ m, (order m).Perm m)
    (pmap old_pmap : Fields) (key ri : String) (tbls olds : List Fields) (table_id : String)
    (hcur : tableSlice pmap key = some (tbls.map obj))
    (hold : tableSlice old_pmap key = some (olds.map obj))
    (hprev : ∃ e ∈ olds, sprint (index e "tagnode") = table_id)
    (hnow : ∀ e ∈ tbls, sprint (index e "tagnode") ≠ table_id)
    (hlookups : ∀ e ∈ tbls, (gv ri (sprint (index e "tagnode"))).bind pf ≠ none)
    (hroutes : ∀ e ∈ tbls, ∀ id, translateTableRoutes (store e "tagnode" (num id)) ≠ none) :
    ∃ (out : Fields) (requests : List Request),
      TranslateTables sprint gv pf order pmap old_pmap key ri = some (out, requests) ∧
      Request.delTable ri table_id ∈ requests ∧
      ∃ translated : List Value,
        tableSlice out key = some translated ∧ translated.length = tbls.length ∧
        ∀ (j : Nat) (e : Fields), tbls[j]? = some e →
          sprint (index e "tagnode") ≠ table_id ∧
          ∃ e' : Fields, translated[j]? = some (obj e') ∧
            (e' = e ∨ ∃ o id, gv ri (sprint (index e "tagnode")) = some o ∧ pf o = some id ∧
              translateTableRoutes (store e "tagnode" (num id)) = some e' ∧
              lookup e' "tagnode" = some (num id)) := by
  obtain ⟨out, requests, hrun⟩ := TranslateTables_total sprint gv pf order horder pmap
    old_pmap key ri tbls olds hcur hold hlookups hroutes
  obtain ⟨hdel, translated, hslice, hlen, _⟩ := TranslateTables_release_of_run sprint gv pf
    order horder pmap old_pmap key ri (tbls.map obj) (olds.map obj) table_id out requests
    hcur hold
    (by
      obtain ⟨e, he, hk⟩ := hprev
      exact ⟨e, List.mem_map_of_mem _ he, hk⟩)
    (by
      intro e he
      exact hnow e (by simpa using he))
    (by
      intro e he
      exact hlookups e (by simpa using he))
    hrun
  refine ⟨out, requests, hrun, hdel, translated, hslice, by simpa using hlen, ?_⟩
  intro j e hj
  refine ⟨hnow e (List.getElem?_mem hj), ?_⟩
  have hp : index pmap key = arr (tbls.map obj) := by
    have hne : tbls ≠ [] := by
      intro h
      rw [h] at hj
      simp at hj
    unfold tableSlice at hcur
    split at hcur
    · simp only [Option.some.injEq] at hcur
      exact absurd (List.map_eq_nil_iff.1 hcur.symm) hne
    · cases hv : index pmap key <;> rw [hv] at hcur <;> simp [asSlice] at hcur
      · exact absurd hcur hne
      · rw [hcur]
  obtain ⟨tbls', _, _, _, _, _, _, _, hidx, _, _, _, hat⟩ := TranslateTables_positions sprint gv pf
    order horder pmap old_pmap key ri tbls out requests hp hlookups hrun
  rw [tableSlice_arr out key _ hidx, Option.some.injEq] at hslice
  subst hslice
  rcases hat j e hj with ⟨h, _⟩ | ⟨o, id, t', _, hg, hpf, ht, h⟩
  · exact ⟨e, by simp [List.getElem?_map, h], Or.inl rfl⟩
  · exact ⟨t', by simp [List.getElem?_map, h], Or.inr ⟨o, id, hg, hpf, ht, by
      rw [translateTableRoutes_tagnode _ _ ht, lookup_store_self]⟩⟩

/-- Witness of C9 (amended): current table `1`, previous tables `1` and `5`; the release
command for `5` is run. -/
theorem C9_removed_table_released_witness :
    ∃ (out : Fields) (requests : List Request),
      TranslateTables sprintSmall exGetvrftable exParseFloat id
        [("table", arr [obj [("tagnode", num 1)]])] exTables15 "table" "default" =
          some (out, requests) ∧
      Request.delTable "default" "5" ∈ requests ∧
      ∃ translated : List Value,
        tableSlice out "table" = some translated ∧
        translated.length = [[("tagnode", num 1)]].length ∧
        ∀ (j : Nat) (e : Fields), ([[("tagnode", num 1)]] : List Fields)[j]? = some e →
          sprintSmall (index e "tagnode") ≠ "5" ∧
          ∃ e' : Fields, translated[j]? = some (obj e') ∧
            (e' = e ∨ ∃ o id, exGetvrftable "default" (sprintSmall (index e "tagnode")) = some o ∧
              exParseFloat o = some id ∧
              translateTableRoutes (store e "tagnode" (num id)) = some e' ∧
              lookup e' "tagnode" = some (num id)) :=
  C9_removed_table_released sprintSmall exGetvrftable exParseFloat id
    (fun m => List.Perm.refl m) [("table", arr [obj [("tagnode", num 1)]])] exTables15
    "table" "default" [[("tagnode", num 1)]] [[("tagnode", num 1)], [("tagnode", num 5)]] "5"
    (by decide) (by decide) (by decide) (by decide) (by decide)
    (by
      intro e he id
      simp only [List.mem_singleton] at he
      subst he
      rw [exTableBare_routes]
      simp)

/-! ## What `Translate` does for one routing instance -/

theorem translateStaticRoutes_frame (m m' : Fields) (k : String)
    (h : translateStaticRoutes m = some m') (hk1 : k ≠ "interface-route")
    (hk2 : k ≠ "interface-route6") (hk3 : k ≠ "route") (hk4 : k ≠ "route6") :
    lookup m' k = lookup m k := by
  unfold translateStaticRoutes at h
  cases h1 : TranslateRoutes m "interface-route" "next-hop-interface" with
  | none => simp [h1] at h
  | some m1 =>
    cases h2 : TranslateRoutes m1 "interface-route6" "next-hop-interface" with
    | none => simp [h1, h2] at h
    | some m2 =>
      cases h3 : TranslateRoutes m2 "route" "next-hop" with
      | none => simp [h1, h2, h3] at h
      | some m3 =>
        simp only [h1, h2, h3, Option.some_bind] at h
        rw [TranslateRoutes_frame _ _ _ _ _ h hk4, TranslateRoutes_frame _ _ _ _ _ h3 hk3,
          TranslateRoutes_frame _ _ _ _ _ h2 hk2, TranslateRoutes_frame _ _ _ _ _ h1 hk1]

/-- The run of `TranslateProtocols` on a `protocols` map that holds a `static` map, taken
apart. -/
theorem TranslateProtocols_static (sprint : Value → String)
    (gv : String → String → Option String) (pf : String → Option Int)
    (order : GoMap Nat → GoMap Nat) (proto static : Fields) (old_proto_if : Value)
    (ri : String) (protocols : Value) (asked : List Request)
    (hs : index proto "static" = obj static)
    (h : TranslateProtocols sprint gv pf order (obj proto) old_proto_if ri =
      some (protocols, asked)) :
    ∃ old_proto old_static routed translated,
      mapOrMake old_proto_if = some old_proto ∧
      mapOrMake (index old_proto "static") = some old_static ∧
      translateStaticRoutes static = some routed ∧
      TranslateTables sprint gv pf order routed old_static "table" ri =
        some (translated, asked) ∧
      protocols = obj (store proto "static" (obj translated)) := by
  have hn : ∀ m : Fields, isNil (obj m) = false := fun _ => rfl
  have hm : ∀ m : Fields, mapOrMake (obj m) = some m := fun _ => rfl
  unfold TranslateProtocols at h
  simp only [hn, Bool.false_and, Bool.false_eq_true, if_false, hm] at h
  cases ho : mapOrMake old_proto_if with
  | none => simp [ho] at h
  | some old_proto =>
    simp only [ho, hs, hn, Bool.false_and, Bool.false_eq_true, if_false, hm] at h
    cases hos : mapOrMake (index old_proto "static") with
    | none => simp [hos] at h
    | some old_static =>
      simp only [hos] at h
      cases hr : translateStaticRoutes static with
      | none => simp [hr] at h
      | some routed =>
        simp only [hr] at h
        cases ht : TranslateTables sprint gv pf order routed old_static "table" ri with
        | none => simp [ht] at h
        | some res =>
          obtain ⟨translated, requests⟩ := res
          simp only [ht, Option.some.injEq, Prod.mk.injEq] at h
          refine ⟨old_proto, old_static, routed, translated, rfl, hos, rfl, ?_, ?_⟩
          · rw [← h.2]
            exact ht
          · rw [← h.1]
            simp [protocolsAfter, rewritten, hs]

/-- What `TranslateProtocols` does for one routing instance whose `protocols` holds a
`static` map with a table collection, when the tags are distinct and every lookup for
the instance succeeds: the tables carry the identifiers returned for them, and the tables
that only the previous `static` map holds are released. -/
theorem TranslateProtocols_tables (sprint : Value → String)
    (gv : String → String → Option String) (pf : String → Option Int)
    (order : GoMap Nat → GoMap Nat) (horder : ∀ m, (order m).Perm m)
    (proto static : Fields) (tbls : List Fields) (old_proto_if : Value) (ri : String)
    (protocols : Value) (asked : List Request)
    (hs : index proto "static" = obj static)
    (ht : index static "table" = arr (tbls.map obj))
    (hdistinct : (tbls.map (fun t => sprint (index t "tagnode"))).Nodup)
    (hlookups : ∀ t ∈ tbls, (gv ri (sprint (index t "tagnode"))).bind pf ≠ none)
    (h : TranslateProtocols sprint gv pf order (obj proto) old_proto_if ri =
      some (protocols, asked)) :
    (∃ (static1 : Fields) (tbls1 : List Fields),
      protocols = obj (store proto "static" (obj static1)) ∧
      index static1 "table" = arr (tbls1.map obj) ∧ tbls1.length = tbls.length ∧
      ∀ (j : Nat) (hj : j < tbls.length) (hj' : j < tbls1.length), ∃ o id,
        gv ri (sprint (index tbls[j] "tagnode")) = some o ∧ pf o = some id ∧
        lookup tbls1[j] "tagnode" = some (num id)) ∧
    ∀ (oproto ostatic : Fields) (otbls : List Fields) (table_id : String),
      old_proto_if = obj oproto → index oproto "static" = obj ostatic →
      index ostatic "table" = arr (otbls.map obj) →
      (∃ t ∈ otbls, sprint (index t "tagnode") = table_id) →
      (∀ t ∈ tbls, sprint (index t "tagnode") ≠ table_id) →
      Request.delTable ri table_id ∈ asked := by
  obtain ⟨old_proto, old_static, routed, translated, ho, hos, hr, hrun, hp⟩ :=
    TranslateProtocols_static sprint gv pf order proto static old_proto_if ri protocols asked
      hs h
  have hrt : index routed "table" = arr (tbls.map obj) := by
    rw [← ht]
    simp only [index, translateStaticRoutes_frame static routed "table" hr (by decide)
      (by decide) (by decide) (by decide)]
  constructor
  · obtain ⟨tbls1, h1, h2, h3⟩ := TranslateTables_tagnode_of_run sprint gv pf order horder
      routed old_static "table" ri tbls translated asked hrt hdistinct hlookups hrun
    exact ⟨translated, tbls1, hp, h1, h2, h3⟩
  · intro oproto ostatic otbls table_id hop hoss hot hprev hnow
    subst hop
    simp only [mapOrMake, Option.some.injEq] at ho
    subst ho
    rw [hoss] at hos
    simp only [mapOrMake, Option.some.injEq] at hos
    subst hos
    exact (TranslateTables_release_of_run sprint gv pf order horder routed ostatic "table" ri
      (tbls.map obj) (otbls.map obj) table_id translated asked
      (tableSlice_arr _ _ _ hrt) (tableSlice_arr _ _ _ hot)
      (by
        obtain ⟨t, htm, hk⟩ := hprev
        exact ⟨t, List.mem_map_of_mem _ htm, hk⟩)
      (by
        intro e he
        exact hnow e (by simpa using he))
      (by
        intro e he
        exact hlookups e (by simpa using he))
      hrun).1

theorem lookup_of_mem_nodup {α : Type} (m : GoMap α) (k : String) (v : α)
    (hnd : (m.map Prod.fst).Nodup) (h : (k, v) ∈ m) : lookup m k = some v := by
  induction m with
  | nil => simp at h
  | cons p m ih =>
    obtain ⟨k0, v0⟩ := p
    simp only [List.map_cons, List.nodup_cons] at hnd
    rcases List.mem_cons.1 h with heq | hmem
    · simp only [Prod.mk.injEq] at heq
      obtain ⟨rfl, rfl⟩ := heq
      simp [lookup]
    · have hne : k0 ≠ k := by
        intro h0
        subst h0
        exact hnd.1 (List.mem_map.2 ⟨(k0, v), hmem, rfl⟩)
      simp only [lookup, hne, if_false]
      exact ih hnd.2 hmem

/-- With pairwise distinct names, every entry is bound by `MapByKey` at its position. -/
theorem MapByKey_bound (sprint : Value → String) (kn : String) (es : List Fields)
    (m : GoMap Nat) (hnd : (es.map (fun e => sprint (index e kn))).Nodup)
    (h : MapByKey sprint (es.map obj) kn = some m) (i : Nat) (e : Fields)
    (he : es[i]? = some e) :
    (sprint (index e kn), i) ∈ m ∧ lookup m (sprint (index e kn)) = some i := by
  obtain ⟨_, _, hfst, _, _, _⟩ := MapByKey_spec sprint kn _ m h
  rw [MapByKey_distinct sprint kn es hnd, Option.some.injEq] at h
  obtain ⟨hi, hei⟩ := List.getElem?_eq_some_iff.1 he
  have hmem : (sprint (index e kn), i) ∈ m := by
    rw [← h]
    apply List.mem_iff_getElem.2
    refine ⟨i, by simpa using hi, ?_⟩
    simp [List.getElem_zip, List.getElem_range', hei]
  exact ⟨hmem, lookup_of_mem_nodup m _ _ hfst hmem⟩

/-- The first loop of `TranslateRouting`, binding by binding: the entry at a bound
position is rewritten by `TranslateProtocols`, run with the `protocols` of the entry of
the previous tree that has the same name; the commands of that run are among the
commands of the loop; and the other positions are as they were. -/
theorem routingLoop_visit (sprint : Value → String) (gv : String → String → Option String)
    (pf : String → Option Int) (order : GoMap Nat → GoMap Nat) (old_ri_arr : List Value)
    (old_ri_map : GoMap Nat) (todo : List (String × Nat)) (ri_arr : List Value)
    (requests : List Request) (res : List Value × List Request)
    (hnd : (todo.map Prod.snd).Nodup)
    (h : routingLoop sprint gv pf order old_ri_arr old_ri_map todo ri_arr requests =
      some res) :
    res.1.length = ri_arr.length ∧ (∀ r ∈ requests, r ∈ res.2) ∧
    (∀ j, j ∉ todo.map Prod.snd → res.1[j]? = ri_arr[j]?) ∧
    ∀ key i, (key, i) ∈ todo → ∃ em protocols asked, ri_arr[i]? = some (obj em) ∧
      TranslateProtocols sprint gv pf order (index em "protocols")
        (index (oldEntry old_ri_arr old_ri_map key) "protocols") key =
          some (protocols, asked) ∧
      res.1[i]? = some (obj (rewritten em "protocols" protocols)) ∧
      ∀ r ∈ asked, r ∈ res.2 := by
  induction todo generalizing ri_arr requests with
  | nil =>
    simp only [routingLoop, Option.some.injEq] at h
    subst h
    exact ⟨rfl, fun _ hr => hr, fun _ _ => rfl, by simp⟩
  | cons p todo ih =>
    obtain ⟨key0, i0⟩ := p
    simp only [List.map_cons, List.nodup_cons] at hnd
    obtain ⟨em0, prot0, asked0, hi0, htp0, hrest⟩ := routingLoop_cons_some sprint gv pf order
      old_ri_arr old_ri_map key0 i0 todo ri_arr requests res h
    have hlt : i0 < ri_arr.length := (List.getElem?_eq_some_iff.1 hi0).1
    obtain ⟨hlen, hsub, hkeep, hvis⟩ := ih _ _ hnd.2 hrest
    refine ⟨by simpa using hlen, fun r hr => hsub r (List.mem_append_left _ hr), ?_, ?_⟩
    · intro j hj
      simp only [List.map_cons, List.mem_cons, not_or] at hj
      rw [hkeep j hj.2, List.getElem?_set_ne (Ne.symm hj.1)]
    · intro key i hmem
      rcases List.mem_cons.1 hmem with heq | hmem'
      · simp only [Prod.mk.injEq] at heq
        obtain ⟨rfl, rfl⟩ := heq
        refine ⟨em0, prot0, asked0, hi0, htp0, ?_,
          fun r hr => hsub r (List.mem_append_right _ hr)⟩
        rw [hkeep i hnd.1, List.getElem?_set_self hlt]
      · have hne : i0 ≠ i := by
          intro h0
          subst h0
          exact hnd.1 (List.mem_map.2 ⟨(key, i0), hmem', rfl⟩)
        obtain ⟨em, prot, asked, hi, htp, hres, hin⟩ := hvis key i hmem'
        rw [List.getElem?_set_ne hne] at hi
        exact ⟨em, prot, asked, hi, htp, hres, hin⟩

/-- With pairwise distinct names in the previous collection, the entry that the first loop
of `TranslateRouting` reads for a name is the entry of that name. -/
theorem oldEntry_of_mem (sprint : Value → String) (olds : List Fields) (old_ri_map : GoMap Nat)
    (oe : Fields) (hnd : (olds.map (fun e => sprint (index e "instance-name"))).Nodup)
    (h : MapByKey sprint (olds.map obj) "instance-name" = some old_ri_map) (hoe : oe ∈ olds) :
    oldEntry (olds.map obj) old_ri_map (sprint (index oe "instance-name")) = oe := by
  obtain ⟨j, hj, hje⟩ := List.mem_iff_getElem.1 hoe
  have hj' : olds[j]? = some oe := by
    rw [List.getElem?_eq_getElem hj, hje]
  have hl := (MapByKey_bound sprint "instance-name" olds old_ri_map hnd h j oe hj').2
  simp [oldEntry, hl, List.getElem?_map, hj']

/-- What `TranslateRouting` does for one entry of the routing-instance collection, the
names of the collection being pairwise distinct. -/
theorem TranslateRouting_instance (sprint : Value → String)
    (gv : String → String → Option String) (pf : String → Option Int)
    (order : GoMap Nat → GoMap Nat) (horder : ∀ m, (order m).Perm m)
    (routing_map : Fields) (old_routing_if routing : Value) (released : List Request)
    (ris : List Fields) (i : Nat) (e : Fields)
    (hris : index routing_map "routing-instance" = arr (ris.map obj))
    (hnames : (ris.map (fun e => sprint (index e "instance-name"))).Nodup)
    (he : ris[i]? = some e)
    (h : TranslateRouting sprint gv pf order (obj routing_map) old_routing_if =
      some (routing, released)) :
    ∃ old_routing_map old_ri_arr old_ri_map ris1 protocols asked,
      mapOrMake old_routing_if = some old_routing_map ∧
      tableSlice old_routing_map "routing-instance" = some old_ri_arr ∧
      MapByKey sprint old_ri_arr "instance-name" = some old_ri_map ∧
      routing = obj (store routing_map "routing-instance" (arr ris1)) ∧
      ris1.length = ris.length ∧
      TranslateProtocols sprint gv pf order (index e "protocols")
        (index (oldEntry old_ri_arr old_ri_map (sprint (index e "instance-name")))
          "protocols") (sprint (index e "instance-name")) = some (protocols, asked) ∧
      ris1[i]? = some (obj (rewritten e "protocols" protocols)) ∧
      ∀ r ∈ asked, r ∈ released := by
  have hnn0 : (isNil (obj routing_map) && isNil old_routing_if) = false := by
    simp [isNil]
  have hcur : mapOrMake (obj routing_map) = some routing_map := rfl
  cases hold : mapOrMake old_routing_if with
  | none => simp [TranslateRouting, hnn0, hold] at h
  | some old_routing_map =>
    have hnn : (isNil (index routing_map "routing-instance") &&
        isNil (index old_routing_map "routing-instance")) = false := by
      simp [hris, isNil]
    obtain ⟨ri_arr, old_ri_arr, ri_map, old_ri_map, translated, requests, h1, h2, h3, h4, h5,
      h6, hout⟩ := TranslateRouting_run sprint gv pf order _ old_routing_if routing_map
        old_routing_map routing released hnn0 hcur hold hnn h
    rw [tableSlice_arr _ _ _ hris, Option.some.injEq] at h1
    subst h1
    obtain ⟨_, _, _, hsnd, _, _⟩ := MapByKey_spec sprint "instance-name" _ ri_map h3
    have hmem := (MapByKey_bound sprint "instance-name" ris ri_map hnames h3 i e he).1
    obtain ⟨hlen, _, _, hvis⟩ := routingLoop_visit sprint gv pf order old_ri_arr old_ri_map
      (order ri_map) (ris.map obj) [] (translated, requests)
      (((horder ri_map).map Prod.snd).nodup_iff.2 hsnd) h5
    obtain ⟨em, protocols, asked, hi, htp, hres, hin⟩ :=
      hvis _ i ((horder ri_map).mem_iff.2 hmem)
    have hem : em = e := by
      simpa [List.getElem?_map, he] using hi.symm
    subst hem
    refine ⟨old_routing_map, old_ri_arr, old_ri_map, translated, protocols, asked, rfl, h2,
      h4, ?_, by simpa using hlen, htp, hres, ?_⟩
    · rw [hout]
      simp [routingAfter, tablesParent, hris]
    · intro r hr
      exact (routingOldLoop_mem sprint gv pf order ri_map old_ri_arr _ _ _ h6).1 r (hin r hr)

/-! ## A lookup failure for one routing instance and the other instances -/

/-- Claim C17. Run `Translate` with an allocator `gv` whose lookups for the routing
instance `ri0` may fail, and let the run return.  Every instance whose own lookups
succeed is reconciled, whatever the lookups for the other instances return.  For the
default instance, with a table collection of pairwise distinct tags under `protocols`,
`static`, `table`: afterwards the collection holds as many tables, the `j`-th with the
identifier returned for the default instance and its tag under `tagnode`, and a release
command has been run for every tag that the previous tree's collection holds and the
current one does not.  For the entry at position `i` of the routing-instance collection
(the names of the collection being pairwise distinct): the same, with the name of the
entry, the entry of the same name in the previous tree, and the entry at position `i`
afterwards.  And it is reconciled exactly as in a run with an allocator `gv'` that agrees
with `gv` for every instance but `ri0`: the commands run for the instances other than
`ri0` are the same, in the same order; when `ri0` is not the default instance the
`protocols` of the tree is the same after both runs; and every entry of the
routing-instance collection whose name is not `ri0` is the same after both runs. -/
theorem C17_failure_confined (sprint : Value → String)
    (gv gv' : String → String → Option String) (pf : String → Option Int)
    (order : GoMap Nat → GoMap Nat) (horder : ∀ m, (order m).Perm m) (ri0 : String)
    (frontend_map old_frontend_map out out' : Fields) (requests requests' : List Request)
    (hagree : ∀ ri, ri ≠ ri0 → ∀ k, gv ri k = gv' ri k)
    (hrun : Translate sprint gv pf order frontend_map old_frontend_map = some (out, requests))
    (hrun' : Translate sprint gv' pf order frontend_map old_frontend_map =
      some (out', requests')) :
    (requests.filter (fun r => decide (r.ri ≠ ri0)) =
        requests'.filter (fun r => decide (r.ri ≠ ri0)) ∧
      (ri0 ≠ "default" → index out "protocols" = index out' "protocols") ∧
      ∀ routing_map ris, index frontend_map "routing" = obj routing_map →
        index routing_map "routing-instance" = arr ris →
        ∃ ris1 ris1' : List Value,
          index out "routing" = obj (store routing_map "routing-instance" (arr ris1)) ∧
          index out' "routing" = obj (store routing_map "routing-instance" (arr ris1')) ∧
          ris1.length = ris.length ∧ ris1'.length = ris.length ∧
          ∀ (j : Nat) (e : Fields), ris[j]? = some (obj e) →
            sprint (index e "instance-name") ≠ ri0 → ris1[j]? = ris1'[j]?) ∧
    (∀ (proto static : Fields) (tbls : List Fields),
      index frontend_map "protocols" = obj proto → index proto "static" = obj static →
      index static "table" = arr (tbls.map obj) →
      (tbls.map (fun t => sprint (index t "tagnode"))).Nodup →
      (∀ t ∈ tbls, (gv "default" (sprint (index t "tagnode"))).bind pf ≠ none) →
      (∃ (static1 : Fields) (tbls1 : List Fields),
        index out "protocols" = obj (store proto "static" (obj static1)) ∧
        index static1 "table" = arr (tbls1.map obj) ∧ tbls1.length = tbls.length ∧
        ∀ (j : Nat) (hj : j < tbls.length) (hj' : j < tbls1.length), ∃ o id,
          gv "default" (sprint (index tbls[j] "tagnode")) = some o ∧ pf o = some id ∧
          lookup tbls1[j] "tagnode" = some (num id)) ∧
      ∀ (oproto ostatic : Fields) (otbls : List Fields) (table_id : String),
        index old_frontend_map "protocols" = obj oproto →
        index oproto "static" = obj ostatic →
        index ostatic "table" = arr (otbls.map obj) →
        (∃ t ∈ otbls, sprint (index t "tagnode") = table_id) →
        (∀ t ∈ tbls, sprint (index t "tagnode") ≠ table_id) →
        Request.delTable "default" table_id ∈ requests) ∧
    ∀ (routing_map : Fields) (ris : List Fields) (i : Nat) (e proto static : Fields)
      (tbls : List Fields),
      index frontend_map "routing" = obj routing_map →
      index routing_map "routing-instance" = arr (ris.map obj) →
      (ris.map (fun x => sprint (index x "instance-name"))).Nodup →
      ris[i]? = some e →
      index e "protocols" = obj proto → index proto "static" = obj static →
      index static "table" = arr (tbls.map obj) →
      (tbls.map (fun t => sprint (index t "tagnode"))).Nodup →
      (∀ t ∈ tbls,
        (gv (sprint (index e "instance-name")) (sprint (index t "tagnode"))).bind pf ≠ none) →
      (∃ (ris1 : List Value) (static1 : Fields) (tbls1 : List Fields),
        index out "routing" = obj (store routing_map "routing-instance" (arr ris1)) ∧
        ris1.length = ris.length ∧
        ris1[i]? =
          some (obj (store e "protocols" (obj (store proto "static" (obj static1))))) ∧
        index static1 "table" = arr (tbls1.map obj) ∧ tbls1.length = tbls.length ∧
        ∀ (j : Nat) (hj : j < tbls.length) (hj' : j < tbls1.length), ∃ o id,
          gv (sprint (index e "instance-name")) (sprint (index tbls[j] "tagnode")) = some o ∧
          pf o = some id ∧ lookup tbls1[j] "tagnode" = some (num id)) ∧
      ∀ (old_routing_map : Fields) (olds : List Fields) (oe oproto ostatic : Fields)
        (otbls : List Fields) (table_id : String),
        index old_frontend_map "routing" = obj old_routing_map →
        index old_routing_map "routing-instance" = arr (olds.map obj) →
        (olds.map (fun x => sprint (index x "instance-name"))).Nodup →
        oe ∈ olds →
        sprint (index oe "instance-name") = sprint (index e "instance-name") →
        index oe "protocols" = obj oproto → index oproto "static" = obj ostatic →
        index ostatic "table" = arr (otbls.map obj) →
        (∃ t ∈ otbls, sprint (index t "tagnode") = table_id) →
        (∀ t ∈ tbls, sprint (index t "tagnode") ≠ table_id) →
        Request.delTable (sprint (index e "instance-name")) table_id ∈ requests := by
  obtain ⟨protocols, asked, routing, released, hp, hr, hout, hreq⟩ :=
    Translate_run sprint gv pf order frontend_map old_frontend_map out requests hrun
  obtain ⟨protocols', asked', routing', released', hp', hr', hout', hreq'⟩ :=
    Translate_run sprint gv' pf order frontend_map old_frontend_map out' requests' hrun'
  obtain ⟨hfilter, hrouting⟩ := TranslateRouting_agree sprint gv gv' pf order horder ri0
    hagree _ _ routing routing' released released' hr hr'
  refine ⟨⟨?_, ?_, ?_⟩, ?_, ?_⟩
  · rw [hreq, hreq', List.filter_append, List.filter_append, hfilter]
    by_cases hd : "default" = ri0
    · subst hd
      rw [filter_ri_eq_nil "default" asked (TranslateProtocols_ri sprint gv pf order _ _ _ _
          _ hp),
        filter_ri_eq_nil "default" asked' (TranslateProtocols_ri sprint gv' pf order _ _ _ _
          _ hp')]
    · have hp2 := hp
      rw [TranslateProtocols_congr sprint gv gv' pf order _ _ "default"
        (hagree "default" hd), hp', Option.some.injEq, Prod.mk.injEq] at hp2
      rw [hp2.2]
  · intro hd
    have hp2 := hp
    rw [TranslateProtocols_congr sprint gv gv' pf order _ _ "default"
      (hagree "default" (Ne.symm hd)), hp', Option.some.injEq, Prod.mk.injEq] at hp2
    rw [hout, hout', index_rewritten_ne _ "routing" "protocols" routing (by decide),
      index_rewritten_ne _ "routing" "protocols" routing' (by decide)]
    cases hfp : index frontend_map "protocols" <;>
      simp [rewritten, hfp, index_store_self, hp2.1]
  · intro routing_map ris hrm hris
    obtain ⟨ris1, ris1', h1, h1', hl, hl', hpos⟩ := hrouting routing_map ris hrm hris
    refine ⟨ris1, ris1', ?_, ?_, hl, hl', hpos⟩
    · rw [hout, index_rewritten_self _ routing_map _ _ (by
        rw [index_rewritten_ne _ _ _ _ (by decide)]
        exact hrm), h1]
    · rw [hout', index_rewritten_self _ routing_map _ _ (by
        rw [index_rewritten_ne _ _ _ _ (by decide)]
        exact hrm), h1']
  · intro proto static tbls hfp hs ht hdistinct hlookups
    rw [hfp] at hp
    obtain ⟨⟨static1, tbls1, hprot, h1, h2, h3⟩, hrel⟩ := TranslateProtocols_tables sprint gv
      pf order horder proto static tbls _ "default" protocols asked hs ht hdistinct hlookups
      hp
    refine ⟨⟨static1, tbls1, ?_, h1, h2, h3⟩, ?_⟩
    · rw [hout, index_rewritten_ne _ "routing" "protocols" routing (by decide),
        index_rewritten_self _ proto _ _ hfp, hprot]
    · intro oproto ostatic otbls table_id hop hos hot hprev hnow
      rw [hreq]
      exact List.mem_append_left _ (hrel oproto ostatic otbls table_id hop hos hot hprev hnow)
  · intro routing_map ris i e proto static tbls hrm hris hnames he hep hs ht hdistinct
      hlookups
    rw [hrm] at hr
    obtain ⟨old_routing_map, old_ri_arr, old_ri_map, ris1, prot, asked1, hom, hos, hmap, hrt,
      hlen, htp, hres, hin⟩ := TranslateRouting_instance sprint gv pf order horder routing_map
        _ routing released ris i e hris hnames he hr
    rw [hep] at htp
    obtain ⟨⟨static1, tbls1, hprot, h1, h2, h3⟩, hrel⟩ := TranslateProtocols_tables sprint gv
      pf order horder proto static tbls _ _ prot asked1 hs ht hdistinct hlookups htp
    refine ⟨⟨ris1, static1, tbls1, ?_, hlen, ?_, h1, h2, h3⟩, ?_⟩
    · rw [hout, index_rewritten_self _ routing_map _ _ (by
        rw [index_rewritten_ne _ _ _ _ (by decide)]
        exact hrm), hrt]
    · rw [hres, hprot]
      simp [rewritten, hep]
    · intro old_routing_map' olds oe oproto ostatic otbls table_id hor holds hon hoe hname
        hop hoss hot hprev hnow
      rw [hor] at hom
      simp only [mapOrMake, Option.some.injEq] at hom
      subst hom
      rw [tableSlice_arr _ _ _ holds, Option.some.injEq] at hos
      subst hos
      have hentry := oldEntry_of_mem sprint olds old_ri_map oe hon hmap hoe
      rw [hname] at hentry
      rw [hreq]
      apply List.mem_append_right
      apply hin
      exact hrel oproto ostatic otbls table_id (by rw [hentry, hop]) hoss hot hprev hnow

/-- Witness of C17: the default instance and the instances `red` and `blue` each have a
table, and each had another table in the previous tree.  Every lookup for `red` fails:
the table of `red` is not rewritten and its table `3` is not released.  The table of
`blue`, which comes after `red`, carries its identifier 103 afterwards and the table `1`
of `blue` is released; the table `5` of the default instance is released. -/
theorem C17_failure_confined_witness :
    (exRedFails "red" "1").bind exParseFloat = none ∧
    Translate sprintSmall exRedFails exParseFloat id exTreeRedBlue exTreeRedBlueOld =
      some (exTreeRedBlueAfter 1, exRequestsRedBlue []) ∧
    Translate sprintSmall exGetvrftable exParseFloat id exTreeRedBlue exTreeRedBlueOld =
      some (exTreeRedBlueAfter 101, exRequestsRedBlue [Request.delTable "red" "3"]) ∧
    (∃ (ris1 : List Value) (static1 : Fields) (tbls1 : List Fields),
      index (exTreeRedBlueAfter 1) "routing" =
        obj (store [("routing-instance",
          arr ([exInstance "red" [1], exInstance "blue" [3]].map obj))]
          "routing-instance" (arr ris1)) ∧
      ris1.length = [exInstance "red" [1], exInstance "blue" [3]].length ∧
      ris1[1]? =
        some (obj (store (exInstance "blue" [3]) "protocols"
          (obj (store [("static", obj (exStaticTables [3]))] "static" (obj static1))))) ∧
      index static1 "table" = arr (tbls1.map obj) ∧ tbls1.length = [exTable 3].length ∧
      ∀ (j : Nat) (hj : j < [exTable 3].length) (hj' : j < tbls1.length), ∃ o id,
        exRedFails (sprintSmall (index (exInstance "blue" [3]) "instance-name"))
          (sprintSmall (index [exTable 3][j] "tagnode")) = some o ∧
        exParseFloat o = some id ∧ lookup tbls1[j] "tagnode" = some (num id)) ∧
    Request.delTable (sprintSmall (index (exInstance "blue" [3]) "instance-name")) "1" ∈
      exRequestsRedBlue [] ∧
    Request.delTable "default" "5" ∈ exRequestsRedBlue [] :=
  let h := C17_failure_confined sprintSmall exRedFails exGetvrftable exParseFloat id
    (fun m => List.Perm.refl m) "red" exTreeRedBlue exTreeRedBlueOld
    (exTreeRedBlueAfter 1) (exTreeRedBlueAfter 101) (exRequestsRedBlue [])
    (exRequestsRedBlue [Request.delTable "red" "3"])
    (by
      intro ri hri k
      unfold exRedFails
      split
      · exact absurd rfl hri
      · rfl)
    (by decide) (by decide)
  let hb := h.2.2
    [("routing-instance", arr ([exInstance "red" [1], exInstance "blue" [3]].map obj))]
    [exInstance "red" [1], exInstance "blue" [3]] 1 (exInstance "blue" [3])
    [("static", obj (exStaticTables [3]))] (exStaticTables [3]) [exTable 3]
    (by decide) (by decide) (by decide) (by decide) (by decide) (by decide) (by decide)
    (by decide) (by decide)
  let hd := h.2.1 [("static", obj (exStaticTables [1]))] (exStaticTables [1]) [exTable 1]
    (by decide) (by decide) (by decide) (by decide) (by decide)
  ⟨by decide, by decide, by decide, hb.1,
    hb.2
      [("routing-instance",
        arr ([exInstance "red" [1, 3], exInstance "blue" [3, 1]].map obj))]
      [exInstance "red" [1, 3], exInstance "blue" [3, 1]] (exInstance "blue" [3, 1])
      [("static", obj (exStaticTables [3, 1]))] (exStaticTables [3, 1])
      [exTable 3, exTable 1] "1"
      (by decide) (by decide) (by decide) (by decide) (by decide) (by decide) (by decide)
      (by decide) (by decide) (by decide),
    hd.2 [("static", obj (exStaticTables [1, 5]))] (exStaticTables [1, 5])
      [exTable 1, exTable 5] "5"
      (by decide) (by decide) (by decide) (by decide) (by decide)⟩
